import Mathlib

set_option linter.dupNamespace false

/-!
# Reservation system (tasks 1 to 3): shallow embedding and verified properties

The Go sources are `src/task1/reservations_rpara.go`, `src/task2/reservations_rpara.go`
and `src/task3/reservations_rpara.go`.

Modelling conventions.

* Go `int` is modelled by `Int`.  The code only compares times and capacities and
  increments two counters that are bounded by the length of a slice, so no
  arithmetic can overflow.
* The single-field wrapper structs `Actions`, `BookingMessages`, `Requests` and
  `Facilities` are modelled by the list they wrap.
* A `*Facility` is an address (`Nat`); the heap of facilities is a total map
  `Store := Nat → Facility`, so dereferencing is function application.
* The `inbox` channel of a user is not part of the state; what the server sends
  to inboxes is returned as the list of delivered messages, in sending order.
* Goroutine scheduling is modelled by its two observable effects: the clock value
  each evaluation reads, and the order in which the responses reach the server.
  The step model `Machine` interleaves the goroutines of the server and of the
  evaluations one program point at a time; every state it reaches is shown to
  continue a run of the serial `ServerLoop`.
-/

/-- Source: `CheckTimeslotOverlap(a1, a2, b1, b2)`; the text of this function is
identical in task 1 (line 108), task 2 (line 107) and task 3 (line 141). -/
def CheckTimeslotOverlap (a1 a2 b1 b2 : Int) : Bool :=
  (decide (a1 ≥ b1) && decide (a1 < b2)) || (decide (a2 > b1) && decide (a2 ≤ b2))

namespace Task3

/-- Source: `type User struct` (task 3), without the `inbox` channel. -/
structure User where
  Id : Int
  Priority : Bool
  deriving DecidableEq, Repr

/-- Source: `type Request struct`, over the type `B` of bookings; `Facility` is a pointer. -/
structure RequestOf (B : Type) where
  Facility : Nat
  Booking : B

/-- Source: `type Booking struct` (task 3).  `RequestsPtr` is `none` for a nil
pointer and otherwise holds the `Requests` value it points to: that value is
written once, when the compound is created, and never changed afterwards. -/
structure Booking where
  User : User
  FacilityID : String
  StartTime : Int
  EndTime : Int
  RequestsPtr : Option (List (RequestOf Booking))

/-- Source: `type Request struct` (task 3). -/
abbrev Request := RequestOf Booking

/-- Source: `type Requests struct` (task 3), as the slice it wraps. -/
abbrev Requests := List Request

/-- Source: `type Facility struct` (task 3). -/
structure Facility where
  Id : String
  Bookings : List Booking
  Capacity : Int

/-- The heap of facilities: what a `*Facility` points to. -/
abbrev Store := Nat → Facility

/-- Source: `type Action struct`; `Action` is 0 for add and 1 for remove. -/
structure Action where
  Action : Int
  Booking : Booking
  Facility : Nat

/-- Source: `type BookingMessage struct`; `Action` is 0 successful, 1 not successful,
2 cancelled. -/
structure BookingMessage where
  Booking : Booking
  Action : Int
  Message : String

/-- Source: `type CheckResponse struct`. -/
structure CheckResponse where
  Actions : List Action
  BookingMessages : List BookingMessage

/-- Source: `CheckBookingEquality` (task 3, line 137). -/
def CheckBookingEquality (a b : Booking) : Bool :=
  decide (a.User.Id = b.User.Id) && decide (a.FacilityID = b.FacilityID) &&
    decide (a.StartTime = b.StartTime) && decide (a.EndTime = b.EndTime)

/-- Source: `AddBooking` (task 3, line 145): append to the facility's slice. -/
def AddBooking (booking : Booking) (facility : Nat) (s : Store) : Store :=
  Function.update s facility
    { Id := (s facility).Id, Bookings := (s facility).Bookings ++ [booking],
      Capacity := (s facility).Capacity }

/-- The loop of `RemoveBooking`: drop the first element equal to `booking` under
`CheckBookingEquality`, then `break`. -/
def removeFirst (booking : Booking) : List Booking → List Booking
  | [] => []
  | b :: bs => if CheckBookingEquality b booking then bs else b :: removeFirst booking bs

/-- Source: `RemoveBooking` (task 3, line 149). -/
def RemoveBooking (booking : Booking) (facility : Nat) (s : Store) : Store :=
  Function.update s facility
    { Id := (s facility).Id, Bookings := removeFirst booking (s facility).Bookings,
      Capacity := (s facility).Capacity }

/-- The counting loop of `CheckBooking` (task 3, lines 311 to 328), started with the
counters `num_reserved` and `num_reserved_vip`.  The result is `none` when the loop
leaves through its `return` (the "Capacity exceeded." response) and otherwise the
two counters after the last booking. -/
def scan (candidate : Booking) (capacity : Int) : List Booking → Int → Int → Option (Int × Int)
  | [], num_reserved, num_reserved_vip => some (num_reserved, num_reserved_vip)
  | booking :: rest, num_reserved, num_reserved_vip =>
    let hit := CheckTimeslotOverlap candidate.StartTime candidate.EndTime
      booking.StartTime booking.EndTime
    let n := if hit then num_reserved + 1 else num_reserved
    let v := if hit && booking.User.Priority then num_reserved_vip + 1 else num_reserved_vip
    if (decide (n ≥ capacity) && !candidate.User.Priority) || decide (v ≥ capacity) then none
    else scan candidate capacity rest n v

/-- The test of the second loop of `CheckBooking` (task 3, line 341): the booking
overlaps the candidate according to `CheckTimeslotOverlap` and its owner is not VIP. -/
def evictable (candidate booking : Booking) : Bool :=
  CheckTimeslotOverlap candidate.StartTime candidate.EndTime booking.StartTime booking.EndTime
    && !booking.User.Priority

/-- The second loop of `CheckBooking` (task 3, lines 340 to 357): the first booking, in
slice order, that passes the test; the loop body returns at that booking. -/
def findVictim (candidate : Booking) : List Booking → Option Booking
  | [] => none
  | booking :: rest =>
    if evictable candidate booking then some booking else findVictim candidate rest

/-- Source: `CheckBooking` (task 3, line 294).  `now` is the value returned by the one
call of `GetCurrentTime`, `facility` the pointer argument, and the result is the
response sent on the channel; `none` stands for the nil-pointer dereference of
`*booking.RequestsPtr` at line 345, from which the program does not recover. -/
def CheckBooking (s : Store) (request : Request) (now : Int) (facility : Nat) :
    Option CheckResponse :=
  if request.Booking.StartTime < now then
    some ⟨[], [⟨request.Booking, 1, "Booking is in the past."⟩]⟩
  else if request.Booking.StartTime ≥ request.Booking.EndTime then
    some ⟨[], [⟨request.Booking, 1, "Start time is after end time."⟩]⟩
  else
    match scan request.Booking (s facility).Capacity (s facility).Bookings 0 0 with
    | none => some ⟨[], [⟨request.Booking, 1, "Capacity exceeded."⟩]⟩
    | some (num_reserved, _) =>
      if num_reserved < (s facility).Capacity then
        some ⟨[⟨0, request.Booking, facility⟩],
          [⟨request.Booking, 0, "Facilities were booked."⟩]⟩
      else
        match findVictim request.Booking (s facility).Bookings with
        | some booking =>
          match booking.RequestsPtr with
          | none => none
          | some group =>
            some ⟨group.map (fun requestt => ⟨1, requestt.Booking, requestt.Facility⟩)
                ++ [⟨0, request.Booking, facility⟩],
              group.map (fun requestt =>
                  ⟨requestt.Booking, 2, "A VIP-User has overwritten your booking."⟩)
                ++ [⟨request.Booking, 0,
                  "Facilities were booked, you have overwritten a non-VIP booking."⟩]⟩
        | none => some ⟨[], [⟨request.Booking, 1, "Facility not found."⟩]⟩

/-- The inner loop of the server over the messages of one response (task 3, lines 228
to 239): `m` is appended unless a message already collected concerns an equal booking. -/
def addMessage (messages : List BookingMessage) (m : BookingMessage) : List BookingMessage :=
  if messages.any (fun message => CheckBookingEquality message.Booking m.Booking) then messages
  else messages ++ [m]

/-- The inner loop of the server over the actions of one response (task 3, lines 241 to
252): `a` is appended unless an action already collected concerns an equal booking. -/
def addAction (actions : List Action) (a : Action) : List Action :=
  if actions.any (fun action => CheckBookingEquality action.Booking a.Booking) then actions
  else actions ++ [a]

/-- One round of the receiving loop of the server (task 3, lines 225 to 252). -/
def collect (acc : List BookingMessage × List Action) (check_response : CheckResponse) :
    List BookingMessage × List Action :=
  (check_response.BookingMessages.foldl addMessage acc.1,
    check_response.Actions.foldl addAction acc.2)

/-- The receiving loop of the server (task 3, lines 224 to 253) over the responses in
the order in which they arrive. -/
def aggregate (arrived : List CheckResponse) : List BookingMessage × List Action :=
  arrived.foldl collect ([], [])

/-- The body of the commit loop of the server (task 3, lines 264 to 271). -/
def execute (s : Store) (action : Action) : Store :=
  if action.Action = 0 then AddBooking action.Booking action.Facility s
  else if action.Action = 1 then RemoveBooking action.Booking action.Facility s
  else s

/-- The flag `compound_possible` of the server (task 3, lines 212 and 255 to 259). -/
def compound_possible (messages : List BookingMessage) : Bool :=
  messages.all (fun message => !decide (message.Action = 1))

/-- The messages the server sends when the compound is not possible (task 3, lines 280
to 284). -/
def failureMessages (messages : List BookingMessage) : List BookingMessage :=
  (messages.filter (fun message => !decide (message.Action = 2))).map (fun message =>
    ⟨message.Booking, 1,
      "Booking not successful as a part of the compound could not be booked."⟩)

/-- Source: `Server` (task 3, line 197), one iteration of its loop from the point where
the evaluations have been started: `arrived` are the responses in arrival order.  The
result is the store after the iteration and the messages sent to inboxes. -/
def Server (s : Store) (arrived : List CheckResponse) : Store × List BookingMessage :=
  let collected := aggregate arrived
  if compound_possible collected.1 then (collected.2.foldl execute s, collected.1)
  else (s, failureMessages collected.1)

/-- The evaluations the server starts for a compound (task 3, lines 218 to 221), in
request order: the copy of each request gets `RequestsPtr = &requests`, and the
evaluation of the request at position `i` reads the clock value `clock i`.  All of
them read the store `s` of before the commit. -/
def evaluations (s : Store) (requests : Requests) (clock : Nat → Int) :
    List (Option CheckResponse) :=
  requests.enum.map (fun p =>
    CheckBooking s
      ⟨p.2.Facility, ⟨p.2.Booking.User, p.2.Booking.FacilityID, p.2.Booking.StartTime,
        p.2.Booking.EndTime, some requests⟩⟩
      (clock p.1) p.2.Facility)

/-- Source: `MakeBookings` (task 3, line 365): one request per facility pointer, for the
same user and interval; the compound that is put on the input channel. -/
def MakeBookings (user : User) (s : Store) (facilities : List Nat) (StartTime EndTime : Int) :
    Requests :=
  facilities.map (fun facility =>
    ⟨facility, ⟨user, (s facility).Id, StartTime, EndTime, none⟩⟩)

/-- Number of bookings of a sequence that hold the instant `t`, that is with
`StartTime ≤ t < EndTime`. -/
def occupancy (bookings : List Booking) (t : Int) : Nat :=
  bookings.countP (fun b => decide (b.StartTime ≤ t) && decide (t < b.EndTime))

/-- Number of VIP-owned bookings of a sequence that hold the instant `t`. -/
def occupancyVIP (bookings : List Booking) (t : Int) : Nat :=
  bookings.countP (fun b => b.User.Priority && decide (b.StartTime ≤ t) && decide (t < b.EndTime))

/-- The facilities of `main` (task 3, lines 407 to 411) with capacity `capacity`: the room
at address 0 and the projector at address 1, both without bookings; any other address
holds the zero value of `Facility`. -/
def mainStore (capacity : Int) : Store := fun p =>
  match p with
  | 0 => ⟨"room", [], capacity⟩
  | 1 => ⟨"projector", [], capacity⟩
  | _ => ⟨"", [], 0⟩

/-- Responses in request order, for scenarios in which every evaluation returns. -/
def arrivedInRequestOrder (s : Store) (requests : Requests) (clock : Nat → Int) :
    List CheckResponse :=
  (evaluations s requests clock).filterMap id

/-- Number of bookings of a sequence for which `CheckTimeslotOverlap` answers true
against the candidate, as counted by `num_reserved` in `CheckBooking`. -/
def overlapCount (candidate : Booking) (bookings : List Booking) : Nat :=
  bookings.countP (fun booking => CheckTimeslotOverlap candidate.StartTime candidate.EndTime
    booking.StartTime booking.EndTime)

/-- The response that `CheckBooking` sends from its branch `num_reserved < Capacity`
(task 3, lines 332 to 335): one add action and one message with `Action` 0. -/
def outright (request : Request) (facility : Nat) : CheckResponse :=
  ⟨[⟨0, request.Booking, facility⟩], [⟨request.Booking, 0, "Facilities were booked."⟩]⟩

/-- The store after the server has handled the compound `requests` on `s`, when every
evaluation reads the clock value `now` and the responses arrive in request order. -/
def afterCompound (s : Store) (requests : Requests) (now : Int) : Store :=
  (Server s (arrivedInRequestOrder s requests (fun _ => now))).1

/-- Two compounds made by `MakeBookings` for the room and the projector of `mainStore 1`
and handled one after the other at clock value 0: `first` books [2,5), then `second`
books [0,10). -/
def enclosingRun (first second : User) : Store :=
  afterCompound
    (afterCompound (mainStore 1) (MakeBookings first (mainStore 1) [0, 1] 2 5) 0)
    (MakeBookings second (mainStore 1) [0, 1] 0 10) 0

/-- A compound of two users: standard user 2 asks for the room and VIP user 1 for the
projector, both for [10,15). -/
def mixedCompound : Requests :=
  [⟨0, ⟨⟨2, false⟩, "room", 10, 15, none⟩⟩, ⟨1, ⟨⟨1, true⟩, "projector", 10, 15, none⟩⟩]

/-- A later compound: VIP user 3 asks for the room and VIP user 1 for the projector, both
for [10,15). -/
def laterCompound : Requests :=
  [⟨0, ⟨⟨3, true⟩, "room", 10, 15, none⟩⟩, ⟨1, ⟨⟨1, true⟩, "projector", 10, 15, none⟩⟩]

/-- The store reached from `mainStore 1` by `mixedCompound`. -/
def mixedStore : Store := afterCompound (mainStore 1) mixedCompound 0

/-- The store reached from `mainStore 1` when standard user 1 books the room and the
projector for [10,15) in one compound made by `MakeBookings`. -/
def pairStore : Store :=
  afterCompound (mainStore 1) (MakeBookings ⟨1, false⟩ (mainStore 1) [0, 1] 10 15) 0

/-- The request for the room that `Server` hands to `CheckBooking` when VIP user 3 books
the room and the projector for [10,15) with `MakeBookings`. -/
def vipRoomRequest : Request :=
  ⟨0, ⟨⟨3, true⟩, "room", 10, 15, some (MakeBookings ⟨3, true⟩ (mainStore 1) [0, 1] 10 15)⟩⟩

/-- The response to `vipRoomRequest` on `pairStore`: both bookings of user 1's compound
are removed and cancelled, then the candidate is added and accepted. -/
def vipRoomResponse : CheckResponse :=
  ⟨[⟨1, ⟨⟨1, false⟩, "room", 10, 15, none⟩, 0⟩,
    ⟨1, ⟨⟨1, false⟩, "projector", 10, 15, none⟩, 1⟩,
    ⟨0, vipRoomRequest.Booking, 0⟩],
   [⟨⟨⟨1, false⟩, "room", 10, 15, none⟩, 2, "A VIP-User has overwritten your booking."⟩,
    ⟨⟨⟨1, false⟩, "projector", 10, 15, none⟩, 2, "A VIP-User has overwritten your booking."⟩,
    ⟨vipRoomRequest.Booking, 0,
      "Facilities were booked, you have overwritten a non-VIP booking."⟩]⟩

end Task3

namespace Task2

/-- Source: `type User struct` (task 2), without the `inbox` channel. -/
structure User where
  Id : Int
  Priority : Bool
  deriving DecidableEq, Repr

/-- Source: `type Booking struct` (task 2). -/
structure Booking where
  User : User
  FacilityID : String
  StartTime : Int
  EndTime : Int
  deriving DecidableEq, Repr

/-- Source: `type Facility struct` (task 2), without the `Inbox` channel. -/
structure Facility where
  Id : String
  Bookings : List Booking
  Capacity : Int
  deriving DecidableEq, Repr

/-- Source: `type Request struct` (task 2). -/
structure Request where
  FacilityId : String
  Booking : Booking
  deriving DecidableEq, Repr

/-- Source: `type BookingMessage struct` (task 2). -/
structure BookingMessage where
  Booking : Booking
  Action : Int
  Message : String
  deriving DecidableEq, Repr

/-- The counting loop of `CheckBooking` (task 2, lines 189 to 204); `none` when the loop
returns the "Capacity exceeded." message, otherwise the two counters at its end. -/
def scan (candidate : Booking) (capacity : Int) : List Booking → Int → Int → Option (Int × Int)
  | [], num_reserved, num_reserved_vip => some (num_reserved, num_reserved_vip)
  | booking :: rest, num_reserved, num_reserved_vip =>
    let hit := CheckTimeslotOverlap candidate.StartTime candidate.EndTime
      booking.StartTime booking.EndTime
    let n := if hit then num_reserved + 1 else num_reserved
    let v := if hit && booking.User.Priority then num_reserved_vip + 1 else num_reserved_vip
    if (decide (n ≥ capacity) && !candidate.User.Priority) || decide (v ≥ capacity) then none
    else scan candidate capacity rest n v

/-- The test of the second loop of `CheckBooking` (task 2, line 215). -/
def evictable (candidate booking : Booking) : Bool :=
  CheckTimeslotOverlap candidate.StartTime candidate.EndTime booking.StartTime booking.EndTime
    && !booking.User.Priority

/-- The second loop of `CheckBooking` (task 2, lines 214 to 224), entered at index `i`:
the index and the booking at which the loop body runs and returns. -/
def findVictim (candidate : Booking) : List Booking → Nat → Option (Nat × Booking)
  | [], _ => none
  | booking :: rest, i =>
    if evictable candidate booking then some (i, booking)
    else findVictim candidate rest (i + 1)

/-- Source: `CheckBooking` (task 2, line 177): the returned messages and the facility as
the call leaves it. -/
def CheckBooking (request : Request) (now : Int) (facility : Facility) :
    List BookingMessage × Facility :=
  if request.Booking.StartTime < now then
    ([⟨request.Booking, 1, "Booking is in the past."⟩], facility)
  else if request.Booking.StartTime ≥ request.Booking.EndTime then
    ([⟨request.Booking, 1, "Start time is after end time."⟩], facility)
  else
    match scan request.Booking facility.Capacity facility.Bookings 0 0 with
    | none => ([⟨request.Booking, 1, "Capacity exceeded."⟩], facility)
    | some (num_reserved, _) =>
      if num_reserved < facility.Capacity then
        ([⟨request.Booking, 0, "Facilities were booked."⟩],
          { facility with Bookings := facility.Bookings ++ [request.Booking] })
      else
        match findVictim request.Booking facility.Bookings 0 with
        | some (i, booking) =>
          ([⟨booking, 2, "A VIP-User has overwritten your booking."⟩,
            ⟨request.Booking, 0,
              "Facilities were booked, you have overwritten a non-VIP booking."⟩],
            { facility with Bookings := facility.Bookings.eraseIdx i ++ [request.Booking] })
        | none => ([⟨request.Booking, 1, "Facility not found."⟩], facility)

/-- A room of capacity 2 that holds the bookings of the standard users 1 and 2 for
[10,15), as in the test of `main` (task 2). -/
def fullRoom : Facility :=
  ⟨"room", [⟨⟨1, false⟩, "room", 10, 15⟩, ⟨⟨2, false⟩, "room", 10, 15⟩], 2⟩

/-- The request of VIP user 3 for the room for [10,15), as in the test of `main` (task 2). -/
def vipRequest : Request := ⟨"room", ⟨⟨3, true⟩, "room", 10, 15⟩⟩

end Task2

namespace Task3

/-- Number of VIP-owned bookings of a sequence for which `CheckTimeslotOverlap` answers
true against the candidate, as counted by `num_reserved_vip` in `CheckBooking`. -/
def vipOverlapCount (candidate : Booking) (bookings : List Booking) : Nat :=
  bookings.countP (fun booking => CheckTimeslotOverlap candidate.StartTime candidate.EndTime
    booking.StartTime booking.EndTime && booking.User.Priority)

/-- The response that `CheckBooking` sends from inside its counting loop (task 3, lines
324 to 326): no action and one message with `Action` 1 and "Capacity exceeded.". -/
def capacityExceeded (request : Request) : CheckResponse :=
  ⟨[], [⟨request.Booking, 1, "Capacity exceeded."⟩]⟩

/-- The response that `CheckBooking` sends from its second loop (task 3, lines 343 to
354) for a victim whose `RequestsPtr` points to `group`. -/
def overwriting (request : Request) (facility : Nat) (group : Requests) : CheckResponse :=
  ⟨group.map (fun requestt => ⟨1, requestt.Booking, requestt.Facility⟩)
      ++ [⟨0, request.Booking, facility⟩],
    group.map (fun requestt =>
        ⟨requestt.Booking, 2, "A VIP-User has overwritten your booking."⟩)
      ++ [⟨request.Booking, 0,
        "Facilities were booked, you have overwritten a non-VIP booking."⟩]⟩

/-- The request for the room that `Server` hands to `CheckBooking` when standard user 2
books the room and the projector for [10,15) with `MakeBookings`. -/
def standardRoomRequest : Request :=
  ⟨0, ⟨⟨2, false⟩, "room", 10, 15, some (MakeBookings ⟨2, false⟩ (mainStore 1) [0, 1] 10 15)⟩⟩

end Task3

namespace Task3

/-- Facilities as in `main`, but the room with capacity 1 and the projector with capacity
2, both without bookings. -/
def unevenStore : Store := fun p =>
  match p with
  | 0 => ⟨"room", [], 1⟩
  | 1 => ⟨"projector", [], 2⟩
  | _ => ⟨"", [], 0⟩

/-- The store reached from `unevenStore` when standard user 1 books the room and the
projector for [10,15) in one compound made by `MakeBookings`. -/
def unevenPairStore : Store :=
  afterCompound unevenStore (MakeBookings ⟨1, false⟩ unevenStore [0, 1] 10 15) 0

/-- A compound of two users: VIP user 3 asks for the room and standard user 1 for the
projector, both for [10,15). -/
def rebookCompound : Requests :=
  [⟨0, ⟨⟨3, true⟩, "room", 10, 15, none⟩⟩, ⟨1, ⟨⟨1, false⟩, "projector", 10, 15, none⟩⟩]

/-- The store reached from `mainStore 1` when standard user 1 books the room alone for
[10,15). -/
def roomOnlyStore : Store :=
  afterCompound (mainStore 1) (MakeBookings ⟨1, false⟩ (mainStore 1) [0] 10 15) 0

/-- The responses, in request order, to the compound of standard user 2 for the room and
the projector for [10,15) on `roomOnlyStore`: the room is full, the projector is free. -/
def halfFailedArrival : List CheckResponse :=
  arrivedInRequestOrder roomOnlyStore (MakeBookings ⟨2, false⟩ (mainStore 1) [0, 1] 10 15)
    (fun _ => 0)

end Task3

namespace Task3

/-- A task 3 booking read as a task 2 booking: the same user, facility id and interval,
without the pointer to the compound group, which task 2 does not have. -/
def toTask2 (b : Booking) : Task2.Booking :=
  ⟨⟨b.User.Id, b.User.Priority⟩, b.FacilityID, b.StartTime, b.EndTime⟩

/-- A task 3 facility read as a task 2 facility. -/
def toTask2Facility (facility : Facility) : Task2.Facility :=
  ⟨facility.Id, facility.Bookings.map toTask2, facility.Capacity⟩

/-- A task 3 request read as the task 2 request that `MakeBooking` (task 2, line 230)
builds for the same booking. -/
def toTask2Request (request : Request) : Task2.Request :=
  ⟨request.Booking.FacilityID, toTask2 request.Booking⟩

/-- The store in which the room of capacity 1 holds the booking of standard user 1 for
[10,15), made as a compound of that booking alone. -/
def soloStore : Store :=
  afterCompound (mainStore 1) [⟨0, ⟨⟨1, false⟩, "room", 10, 15, none⟩⟩] 0

/-- The request of VIP user 3 for the room for [10,15), as a compound of its own. -/
def soloVipRequest : Request := ⟨0, ⟨⟨3, true⟩, "room", 10, 15, none⟩⟩

end Task3

namespace Task1

/-- Source: `type User struct` (task 1), without the `inbox` channel. -/
structure User where
  Id : Int
  deriving DecidableEq, Repr

/-- Source: `type Booking struct` (task 1). -/
structure Booking where
  User : User
  FacilityID : String
  StartTime : Int
  EndTime : Int
  deriving DecidableEq, Repr

/-- Source: `type Facility struct` (task 1), without the `Inbox` channel. -/
structure Facility where
  Id : String
  Bookings : List Booking
  Capacity : Int
  deriving DecidableEq, Repr

/-- Source: `type Request struct` (task 1). -/
structure Request where
  FacilityId : String
  Booking : Booking
  deriving DecidableEq, Repr

/-- Source: `type BookingMessage struct` (task 1); `Action` is 0 successful, 1 not
successful. -/
structure BookingMessage where
  Booking : Booking
  Action : Int
  Message : String
  deriving DecidableEq, Repr

/-- The counting loop of `CheckBooking` (task 1, lines 180 to 191), started with the
counter `num_reserved`; `none` when the loop returns the "Capacity exceeded." message,
otherwise the counter at its end. -/
def scan (candidate : Booking) (capacity : Int) : List Booking → Int → Option Int
  | [], num_reserved => some num_reserved
  | booking :: rest, num_reserved =>
    let n := if CheckTimeslotOverlap candidate.StartTime candidate.EndTime
      booking.StartTime booking.EndTime then num_reserved + 1 else num_reserved
    if n ≥ capacity then none else scan candidate capacity rest n

/-- Source: `CheckBooking` (task 1, line 168): the returned messages and the facility as
the call leaves it. -/
def CheckBooking (request : Request) (now : Int) (facility : Facility) :
    List BookingMessage × Facility :=
  if request.Booking.StartTime < now then
    ([⟨request.Booking, 1, "Booking is in the past."⟩], facility)
  else if request.Booking.StartTime ≥ request.Booking.EndTime then
    ([⟨request.Booking, 1, "Start time is after end time."⟩], facility)
  else
    match scan request.Booking facility.Capacity facility.Bookings 0 with
    | none => ([⟨request.Booking, 1, "Capacity exceeded."⟩], facility)
    | some num_reserved =>
      if num_reserved < facility.Capacity then
        ([⟨request.Booking, 0, "Facilities were booked."⟩],
          { facility with Bookings := facility.Bookings ++ [request.Booking] })
      else ([⟨request.Booking, 1, "Facility not found."⟩], facility)

/-- Source: `FacilityServer` (task 1, line 141), the loop of one facility over the
requests in the order in which it receives them from its inbox, each with the clock
value that its `CheckBooking` reads: the messages sent for each request, and the
facility after the last one. -/
def FacilityServer (facility : Facility) :
    List (Request × Int) → List (List BookingMessage) × Facility
  | [] => ([], facility)
  | (request, now) :: rest =>
    let checked := CheckBooking request now facility
    let served := FacilityServer checked.2 rest
    (checked.1 :: served.1, served.2)

/-- Two bookings carry the same interval. -/
def sameInterval (a b : Booking) : Bool :=
  decide (a.StartTime = b.StartTime) && decide (a.EndTime = b.EndTime)

/-- The requests that the projector of the test of `main` (task 1, lines 253 to 259)
receives, in one of the possible orders and all read at clock value 0: users 1, 2, 3
ask for [10,15) and users 4, 5 for [15,20). -/
def projectorInbox : List (Request × Int) :=
  [(⟨"projector", ⟨⟨1⟩, "projector", 10, 15⟩⟩, 0),
   (⟨"projector", ⟨⟨4⟩, "projector", 15, 20⟩⟩, 0),
   (⟨"projector", ⟨⟨2⟩, "projector", 10, 15⟩⟩, 0),
   (⟨"projector", ⟨⟨3⟩, "projector", 10, 15⟩⟩, 0),
   (⟨"projector", ⟨⟨5⟩, "projector", 15, 20⟩⟩, 0)]

end Task1

namespace Task2

/-- Source: `FacilityServer` (task 2, line 148), the loop of one facility over the
requests in the order in which it receives them from its inbox, each with the clock
value that its `CheckBooking` reads: the messages sent for each request, and the
facility after the last one. -/
def FacilityServer (facility : Facility) :
    List (Request × Int) → List (List BookingMessage) × Facility
  | [] => ([], facility)
  | (request, now) :: rest =>
    let checked := CheckBooking request now facility
    let served := FacilityServer checked.2 rest
    (checked.1 :: served.1, served.2)

/-- Number of VIP-owned bookings of a sequence. -/
def vipCount (bookings : List Booking) : Nat :=
  bookings.countP (fun b => b.User.Priority)

/-- The requests that the room of the test of `main` (task 2, lines 281 to 285) receives,
in one of the possible orders and all read at clock value 0: the standard users 1 and 2
and the VIP users 3, 4 and 5 ask for [10,15). -/
def roomInbox : List (Request × Int) :=
  [(⟨"room", ⟨⟨1, false⟩, "room", 10, 15⟩⟩, 0),
   (⟨"room", ⟨⟨3, true⟩, "room", 10, 15⟩⟩, 0),
   (⟨"room", ⟨⟨2, false⟩, "room", 10, 15⟩⟩, 0),
   (⟨"room", ⟨⟨4, true⟩, "room", 10, 15⟩⟩, 0),
   (⟨"room", ⟨⟨5, true⟩, "room", 10, 15⟩⟩, 0)]

end Task2

namespace Task2

/-- The requests that the projector of the test of `main` (task 2, lines 281 to 285)
receives, in one of the possible orders and all read at clock value 0: the users 1 to 4
ask for [10,15) and VIP user 5 asks for [15,20). -/
def projectorInbox : List (Request × Int) :=
  [(⟨"projector", ⟨⟨1, false⟩, "projector", 10, 15⟩⟩, 0),
   (⟨"projector", ⟨⟨3, true⟩, "projector", 10, 15⟩⟩, 0),
   (⟨"projector", ⟨⟨2, false⟩, "projector", 10, 15⟩⟩, 0),
   (⟨"projector", ⟨⟨4, true⟩, "projector", 10, 15⟩⟩, 0),
   (⟨"projector", ⟨⟨5, true⟩, "projector", 15, 20⟩⟩, 0)]

end Task2

namespace Task3

/-- The responses that the server receives for one compound when every evaluation
returns: `none` as soon as one evaluation does not return (it dereferences a nil
pointer), since the receiving loop then never gets its last response. -/
def returned : List (Option CheckResponse) → Option (List CheckResponse)
  | [] => some []
  | none :: _ => none
  | some response :: rest => (returned rest).map (fun responses => response :: responses)

/-- Source: one iteration of the loop of `Server` (task 3, lines 199 to 286) for the
compound `requests`.  The scheduler chooses the clock value `clock i` that the
evaluation of the request at position `i` reads and the order `order` in which the
responses arrive.  The result is the store after the iteration and the messages sent
to inboxes. -/
def ServerIteration (s : Store) (requests : Requests) (clock : Nat → Int)
    (order : List CheckResponse → List CheckResponse) : Option (Store × List BookingMessage) :=
  (returned (evaluations s requests clock)).map (fun responses => Server s (order responses))

/-- Source: the loop of `Server` (task 3, lines 199 to 286) over the compounds in the
order in which it takes them from its input channel, each with the choices of the
scheduler for it.  The result is the store at the end and the messages sent, one list
per compound. -/
def ServerLoop : Store →
    List (Requests × (Nat → Int) × (List CheckResponse → List CheckResponse)) →
    Option (Store × List (List BookingMessage))
  | s, [] => some (s, [])
  | s, job :: rest =>
    match ServerIteration s job.1 job.2.1 job.2.2 with
    | none => none
    | some r => (ServerLoop r.1 rest).map (fun t => (t.1, r.2 :: t.2))

/-- Whose inbox gets which outcome code: the server sends `message` to
`message.Booking.User.inbox` (task 3, lines 275 and 282). -/
def inboxActions (messages : List BookingMessage) : List (User × Int) :=
  messages.map (fun message => (message.Booking.User, message.Action))

/-- The booking that `CheckBooking` receives, and that a commit stores, for the request
of `MakeBookings user s0 facilities StartTime EndTime` at `facility`: the server has set
its `RequestsPtr` to the compound. -/
def compoundBooking (s0 : Store) (facilities : List Nat) (StartTime EndTime : Int)
    (user : User) (facility : Nat) : Booking :=
  ⟨user, (s0 facility).Id, StartTime, EndTime,
    some (MakeBookings user s0 facilities StartTime EndTime)⟩

/-- What `execute` does to the facility that the action points to (task 3, lines 264 to
271): `AddBooking` for 0, `RemoveBooking` for 1, nothing otherwise. -/
def effect (facility : Facility) (action : Action) : Facility :=
  if action.Action = 0 then
    { Id := facility.Id, Bookings := facility.Bookings ++ [action.Booking],
      Capacity := facility.Capacity }
  else if action.Action = 1 then
    { Id := facility.Id, Bookings := removeFirst action.Booking facility.Bookings,
      Capacity := facility.Capacity }
  else facility

/-- Every facility of `facilities` has the id it has in `s0` and the capacity `c`, and
holds the bookings of the compounds that `MakeBookings` builds for the users `holders`,
in the order of `holders`. -/
def Seated (s0 : Store) (facilities : List Nat) (c StartTime EndTime : Int) (st : Store)
    (holders : List User) : Prop :=
  ∀ f ∈ facilities, (st f).Id = (s0 f).Id ∧ (st f).Capacity = c ∧
    (st f).Bookings = holders.map (fun w => compoundBooking s0 facilities StartTime EndTime w f)

end Task3

namespace Task3

/-- The users of `main` (task 3, lines 417 to 421) in the order in which the server takes
their compounds when the standard users 1 and 2, who sleep one second, come before the
VIP users 3, 4 and 5, who sleep two. -/
def mainUsers : List User := [⟨1, false⟩, ⟨2, false⟩, ⟨3, true⟩, ⟨4, true⟩, ⟨5, true⟩]

/-- A schedule for the users of `main`: every evaluation reads the clock value 3 and
the responses of each compound arrive in reverse request order. -/
def mainJobs : List (User × (Nat → Int) × (List CheckResponse → List CheckResponse)) :=
  mainUsers.map (fun u => (u, fun _ => 3, List.reverse))

end Task3

namespace Task3

/-- Source: `CheckBooking` (task 3, line 294) in state-passing form: the heap of
facilities goes in and comes out together with the response.  Every path of the
function ends in a send followed by `return`; between entry and that point the function
assigns only to its locals `Actions`, `num_reserved`, `num_reserved_vip` and
`booking_messages`, so each path hands back the heap it was given. -/
def CheckBookingStateful (s : Store) (request : Request) (now : Int) (facility : Nat) :
    Store × Option CheckResponse :=
  if request.Booking.StartTime < now then
    (s, some ⟨[], [⟨request.Booking, 1, "Booking is in the past."⟩]⟩)
  else if request.Booking.StartTime ≥ request.Booking.EndTime then
    (s, some ⟨[], [⟨request.Booking, 1, "Start time is after end time."⟩]⟩)
  else
    match scan request.Booking (s facility).Capacity (s facility).Bookings 0 0 with
    | none => (s, some ⟨[], [⟨request.Booking, 1, "Capacity exceeded."⟩]⟩)
    | some (num_reserved, _) =>
      if num_reserved < (s facility).Capacity then
        (s, some ⟨[⟨0, request.Booking, facility⟩],
          [⟨request.Booking, 0, "Facilities were booked."⟩]⟩)
      else
        match findVictim request.Booking (s facility).Bookings with
        | some booking =>
          match booking.RequestsPtr with
          | none => (s, none)
          | some group =>
            (s, some ⟨group.map (fun requestt => ⟨1, requestt.Booking, requestt.Facility⟩)
                ++ [⟨0, request.Booking, facility⟩],
              group.map (fun requestt =>
                  ⟨requestt.Booking, 2, "A VIP-User has overwritten your booking."⟩)
                ++ [⟨request.Booking, 0,
                  "Facilities were booked, you have overwritten a non-VIP booking."⟩]⟩)
        | none => (s, some ⟨[], [⟨request.Booking, 1, "Facility not found."⟩]⟩)

/-- The store `pairStore` with another projector: capacity 5 and no bookings. -/
def pairStoreOtherProjector : Store :=
  Function.update pairStore 1 ⟨"projector", [], 5⟩

end Task3

namespace Task3

/-- The booking `b` is the copy that the server made of a request of one of the compounds
`jobs` (task 3, line 219: same user, facility id and interval, `RequestsPtr` set to the
compound), and the clock value that the evaluation of that request read is not after the
start of `b`. -/
def EvaluatedIn (jobs : List (Requests × (Nat → Int) × (List CheckResponse → List CheckResponse)))
    (b : Booking) : Prop :=
  ∃ job ∈ jobs, ∃ (i : Nat) (r : Request), job.1[i]? = some r ∧
    b = ⟨r.Booking.User, r.Booking.FacilityID, r.Booking.StartTime, r.Booking.EndTime,
      some job.1⟩ ∧
    job.2.1 i ≤ b.StartTime

/-- Four compounds for the facilities of `main` with capacity 1: `mixedCompound`; the
compound of standard user 4 with the room interval [20,15), which is not proper; the
compound of VIP user 5 for [1,6); the compound of standard user 4 for [20,25).  The
evaluation of the request at position `i` reads the clock value `3 + i` and the responses
arrive in reverse request order. -/
def variedJobs : List (Requests × (Nat → Int) × (List CheckResponse → List CheckResponse)) :=
  [(mixedCompound, fun i => 3 + i, List.reverse),
    ([⟨0, ⟨⟨4, false⟩, "room", 20, 15, none⟩⟩, ⟨1, ⟨⟨4, false⟩, "projector", 20, 25, none⟩⟩],
      fun i => 3 + i, List.reverse),
    (MakeBookings ⟨5, true⟩ (mainStore 1) [0, 1] 1 6, fun i => 3 + i, List.reverse),
    (MakeBookings ⟨4, false⟩ (mainStore 1) [0, 1] 20 25, fun i => 3 + i, List.reverse)]

end Task3

namespace Task2

/-- A facility without bookings and with capacity 0, and the request of standard user 1
for [10,15) on it. -/
def closedRoom : Facility := ⟨"room", [], 0⟩

end Task2

namespace Task3

/-- Facilities as in `main` with capacity 0. -/
def closedStore : Store := mainStore 0

end Task3

namespace Task3

/-- The copy of a request that the server hands to `CheckBooking` (task 3, lines 218 to
220): the loop variable `request` with `RequestsPtr` set to the compound. -/
def prepare (requests : Requests) (request : Request) : Request :=
  ⟨request.Facility, ⟨request.Booking.User, request.Booking.FacilityID,
    request.Booking.StartTime, request.Booking.EndTime, some requests⟩⟩

/-- Where a goroutine started at line 220 stands in `CheckBooking` (task 3, line 294):
before the call of `GetCurrentTime` (line 298); past both interval checks and before the
loop of line 313; past the test of line 329 and before the loop of line 340; blocked at
a send on `ResponseChannel` with the response it has built; stopped by the nil
dereference of line 345. -/
inductive EvaluatorAt
  | entry
  | firstLoop
  | secondLoop
  | sending (response : CheckResponse)
  | crashed

/-- A goroutine started at line 220: its argument `request` (its argument `facility` is
`request.Facility`) and where it stands. -/
structure Evaluator where
  request : Request
  pc : EvaluatorAt

/-- Whether the goroutine has been stopped by the nil dereference. -/
def Evaluator.hasCrashed (e : Evaluator) : Bool :=
  match e.pc with
  | .crashed => true
  | _ => false

/-- Where the goroutine of `Server` (task 3, line 197) stands: blocked at the receive
from `input` (line 207); in the loop of line 218 with the requests not yet started; at
the receive of line 225 with the number `i` of responses received and the messages and
actions collected so far; in the loop of line 263 with the actions not yet executed; in
the loop of line 274 with the messages not yet sent; in the loop of line 280 with the
messages not yet looked at. -/
inductive ServerAt
  | receiving
  | dispatching (requests : Requests) (remaining : Requests)
  | collecting (requests : Requests) (i : Nat) (messages : List BookingMessage)
      (actions : List Action)
  | committing (actions : List Action) (messages : List BookingMessage)
  | delivering (messages : List BookingMessage)
  | refusing (messages : List BookingMessage)

/-- The state of the running program: the heap of facilities, the compounds whose
senders are blocked at `input <- Requests` (line 371), the server goroutine, the
goroutines of `CheckBooking` that have been started and have not returned, and the
messages sent to inboxes so far, in sending order. -/
structure Machine where
  store : Store
  input : List Requests
  server : ServerAt
  evaluators : List Evaluator
  inboxes : List BookingMessage

/-- What the scheduler lets happen next: the server receives the compound of the `k`-th
blocked sender; the server makes the next turn of its loop of line 218 (it starts a
goroutine, or leaves the loop); evaluator `k` calls `GetCurrentTime`, gets `now` and
makes the two interval checks; evaluator `k` runs its first loop and the test of line
329; evaluator `k` runs its second loop; the send of evaluator `k` meets the receive of
line 225; the server leaves its receiving loop and computes `compound_possible`; the
server makes the next turn of its loop of line 263; the server makes the next turn of
its loop of line 274 or 280. -/
inductive Move
  | take (k : Nat)
  | launch
  | readClock (k : Nat) (now : Int)
  | count (k : Nat)
  | choose (k : Nat)
  | hand (k : Nat)
  | conclude
  | commit
  | notify

/-- The server receives a compound from `input` (task 3, line 207). -/
def stepTake (m : Machine) (k : Nat) : Option Machine :=
  match m.server, m.input[k]? with
  | .receiving, some requests =>
    some { m with input := m.input.eraseIdx k, server := .dispatching requests requests }
  | _, _ => none

/-- One turn of the loop of line 218: `go CheckBooking(...)` for the next request, or the
end of the loop, after which the server is at the receive of line 225 with nothing
collected. -/
def stepLaunch (m : Machine) : Option Machine :=
  match m.server with
  | .dispatching requests (request :: remaining) =>
    some { m with
      server := .dispatching requests remaining,
      evaluators := m.evaluators ++ [⟨prepare requests request, .entry⟩] }
  | .dispatching requests [] => some { m with server := .collecting requests 0 [] [] }
  | _ => none

/-- Lines 298 to 308 of `CheckBooking` for a goroutine at its entry. -/
def afterClock (request : Request) (now : Int) : Evaluator :=
  if request.Booking.StartTime < now then
    ⟨request, .sending ⟨[], [⟨request.Booking, 1, "Booking is in the past."⟩]⟩⟩
  else if request.Booking.StartTime ≥ request.Booking.EndTime then
    ⟨request, .sending ⟨[], [⟨request.Booking, 1, "Start time is after end time."⟩]⟩⟩
  else ⟨request, .firstLoop⟩

/-- Lines 310 to 336 of `CheckBooking`, reading the facility in the heap `s`. -/
def afterCount (s : Store) (request : Request) : Evaluator :=
  match scan request.Booking (s request.Facility).Capacity (s request.Facility).Bookings 0 0 with
  | none => ⟨request, .sending ⟨[], [⟨request.Booking, 1, "Capacity exceeded."⟩]⟩⟩
  | some (num_reserved, _) =>
    if num_reserved < (s request.Facility).Capacity then
      ⟨request, .sending ⟨[⟨0, request.Booking, request.Facility⟩],
        [⟨request.Booking, 0, "Facilities were booked."⟩]⟩⟩
    else ⟨request, .secondLoop⟩

/-- Lines 340 to 361 of `CheckBooking`, reading the facility in the heap `s`. -/
def afterChoice (s : Store) (request : Request) : Evaluator :=
  match findVictim request.Booking (s request.Facility).Bookings with
  | some booking =>
    match booking.RequestsPtr with
    | none => ⟨request, .crashed⟩
    | some group =>
      ⟨request, .sending
        ⟨group.map (fun requestt => ⟨1, requestt.Booking, requestt.Facility⟩)
            ++ [⟨0, request.Booking, request.Facility⟩],
          group.map (fun requestt =>
              ⟨requestt.Booking, 2, "A VIP-User has overwritten your booking."⟩)
            ++ [⟨request.Booking, 0,
              "Facilities were booked, you have overwritten a non-VIP booking."⟩]⟩⟩
  | none => ⟨request, .sending ⟨[], [⟨request.Booking, 1, "Facility not found."⟩]⟩⟩

/-- Evaluator `k`, at its entry, calls `GetCurrentTime`, gets `now` and makes the two
interval checks. -/
def stepReadClock (m : Machine) (k : Nat) (now : Int) : Option Machine :=
  match m.evaluators[k]? with
  | some ⟨request, .entry⟩ =>
    some { m with evaluators := m.evaluators.set k (afterClock request now) }
  | _ => none

/-- Evaluator `k` runs its first loop and the test of line 329 on the heap as it is at
this moment. -/
def stepCount (m : Machine) (k : Nat) : Option Machine :=
  match m.evaluators[k]? with
  | some ⟨request, .firstLoop⟩ =>
    some { m with evaluators := m.evaluators.set k (afterCount m.store request) }
  | _ => none

/-- Evaluator `k` runs its second loop on the heap as it is at this moment. -/
def stepChoose (m : Machine) (k : Nat) : Option Machine :=
  match m.evaluators[k]? with
  | some ⟨request, .secondLoop⟩ =>
    some { m with evaluators := m.evaluators.set k (afterChoice m.store request) }
  | _ => none

/-- The send of evaluator `k` meets the receive of line 225; the server runs lines 226
to 252 on the response, and the goroutine returns. -/
def stepHand (m : Machine) (k : Nat) : Option Machine :=
  match m.server, m.evaluators[k]? with
  | .collecting requests i messages actions, some ⟨_, .sending response⟩ =>
    if i < requests.length then
      some { m with
        server := .collecting requests (i + 1) (collect (messages, actions) response).1
          (collect (messages, actions) response).2,
        evaluators := m.evaluators.eraseIdx k }
    else none
  | _, _ => none

/-- The server leaves the loop of line 224, which it does after `len(requests.Requests)`
receives, and runs lines 255 to 261. -/
def stepConclude (m : Machine) : Option Machine :=
  match m.server with
  | .collecting requests i messages actions =>
    if i < requests.length then none
    else if compound_possible messages then some { m with server := .committing actions messages }
    else some { m with server := .refusing messages }
  | _ => none

/-- One turn of the loop of line 263, or its end. -/
def stepCommit (m : Machine) : Option Machine :=
  match m.server with
  | .committing (action :: actions) messages =>
    some { m with store := execute m.store action, server := .committing actions messages }
  | .committing [] messages => some { m with server := .delivering messages }
  | _ => none

/-- One turn of the loop of line 274 or of line 280, or its end, after which the server
is back at the receive from `input`.  A send to an inbox completes: every user runs the
receiving loop of `StartBooker`. -/
def stepNotify (m : Machine) : Option Machine :=
  match m.server with
  | .delivering (message :: messages) =>
    some { m with inboxes := m.inboxes ++ [message], server := .delivering messages }
  | .delivering [] => some { m with server := .receiving }
  | .refusing (message :: messages) =>
    some { m with
      inboxes := m.inboxes ++ failureMessages [message],
      server := .refusing messages }
  | .refusing [] => some { m with server := .receiving }
  | _ => none

/-- One step of the program under the scheduler's choice; `none` when the choice is not
possible in this state.  After a nil dereference nothing happens any more. -/
def step (m : Machine) (move : Move) : Option Machine :=
  if m.evaluators.any Evaluator.hasCrashed then none
  else
    match move with
    | .take k => stepTake m k
    | .launch => stepLaunch m
    | .readClock k now => stepReadClock m k now
    | .count k => stepCount m k
    | .choose k => stepChoose m k
    | .hand k => stepHand m k
    | .conclude => stepConclude m
    | .commit => stepCommit m
    | .notify => stepNotify m

/-- The state after a sequence of steps; `none` when one of them is not possible. -/
def run (m : Machine) : List Move → Option Machine
  | [] => some m
  | move :: moves =>
    match step m move with
    | none => none
    | some m2 => run m2 moves

/-- The program at its start: the server is at the receive from `input`, no evaluation
is running, nothing has been sent, and the senders of `compounds` are at their send. -/
def initial (s : Store) (compounds : List Requests) : Machine :=
  ⟨s, compounds, .receiving, [], []⟩

/-- Compounds handled one at a time: started on `s`, each compound of `history` in turn
is evaluated on the store that the compounds before it have left, with the clock values
`clock` and with all its responses arriving in the order `arrived`, and is then
committed or discarded by `Server`; at the end the store is `final` and the messages
sent are `sent`. -/
def Serial : Store → List (Requests × (Nat → Int) × List CheckResponse) → Store →
    List BookingMessage → Prop
  | s, [], final, sent => final = s ∧ sent = []
  | s, job :: rest, final, sent =>
    (job.2.2.map some).Perm (evaluations s job.1 job.2.1) ∧
    ∃ sent2, Serial (Server s job.2.2).1 rest final sent2 ∧
      sent = (Server s job.2.2).2 ++ sent2

/-- The goroutine `e` is where an evaluation of its request on the store `st` can be:
past the checks only with a clock value that passes them, before the second loop only
when the first loop on `st` has run to its end with `num_reserved` at or above the
capacity, and at its send only with the response of `CheckBooking` on `st`. -/
def Tracks (st : Store) (e : Evaluator) : Prop :=
  match e.pc with
  | .entry => True
  | .firstLoop => ∃ now : Int, ¬ e.request.Booking.StartTime < now ∧
      ¬ e.request.Booking.StartTime ≥ e.request.Booking.EndTime
  | .secondLoop => ∃ now : Int, ¬ e.request.Booking.StartTime < now ∧
      ¬ e.request.Booking.StartTime ≥ e.request.Booking.EndTime ∧
      ∃ n v : Int, scan e.request.Booking (st e.request.Facility).Capacity
          (st e.request.Facility).Bookings 0 0 = some (n, v) ∧
        ¬ n < (st e.request.Facility).Capacity
  | .sending response =>
      ∃ now : Int, CheckBooking st e.request now e.request.Facility = some response
  | .crashed => True

/-- The evaluations of the compound `requests` on the store `st`, part of the way: the
requests whose response the server has received (`got`, in arrival order), those whose
goroutine is running, and those not yet started are together the requests of the
compound; every running goroutine is where an evaluation on `st` can be; and every
response received is the response of `CheckBooking` on `st`. -/
def Evaluating (st : Store) (requests remaining : Requests) (evaluators : List Evaluator)
    (got : List (Request × CheckResponse)) : Prop :=
  (got.map (fun p => p.1) ++ evaluators.map (fun e => e.request)
      ++ remaining.map (prepare requests)).Perm (requests.map (prepare requests)) ∧
  (∀ e ∈ evaluators, Tracks st e) ∧
  (∀ p ∈ got, ∃ now : Int, CheckBooking st p.1 now p.1.Facility = some p.2)

/-- The invariant of the running program.  The compounds of `history` have been handled
one at a time and have left the store `st` and the messages `sent`.  At the receive from
`input` that is the state and no evaluation is running.  While the server starts and
collects the evaluations of the current compound the store is still `st`.  While it
commits, sends or refuses, all responses have arrived and no evaluation is running. -/
inductive Consistent (s0 : Store) (compounds : List Requests) : Machine → Prop
  | receiving (history : List (Requests × (Nat → Int) × List CheckResponse)) (st : Store)
      (sent : List BookingMessage) (input : List Requests)
      (hserial : Serial s0 history st sent)
      (hall : (history.map (fun h => h.1) ++ input).Perm compounds) :
      Consistent s0 compounds ⟨st, input, .receiving, [], sent⟩
  | dispatching (history : List (Requests × (Nat → Int) × List CheckResponse)) (st : Store)
      (sent : List BookingMessage) (input : List Requests) (requests remaining : Requests)
      (evaluators : List Evaluator)
      (hserial : Serial s0 history st sent)
      (hall : (history.map (fun h => h.1) ++ requests :: input).Perm compounds)
      (heval : Evaluating st requests remaining evaluators []) :
      Consistent s0 compounds ⟨st, input, .dispatching requests remaining, evaluators, sent⟩
  | collecting (history : List (Requests × (Nat → Int) × List CheckResponse)) (st : Store)
      (sent : List BookingMessage) (input : List Requests) (requests : Requests)
      (evaluators : List Evaluator) (got : List (Request × CheckResponse))
      (hserial : Serial s0 history st sent)
      (hall : (history.map (fun h => h.1) ++ requests :: input).Perm compounds)
      (heval : Evaluating st requests [] evaluators got) :
      Consistent s0 compounds
        ⟨st, input,
          .collecting requests got.length (aggregate (got.map (fun p => p.2))).1
            (aggregate (got.map (fun p => p.2))).2,
          evaluators, sent⟩
  | committing (history : List (Requests × (Nat → Int) × List CheckResponse)) (st : Store)
      (sent : List BookingMessage) (input : List Requests) (requests : Requests)
      (clock : Nat → Int) (arrived : List CheckResponse) (done actions : List Action)
      (hserial : Serial s0 history st sent)
      (hall : (history.map (fun h => h.1) ++ requests :: input).Perm compounds)
      (harrived : (arrived.map some).Perm (evaluations st requests clock))
      (hpossible : compound_possible (aggregate arrived).1 = true)
      (hactions : (aggregate arrived).2 = done ++ actions) :
      Consistent s0 compounds
        ⟨done.foldl execute st, input, .committing actions (aggregate arrived).1, [], sent⟩
  | delivering (history : List (Requests × (Nat → Int) × List CheckResponse)) (st : Store)
      (sent : List BookingMessage) (input : List Requests) (requests : Requests)
      (clock : Nat → Int) (arrived : List CheckResponse) (done messages : List BookingMessage)
      (hserial : Serial s0 history st sent)
      (hall : (history.map (fun h => h.1) ++ requests :: input).Perm compounds)
      (harrived : (arrived.map some).Perm (evaluations st requests clock))
      (hpossible : compound_possible (aggregate arrived).1 = true)
      (hmessages : (aggregate arrived).1 = done ++ messages) :
      Consistent s0 compounds
        ⟨(Server st arrived).1, input, .delivering messages, [], sent ++ done⟩
  | refusing (history : List (Requests × (Nat → Int) × List CheckResponse)) (st : Store)
      (sent : List BookingMessage) (input : List Requests) (requests : Requests)
      (clock : Nat → Int) (arrived : List CheckResponse) (done messages : List BookingMessage)
      (hserial : Serial s0 history st sent)
      (hall : (history.map (fun h => h.1) ++ requests :: input).Perm compounds)
      (harrived : (arrived.map some).Perm (evaluations st requests clock))
      (hpossible : compound_possible (aggregate arrived).1 = false)
      (hmessages : (aggregate arrived).1 = done ++ messages) :
      Consistent s0 compounds
        ⟨st, input, .refusing messages, [], sent ++ failureMessages done⟩

end Task3

namespace Task3

/-- The compounds of standard user 1 and of VIP user 3 for the room and the projector of
`main`, both for [10,15), with their senders at the send on `input`. -/
def mainInput : List Requests :=
  [MakeBookings ⟨1, false⟩ (mainStore 1) [0, 1] 10 15,
    MakeBookings ⟨3, true⟩ (mainStore 1) [0, 1] 10 15]

/-- A schedule for `mainInput` on the facilities of capacity 1.  The compound of user 1
is taken; its second evaluation runs and answers before the first; it is committed and
its two messages are sent.  Then the compound of user 3 is taken and its two evaluations
are started; the first has run to its send, the second has read the clock. -/
def mainMoves : List Move :=
  [.take 0, .launch, .launch, .readClock 0 0, .launch, .readClock 1 2, .count 1, .count 0,
    .hand 1, .hand 0, .conclude, .commit, .commit, .commit, .notify, .notify, .notify,
    .take 0, .launch, .launch, .launch, .readClock 0 3, .readClock 1 3, .count 0, .choose 0]

/-- The state that `mainMoves` leads to from the start on `mainStore 1`. -/
def mainMachine : Machine :=
  (run (initial (mainStore 1) mainInput) mainMoves).getD (initial (mainStore 1) mainInput)

end Task3

namespace Task3

/-- The store reached from `mainStore 1` when `user` books the room and the projector
for [2,5) in one compound made by `MakeBookings`, handled at clock value 0. -/
def heldStore (user : User) : Store :=
  afterCompound (mainStore 1) (MakeBookings user (mainStore 1) [0, 1] 2 5) 0

/-- The request for the room that `Server` hands to `CheckBooking` when `user` books the
room and the projector for [0,10) with `MakeBookings`. -/
def enclosingRequest (user : User) : Request :=
  ⟨0, ⟨user, "room", 0, 10, some (MakeBookings user (mainStore 1) [0, 1] 0 10)⟩⟩

/-- The store reached from `mainStore 1` when standard user 1 books the room for [12,15)
and then standard user 2 books the room for [10,20), each in a compound made by
`MakeBookings` and handled at clock value 0. -/
def nestedRoomStore : Store :=
  afterCompound
    (afterCompound (mainStore 1) (MakeBookings ⟨1, false⟩ (mainStore 1) [0] 12 15) 0)
    (MakeBookings ⟨2, false⟩ (mainStore 1) [0] 10 20) 0

/-- The request for the room that `Server` hands to `CheckBooking` when VIP user 3 books
the room for [10,20) with `MakeBookings`. -/
def nestedVipRequest : Request :=
  ⟨0, ⟨⟨3, true⟩, "room", 10, 20, some (MakeBookings ⟨3, true⟩ (mainStore 1) [0] 10 20)⟩⟩

end Task3

namespace Task2

/-- The room of capacity 1 after its server has handled, at clock value 0, the request
of standard user 1 for [12,15) and then the request of standard user 2 for [10,20). -/
def nestedRoom : Facility :=
  (FacilityServer ⟨"room", [], 1⟩
    [(⟨"room", ⟨⟨1, false⟩, "room", 12, 15⟩⟩, 0), (⟨"room", ⟨⟨2, false⟩, "room", 10, 20⟩⟩, 0)]).2

end Task2

/-! ## Overlap test -/

/-- C4 (failing input): the interval [0,10) contains [2,5), so the two share the
instants 2, 3 and 4 and `0 < 5` and `2 < 10` hold, yet `CheckTimeslotOverlap`
answers false because neither end of the first interval lies in the second. -/
theorem CheckTimeslotOverlap_misses_enclosed_interval :
    CheckTimeslotOverlap 0 10 2 5 = false ∧ ((0 : Int) < 5 ∧ (2 : Int) < 10) ∧
      ((0 : Int) ≤ 3 ∧ (3 : Int) < 10 ∧ (2 : Int) ≤ 3 ∧ (3 : Int) < 5) := by
  decide

/-- C5: for proper intervals that abut (`a2 = b1` or `b2 = a1`),
`CheckTimeslotOverlap a1 a2 b1 b2` is false. -/
theorem CheckTimeslotOverlap_abutting (a1 a2 b1 b2 : Int) (ha : a1 < a2) (_hb : b1 < b2)
    (habut : a2 = b1 ∨ b2 = a1) : CheckTimeslotOverlap a1 a2 b1 b2 = false := by
  unfold CheckTimeslotOverlap
  rcases habut with h | h
  · have h1 : ¬ a1 ≥ b1 := by omega
    have h2 : ¬ a2 > b1 := by omega
    simp [h1, h2]
  · have h1 : ¬ a1 < b2 := by omega
    have h2 : ¬ a2 ≤ b2 := by omega
    simp [h1, h2]

/-- Witness of C5 on the projector bookings of the task 1 test: [10,15) and [15,20),
in both argument orders. -/
theorem CheckTimeslotOverlap_abutting_witness :
    CheckTimeslotOverlap 10 15 15 20 = false ∧ CheckTimeslotOverlap 15 20 10 15 = false :=
  ⟨CheckTimeslotOverlap_abutting 10 15 15 20 (by decide) (by decide) (Or.inl rfl),
   CheckTimeslotOverlap_abutting 15 20 10 15 (by decide) (by decide) (Or.inr rfl)⟩

/-- Whenever `CheckTimeslotOverlap` answers true for a proper first interval, the two
half-open intervals do share an instant. -/
theorem CheckTimeslotOverlap_true_imp (a1 a2 b1 b2 : Int) (ha : a1 < a2)
    (h : CheckTimeslotOverlap a1 a2 b1 b2 = true) : a1 < b2 ∧ b1 < a2 := by
  simp only [CheckTimeslotOverlap, Bool.or_eq_true, Bool.and_eq_true, decide_eq_true_eq] at h
  omega

/-! ## Rejections before the scan -/

namespace Task3

/-- C8: a candidate whose `StartTime` is before the clock value gets the response with
no pending action and the single message Rejected (`Action` 1) "Booking is in the past.",
whatever the facility holds and whatever `EndTime` is, so also when the interval is
invalid. -/
theorem CheckBooking_in_the_past (s : Store) (request : Request) (now : Int) (facility : Nat)
    (hpast : request.Booking.StartTime < now) :
    CheckBooking s request now facility
      = some ⟨[], [⟨request.Booking, 1, "Booking is in the past."⟩]⟩ := by
  simp [CheckBooking, hpast]

/-- Witness of C8: at clock value 10, the request [5,15) of the spec's scenario 4 and the
request [7,3), which is in the past and has an invalid interval as well. -/
theorem CheckBooking_in_the_past_witness :
    CheckBooking pairStore ⟨0, ⟨⟨3, true⟩, "room", 5, 15, none⟩⟩ 10 0
        = some ⟨[], [⟨⟨⟨3, true⟩, "room", 5, 15, none⟩, 1, "Booking is in the past."⟩]⟩ ∧
      CheckBooking pairStore ⟨0, ⟨⟨3, true⟩, "room", 7, 3, none⟩⟩ 10 0
        = some ⟨[], [⟨⟨⟨3, true⟩, "room", 7, 3, none⟩, 1, "Booking is in the past."⟩]⟩ :=
  ⟨CheckBooking_in_the_past pairStore ⟨0, ⟨⟨3, true⟩, "room", 5, 15, none⟩⟩ 10 0 (by decide),
   CheckBooking_in_the_past pairStore ⟨0, ⟨⟨3, true⟩, "room", 7, 3, none⟩⟩ 10 0 (by decide)⟩

/-- C9: a candidate with `StartTime` not before the clock value and `StartTime ≥ EndTime`
gets the response with no pending action and the single message Rejected (`Action` 1)
"Start time is after end time.", whatever the facility holds. -/
theorem CheckBooking_invalid_interval (s : Store) (request : Request) (now : Int)
    (facility : Nat) (hnow : request.Booking.StartTime ≥ now)
    (hinv : request.Booking.StartTime ≥ request.Booking.EndTime) :
    CheckBooking s request now facility
      = some ⟨[], [⟨request.Booking, 1, "Start time is after end time."⟩]⟩ := by
  have h : ¬ request.Booking.StartTime < now := by omega
  simp [CheckBooking, h, hinv]

/-- Witness of C9: the request [20,10) of the spec's scenario 5 at clock value 0. -/
theorem CheckBooking_invalid_interval_witness :
    CheckBooking pairStore ⟨0, ⟨⟨3, true⟩, "room", 20, 10, none⟩⟩ 0 0
      = some ⟨[], [⟨⟨⟨3, true⟩, "room", 20, 10, none⟩, 1, "Start time is after end time."⟩]⟩ :=
  CheckBooking_invalid_interval pairStore ⟨0, ⟨⟨3, true⟩, "room", 20, 10, none⟩⟩ 0 0
    (by decide) (by decide)

/-! ## The counting scan and outright admission -/

/-- An `if` that yields `none` on its condition can only equal `some r` through its
other branch. -/
theorem ite_none_eq_some {α : Type} {C : Prop} [Decidable C] {x : Option α} {r : α}
    (h : (if C then none else x) = some r) : ¬ C ∧ x = some r := by
  by_cases hC : C
  · rw [if_pos hC] at h
    exact absurd h (by simp)
  · rw [if_neg hC] at h
    exact ⟨hC, h⟩

/-- When the counting loop runs to its end, `num_reserved` has grown by the number of
bookings that `CheckTimeslotOverlap` reports against the candidate. -/
theorem scan_fst (c : Booking) (cap : Int) :
    ∀ (bs : List Booking) (n v : Int) (r : Int × Int),
      scan c cap bs n v = some r → r.1 = n + (overlapCount c bs : Int) := by
  intro bs
  induction bs with
  | nil =>
    intro n v r h
    simp [scan] at h
    subst h
    simp [overlapCount]
  | cons b bs ih =>
    intro n v r h
    simp only [scan] at h
    obtain ⟨_, hx⟩ := ite_none_eq_some h
    rw [ih _ _ _ hx]
    simp only [overlapCount, List.countP_cons]
    by_cases hb : CheckTimeslotOverlap c.StartTime c.EndTime b.StartTime b.EndTime = true
    · simp only [hb, if_true]
      push_cast
      omega
    · simp [hb]

/-- The counting loop runs to its end when the overlap count stays below the capacity. -/
theorem scan_below (c : Booking) (cap : Int) :
    ∀ (bs : List Booking) (n v : Int), v ≤ n → n + (overlapCount c bs : Int) < cap →
      ∃ r, scan c cap bs n v = some r := by
  intro bs
  induction bs with
  | nil =>
    intro n v _ _
    exact ⟨_, rfl⟩
  | cons b bs ih =>
    intro n v hvn hlt
    simp only [overlapCount, List.countP_cons] at hlt
    simp only [scan]
    by_cases hb : CheckTimeslotOverlap c.StartTime c.EndTime b.StartTime b.EndTime = true
    · simp only [hb, if_true, Nat.cast_add, Nat.cast_one] at hlt
      have hc : (0:Int) ≤ (List.countP (fun booking => CheckTimeslotOverlap c.StartTime c.EndTime
        booking.StartTime booking.EndTime) bs : Int) := Int.natCast_nonneg _
      have h1 : ¬ (n + 1 ≥ cap) := by omega
      by_cases hp : b.User.Priority = true
      · have h2 : ¬ (v + 1 ≥ cap) := by omega
        simp only [hb, hp, if_true, Bool.and_self, h1, h2, decide_False, Bool.false_and,
          Bool.or_self, Bool.false_eq_true, if_false]
        exact ih _ _ (by omega) (by simp only [overlapCount]; omega)
      · have h2 : ¬ (v ≥ cap) := by omega
        simp only [hb, hp, if_true, Bool.and_false, h1, h2, decide_False, Bool.false_and,
          Bool.or_self, Bool.false_eq_true, if_false]
        exact ih _ _ (by omega) (by simp only [overlapCount]; omega)
    · simp only [hb, if_false, Nat.cast_add, Nat.cast_zero, add_zero] at hlt
      have hc : (0:Int) ≤ (List.countP (fun booking => CheckTimeslotOverlap c.StartTime c.EndTime
        booking.StartTime booking.EndTime) bs : Int) := Int.natCast_nonneg _
      have h1 : ¬ (n ≥ cap) := by omega
      have h2 : ¬ (v ≥ cap) := by omega
      simp only [hb, Bool.false_and, if_false, h1, h2, decide_False, Bool.false_and,
          Bool.or_self, Bool.false_eq_true]
      exact ih _ _ hvn (by simp only [overlapCount]; omega)

/-- C10: for a candidate with `now ≤ StartTime < EndTime`, of either priority, and any
facility state, `CheckBooking` sends the outright response (exactly one pending action,
the add of the candidate to this facility, and exactly one message, with `Action` 0 and
the text "Facilities were booked.") if and only if the number of bookings of the facility
that `CheckTimeslotOverlap` reports as overlapping the candidate is below `Capacity`. -/
theorem CheckBooking_outright_iff (s : Store) (request : Request) (now : Int) (facility : Nat)
    (hnow : now ≤ request.Booking.StartTime)
    (hlt : request.Booking.StartTime < request.Booking.EndTime) :
    CheckBooking s request now facility = some (outright request facility) ↔
      (overlapCount request.Booking (s facility).Bookings : Int) < (s facility).Capacity := by
  have h1 : ¬ request.Booking.StartTime < now := by omega
  have h2 : ¬ request.Booking.StartTime ≥ request.Booking.EndTime := by omega
  simp only [CheckBooking, h1, h2, if_false, outright]
  cases hs : scan request.Booking (s facility).Capacity (s facility).Bookings 0 0 with
  | none =>
    simp only [Option.some.injEq, CheckResponse.mk.injEq]
    constructor
    · intro h
      simp at h
    · intro h
      obtain ⟨r, hr⟩ := scan_below request.Booking (s facility).Capacity (s facility).Bookings
        0 0 (le_refl _) (by omega)
      rw [hr] at hs
      exact absurd hs (by simp)
  | some r =>
    obtain ⟨n, v⟩ := r
    have hn := scan_fst _ _ _ _ _ _ hs
    simp only [zero_add] at hn
    rw [← hn]
    by_cases hc : n < (s facility).Capacity
    · simp [hc]
    · simp only [hc, if_false, iff_false]
      cases hv : findVictim request.Booking (s facility).Bookings with
      | none => simp
      | some b =>
        simp only []
        cases hg : b.RequestsPtr with
        | none => simp
        | some g =>
          simp only [Option.some.injEq, CheckResponse.mk.injEq, not_and]
          intro _ hm
          cases g with
          | nil => simp at hm
          | cons x xs => simp at hm


/-- Witness of C10: on the facilities of `main` with capacity 2 and no bookings, the
request of VIP user 3 for the room for [10,15) at clock value 0 is answered outright. -/
theorem CheckBooking_outright_iff_witness :
    ((0 : Int) ≤ vipRoomRequest.Booking.StartTime ∧
        vipRoomRequest.Booking.StartTime < vipRoomRequest.Booking.EndTime) ∧
      CheckBooking (mainStore 2) vipRoomRequest 0 0 = some (outright vipRoomRequest 0) :=
  ⟨⟨by decide, by decide⟩,
    (CheckBooking_outright_iff (mainStore 2) vipRoomRequest 0 0 (by decide) (by decide)).mpr
      (by decide)⟩

/-! ## Preemption -/

/-- The second loop stops at an index that holds an evictable booking and has no
evictable booking before it. -/
theorem findVictim_some (c : Booking) :
    ∀ (bs : List Booking) (v : Booking), findVictim c bs = some v →
      ∃ i, bs[i]? = some v ∧ evictable c v = true ∧
        ∀ j : Nat, j < i → ∀ w, bs[j]? = some w → evictable c w = false := by
  intro bs
  induction bs with
  | nil =>
    intro v h
    simp [findVictim] at h
  | cons b bs ih =>
    intro v h
    simp only [findVictim] at h
    by_cases hb : evictable c b = true
    · rw [if_pos hb] at h
      cases h
      exact ⟨0, by simp, hb, fun j hj => absurd hj (Nat.not_lt_zero j)⟩
    · rw [if_neg hb] at h
      obtain ⟨i, hi, hv, hfirst⟩ := ih v h
      refine ⟨i + 1, by simpa using hi, hv, ?_⟩
      intro j hj w hw
      cases j with
      | zero =>
        simp at hw
        subst hw
        simpa using hb
      | succ k =>
        exact hfirst k (by omega) w (by simpa using hw)

/-- The response of the preempting branch of `CheckBooking` for a victim's group; that
branch is only reached past the two interval checks. -/
theorem CheckBooking_overwrite (s : Store) (request : Request) (now : Int) (facility : Nat)
    (resp : CheckResponse) (h : CheckBooking s request now facility = some resp)
    (hmsg : ∃ m ∈ resp.BookingMessages,
      m.Message = "Facilities were booked, you have overwritten a non-VIP booking.") :
    ∃ victim group, findVictim request.Booking (s facility).Bookings = some victim ∧
      victim.RequestsPtr = some group ∧
      resp = ⟨group.map (fun requestt => ⟨1, requestt.Booking, requestt.Facility⟩)
                ++ [⟨0, request.Booking, facility⟩],
              group.map (fun requestt =>
                  ⟨requestt.Booking, 2, "A VIP-User has overwritten your booking."⟩)
                ++ [⟨request.Booking, 0,
                  "Facilities were booked, you have overwritten a non-VIP booking."⟩]⟩ ∧
      now ≤ request.Booking.StartTime ∧
      request.Booking.StartTime < request.Booking.EndTime := by
  obtain ⟨m, hm, htext⟩ := hmsg
  by_cases h1 : request.Booking.StartTime < now
  · simp only [CheckBooking, h1, if_true, Option.some.injEq] at h
    subst h
    simp at hm
    rw [hm] at htext
    simp at htext
  · by_cases h2 : request.Booking.StartTime ≥ request.Booking.EndTime
    · simp only [CheckBooking, h1, h2, if_true, if_false, Option.some.injEq] at h
      subst h
      simp at hm
      rw [hm] at htext
      simp at htext
    · cases hs : scan request.Booking (s facility).Capacity (s facility).Bookings 0 0 with
      | none =>
        simp only [CheckBooking, h1, h2, hs, if_false, Option.some.injEq] at h
        subst h
        simp at hm
        rw [hm] at htext
        simp at htext
      | some r =>
        obtain ⟨n, v⟩ := r
        by_cases hc : n < (s facility).Capacity
        · simp only [CheckBooking, h1, h2, hs, hc, if_true, if_false, Option.some.injEq] at h
          subst h
          simp at hm
          rw [hm] at htext
          simp at htext
        · cases hv : findVictim request.Booking (s facility).Bookings with
          | none =>
            simp only [CheckBooking, h1, h2, hs, hc, hv, if_false, Option.some.injEq] at h
            subst h
            simp at hm
            rw [hm] at htext
            simp at htext
          | some victim =>
            cases hg : victim.RequestsPtr with
            | none =>
              simp [CheckBooking, h1, h2, hs, hc, hv, hg] at h
            | some group =>
              simp only [CheckBooking, h1, h2, hs, hc, hv, hg, if_false,
                Option.some.injEq] at h
              exact ⟨victim, group, rfl, hg, h.symm, by omega, by omega⟩

end Task3

namespace Task2

/-- The second loop of task 2 stops at an index that holds an evictable booking and has
no evictable booking before it. -/
theorem findVictimIdx_some (c : Booking) :
    ∀ (bs : List Booking) (k i : Nat) (v : Booking), findVictim c bs k = some (i, v) →
      ∃ d : Nat, i = k + d ∧ bs[d]? = some v ∧ evictable c v = true ∧
        ∀ j : Nat, j < d → ∀ w, bs[j]? = some w → evictable c w = false := by
  intro bs
  induction bs with
  | nil =>
    intro k i v h
    simp [findVictim] at h
  | cons b bs ih =>
    intro k i v h
    simp only [findVictim] at h
    by_cases hb : evictable c b = true
    · rw [if_pos hb] at h
      cases h
      exact ⟨0, by simp, by simp, hb, fun j hj => absurd hj (Nat.not_lt_zero j)⟩
    · rw [if_neg hb] at h
      obtain ⟨d, hd, hi, hv, hfirst⟩ := ih (k + 1) i v h
      refine ⟨d + 1, by omega, by simpa using hi, hv, ?_⟩
      intro j hj w hw
      cases j with
      | zero =>
        simp at hw
        subst hw
        simpa using hb
      | succ n =>
        exact hfirst n (by omega) w (by simpa using hw)

/-- The messages and the facility that the preempting branch of task 2 `CheckBooking`
leaves behind. -/
theorem CheckBooking_overwrite_idx (request : Request) (now : Int) (facility : Facility)
    (hmsg : ∃ m ∈ (CheckBooking request now facility).1,
      m.Message = "Facilities were booked, you have overwritten a non-VIP booking.") :
    ∃ i victim, findVictim request.Booking facility.Bookings 0 = some (i, victim) ∧
      CheckBooking request now facility =
        ([⟨victim, 2, "A VIP-User has overwritten your booking."⟩,
          ⟨request.Booking, 0,
            "Facilities were booked, you have overwritten a non-VIP booking."⟩],
          { facility with Bookings := facility.Bookings.eraseIdx i ++ [request.Booking] }) ∧
      now ≤ request.Booking.StartTime ∧
      request.Booking.StartTime < request.Booking.EndTime := by
  obtain ⟨m, hm, htext⟩ := hmsg
  by_cases h1 : request.Booking.StartTime < now
  · simp [CheckBooking, h1] at hm
    rw [hm] at htext
    simp at htext
  · by_cases h2 : request.Booking.StartTime ≥ request.Booking.EndTime
    · simp [CheckBooking, h1, h2] at hm
      rw [hm] at htext
      simp at htext
    · cases hs : scan request.Booking facility.Capacity facility.Bookings 0 0 with
      | none =>
        simp [CheckBooking, h1, h2, hs] at hm
        rw [hm] at htext
        simp at htext
      | some r =>
        obtain ⟨n, v⟩ := r
        by_cases hc : n < facility.Capacity
        · simp [CheckBooking, h1, h2, hs, hc] at hm
          rw [hm] at htext
          simp at htext
        · cases hv : findVictim request.Booking facility.Bookings 0 with
          | none =>
            simp [CheckBooking, h1, h2, hs, hc, hv] at hm
            rw [hm] at htext
            simp at htext
          | some p =>
            obtain ⟨i, victim⟩ := p
            refine ⟨i, victim, rfl, ?_, by omega, by omega⟩
            simp [CheckBooking, h1, h2, hs, hc, hv]

end Task2

/-- The victim under the second loop's own test: whenever `CheckBooking` preempts (its
response carries the message "Facilities were booked, you have overwritten a non-VIP
booking."), the victim is the booking at the
lowest index of the facility's sequence for which `CheckTimeslotOverlap` answers true
against the candidate and whose owner is not VIP: no booking at a lower index passes that
test, the victim's owner has `Priority = false`, and the victim's interval shares an
instant with the candidate's.  In task 3 the victim is the booking
whose compound group the response removes and cancels; in task 2 it is the booking
named in the Cancelled message and erased from the sequence. -/
theorem victim_is_first_evictable :
    (∀ (s : Task3.Store) (request : Task3.Request) (now : Int) (facility : Nat)
        (resp : Task3.CheckResponse),
        Task3.CheckBooking s request now facility = some resp →
        (∃ m ∈ resp.BookingMessages,
          m.Message = "Facilities were booked, you have overwritten a non-VIP booking.") →
        ∃ (i : Nat) (victim : Task3.Booking) (group : Task3.Requests),
          (s facility).Bookings[i]? = some victim ∧
          CheckTimeslotOverlap request.Booking.StartTime request.Booking.EndTime
            victim.StartTime victim.EndTime = true ∧
          victim.User.Priority = false ∧
          (request.Booking.StartTime < victim.EndTime ∧
            victim.StartTime < request.Booking.EndTime) ∧
          (∀ j : Nat, j < i → ∀ w, (s facility).Bookings[j]? = some w →
            ¬ (CheckTimeslotOverlap request.Booking.StartTime request.Booking.EndTime
                w.StartTime w.EndTime = true ∧ w.User.Priority = false)) ∧
          victim.RequestsPtr = some group ∧
          resp.Actions = group.map (fun requestt => ⟨1, requestt.Booking, requestt.Facility⟩)
            ++ [⟨0, request.Booking, facility⟩]) ∧
    (∀ (request : Task2.Request) (now : Int) (facility : Task2.Facility),
        (∃ m ∈ (Task2.CheckBooking request now facility).1,
          m.Message = "Facilities were booked, you have overwritten a non-VIP booking.") →
        ∃ (i : Nat) (victim : Task2.Booking),
          facility.Bookings[i]? = some victim ∧
          CheckTimeslotOverlap request.Booking.StartTime request.Booking.EndTime
            victim.StartTime victim.EndTime = true ∧
          victim.User.Priority = false ∧
          (request.Booking.StartTime < victim.EndTime ∧
            victim.StartTime < request.Booking.EndTime) ∧
          (∀ j : Nat, j < i → ∀ w, facility.Bookings[j]? = some w →
            ¬ (CheckTimeslotOverlap request.Booking.StartTime request.Booking.EndTime
                w.StartTime w.EndTime = true ∧ w.User.Priority = false)) ∧
          (Task2.CheckBooking request now facility).1 =
            [⟨victim, 2, "A VIP-User has overwritten your booking."⟩,
              ⟨request.Booking, 0,
                "Facilities were booked, you have overwritten a non-VIP booking."⟩] ∧
          (Task2.CheckBooking request now facility).2.Bookings =
            facility.Bookings.eraseIdx i ++ [request.Booking]) := by
  constructor
  · intro s request now facility resp h hmsg
    obtain ⟨victim, group, hv, hg, hresp, _, hlt⟩ :=
      Task3.CheckBooking_overwrite s request now facility resp h hmsg
    obtain ⟨i, hi, he, hfirst⟩ := Task3.findVictim_some _ _ _ hv
    simp only [Task3.evictable, Bool.and_eq_true, Bool.not_eq_true'] at he
    refine ⟨i, victim, group, hi, he.1, he.2,
      CheckTimeslotOverlap_true_imp _ _ _ _ hlt he.1, ?_, hg, by rw [hresp]⟩
    intro j hj w hw hboth
    have := hfirst j hj w hw
    simp [Task3.evictable, hboth.1, hboth.2] at this
  · intro request now facility hmsg
    obtain ⟨i, victim, hv, hcb, _, hlt⟩ :=
      Task2.CheckBooking_overwrite_idx request now facility hmsg
    obtain ⟨d, hd, hi, he, hfirst⟩ := Task2.findVictimIdx_some _ _ _ _ _ hv
    simp only [Task2.evictable, Bool.and_eq_true, Bool.not_eq_true'] at he
    have hid : i = d := by omega
    subst hid
    refine ⟨i, victim, hi, he.1, he.2, CheckTimeslotOverlap_true_imp _ _ _ _ hlt he.1, ?_,
      by rw [hcb], by rw [hcb]⟩
    intro j hj w hw hboth
    have := hfirst j hj w hw
    simp [Task2.evictable, hboth.1, hboth.2] at this

/-- An instance of `victim_is_first_evictable`.  Task 3: VIP user 3 asks for the room while user 1's compound holds
the room and the projector.  Task 2: VIP user 3 asks for the full room of the test. -/
theorem victim_is_first_evictable_witness :
    (Task3.CheckBooking Task3.pairStore Task3.vipRoomRequest 0 0 = some Task3.vipRoomResponse ∧
      ∃ (i : Nat) (victim : Task3.Booking) (group : Task3.Requests),
          (Task3.pairStore 0).Bookings[i]? = some victim ∧
          CheckTimeslotOverlap Task3.vipRoomRequest.Booking.StartTime
            Task3.vipRoomRequest.Booking.EndTime victim.StartTime victim.EndTime = true ∧
          victim.User.Priority = false ∧
          (Task3.vipRoomRequest.Booking.StartTime < victim.EndTime ∧
            victim.StartTime < Task3.vipRoomRequest.Booking.EndTime) ∧
          (∀ j : Nat, j < i → ∀ w, (Task3.pairStore 0).Bookings[j]? = some w →
            ¬ (CheckTimeslotOverlap Task3.vipRoomRequest.Booking.StartTime
                Task3.vipRoomRequest.Booking.EndTime w.StartTime w.EndTime = true ∧
              w.User.Priority = false)) ∧
          victim.RequestsPtr = some group ∧
          Task3.vipRoomResponse.Actions =
            group.map (fun requestt => ⟨1, requestt.Booking, requestt.Facility⟩)
              ++ [⟨0, Task3.vipRoomRequest.Booking, 0⟩]) ∧
    (∃ (i : Nat) (victim : Task2.Booking),
          Task2.fullRoom.Bookings[i]? = some victim ∧
          CheckTimeslotOverlap Task2.vipRequest.Booking.StartTime
            Task2.vipRequest.Booking.EndTime victim.StartTime victim.EndTime = true ∧
          victim.User.Priority = false ∧
          (Task2.vipRequest.Booking.StartTime < victim.EndTime ∧
            victim.StartTime < Task2.vipRequest.Booking.EndTime) ∧
          (∀ j : Nat, j < i → ∀ w, Task2.fullRoom.Bookings[j]? = some w →
            ¬ (CheckTimeslotOverlap Task2.vipRequest.Booking.StartTime
                Task2.vipRequest.Booking.EndTime w.StartTime w.EndTime = true ∧
              w.User.Priority = false)) ∧
          (Task2.CheckBooking Task2.vipRequest 0 Task2.fullRoom).1 =
            [⟨victim, 2, "A VIP-User has overwritten your booking."⟩,
              ⟨Task2.vipRequest.Booking, 0,
                "Facilities were booked, you have overwritten a non-VIP booking."⟩] ∧
          (Task2.CheckBooking Task2.vipRequest 0 Task2.fullRoom).2.Bookings =
            Task2.fullRoom.Bookings.eraseIdx i ++ [Task2.vipRequest.Booking]) :=
  ⟨⟨rfl, victim_is_first_evictable.1 Task3.pairStore Task3.vipRoomRequest 0 0
      Task3.vipRoomResponse rfl
      ⟨⟨Task3.vipRoomRequest.Booking, 0,
        "Facilities were booked, you have overwritten a non-VIP booking."⟩,
        by simp [Task3.vipRoomResponse], rfl⟩⟩,
    victim_is_first_evictable.2 Task2.vipRequest 0 Task2.fullRoom
      ⟨⟨Task2.vipRequest.Booking, 0,
        "Facilities were booked, you have overwritten a non-VIP booking."⟩,
        by decide, rfl⟩⟩

namespace Task3

/-- C7 (counterexample): on `pairStore` the room holds one booking, user 1's, whose
compound also holds the projector.  The response to VIP user 3's request for the room
carries two remove actions and two Cancelled messages, not one of each. -/
theorem CheckBooking_preempt_removes_two :
    (pairStore 0).Bookings.length = 1 ∧
      (CheckBooking pairStore vipRoomRequest 0 0).map (fun r =>
        (r.Actions.map (fun a => (a.Action, a.Booking.FacilityID)),
          r.BookingMessages.map (fun m => (m.Action, m.Booking.FacilityID))))
        = some ([(1, "room"), (1, "projector"), (0, "room")],
            [(2, "room"), (2, "projector"), (0, "room")]) := by
  decide

/-- C7 (amended): whenever task 3 `CheckBooking` preempts, there is a single victim in
the facility's sequence, and the response carries one remove action and one Cancelled
message for each sub-booking of the victim's compound group, exactly one add action and
exactly one Accepted message, both for the candidate, and nothing else. -/
theorem CheckBooking_preempt_counts (s : Store) (request : Request) (now : Int)
    (facility : Nat) (resp : CheckResponse)
    (h : CheckBooking s request now facility = some resp)
    (hmsg : ∃ m ∈ resp.BookingMessages,
      m.Message = "Facilities were booked, you have overwritten a non-VIP booking.") :
    ∃ (victim : Booking) (group : Requests),
      victim ∈ (s facility).Bookings ∧ victim.RequestsPtr = some group ∧
      resp.Actions.filter (fun a => decide (a.Action = 1))
        = group.map (fun requestt => ⟨1, requestt.Booking, requestt.Facility⟩) ∧
      resp.Actions.filter (fun a => decide (a.Action = 0)) = [⟨0, request.Booking, facility⟩] ∧
      resp.Actions.length = group.length + 1 ∧
      resp.BookingMessages.filter (fun m => decide (m.Action = 2))
        = group.map (fun requestt =>
            ⟨requestt.Booking, 2, "A VIP-User has overwritten your booking."⟩) ∧
      resp.BookingMessages.filter (fun m => decide (m.Action = 0))
        = [⟨request.Booking, 0,
            "Facilities were booked, you have overwritten a non-VIP booking."⟩] ∧
      resp.BookingMessages.length = group.length + 1 := by
  obtain ⟨victim, group, hv, hg, hresp, _, _⟩ :=
    CheckBooking_overwrite s request now facility resp h hmsg
  obtain ⟨i, hi, _, _⟩ := findVictim_some _ _ _ hv
  refine ⟨victim, group, List.getElem?_mem hi, hg, ?_⟩
  subst hresp
  simp [List.filter_append, List.filter_map, Function.comp_def]

/-- Witness of C7 (amended): VIP user 3 asks for the room while user 1's compound holds
the room and the projector. -/
theorem CheckBooking_preempt_counts_witness :
    CheckBooking pairStore vipRoomRequest 0 0 = some vipRoomResponse ∧
    ∃ (victim : Booking) (group : Requests),
      victim ∈ (pairStore 0).Bookings ∧ victim.RequestsPtr = some group ∧
      vipRoomResponse.Actions.filter (fun a => decide (a.Action = 1))
        = group.map (fun requestt => ⟨1, requestt.Booking, requestt.Facility⟩) ∧
      vipRoomResponse.Actions.filter (fun a => decide (a.Action = 0))
        = [⟨0, vipRoomRequest.Booking, 0⟩] ∧
      vipRoomResponse.Actions.length = group.length + 1 ∧
      vipRoomResponse.BookingMessages.filter (fun m => decide (m.Action = 2))
        = group.map (fun requestt =>
            ⟨requestt.Booking, 2, "A VIP-User has overwritten your booking."⟩) ∧
      vipRoomResponse.BookingMessages.filter (fun m => decide (m.Action = 0))
        = [⟨vipRoomRequest.Booking, 0,
            "Facilities were booked, you have overwritten a non-VIP booking."⟩] ∧
      vipRoomResponse.BookingMessages.length = group.length + 1 :=
  ⟨rfl, CheckBooking_preempt_counts pairStore vipRoomRequest 0 0 vipRoomResponse rfl
    ⟨⟨vipRoomRequest.Booking, 0,
      "Facilities were booked, you have overwritten a non-VIP booking."⟩,
      by simp [vipRoomResponse], rfl⟩⟩

/-! ## Transactions of the server on concrete runs -/

/-- C1 (failing input): from the empty facilities of capacity 1, `mixedCompound` is
committed; then `laterCompound` is handled with the room's response arriving first.  The
projector's response is a Reject ("Capacity exceeded."), yet the server commits: user 2's
room booking and user 1's projector booking are removed and user 3's room booking is
added.  Every evaluation returns, and the responses are those of `evaluations`. -/
theorem Server_commits_with_rejected_part :
    ((arrivedInRequestOrder (mainStore 1) mixedCompound (fun _ => 0)).map some
        = evaluations (mainStore 1) mixedCompound (fun _ => 0) ∧
      (arrivedInRequestOrder mixedStore laterCompound (fun _ => 0)).map some
        = evaluations mixedStore laterCompound (fun _ => 0)) ∧
    (arrivedInRequestOrder mixedStore laterCompound (fun _ => 0)).map (fun r =>
        r.BookingMessages.map (fun m =>
          (m.Booking.User.Id, m.Booking.FacilityID, m.Action, m.Message)))
      = [[(2, "room", 2, "A VIP-User has overwritten your booking."),
          (1, "projector", 2, "A VIP-User has overwritten your booking."),
          (3, "room", 0, "Facilities were booked, you have overwritten a non-VIP booking.")],
         [(1, "projector", 1, "Capacity exceeded.")]] ∧
    ((mixedStore 0).Bookings.map (fun b => b.User.Id),
      (mixedStore 1).Bookings.map (fun b => b.User.Id)) = ([2], [1]) ∧
    (((Server mixedStore (arrivedInRequestOrder mixedStore laterCompound (fun _ => 0))).1
          0).Bookings.map (fun b => b.User.Id),
      ((Server mixedStore (arrivedInRequestOrder mixedStore laterCompound (fun _ => 0))).1
          1).Bookings.map (fun b => b.User.Id)) = ([3], []) :=
  ⟨⟨rfl, rfl⟩, by decide, by decide, by decide⟩

/-- C2 (failing input): with capacity 1, standard user 1 books the room and the projector
for [2,5) and then standard user 2 books them for [0,10); every evaluation returns and
both compounds are committed, so the room holds two bookings at the instant 3. -/
theorem capacity_exceeded_by_enclosing_booking :
    ((evaluations (mainStore 1) (MakeBookings ⟨1, false⟩ (mainStore 1) [0, 1] 2 5)
          (fun _ => 0)).all Option.isSome = true ∧
      (evaluations (afterCompound (mainStore 1)
            (MakeBookings ⟨1, false⟩ (mainStore 1) [0, 1] 2 5) 0)
          (MakeBookings ⟨2, false⟩ (mainStore 1) [0, 1] 0 10)
          (fun _ => 0)).all Option.isSome = true) ∧
    (enclosingRun ⟨1, false⟩ ⟨2, false⟩ 0).Capacity = 1 ∧
    (enclosingRun ⟨1, false⟩ ⟨2, false⟩ 0).Bookings.map
        (fun b => (b.User.Id, b.StartTime, b.EndTime)) = [(1, 2, 5), (2, 0, 10)] ∧
    occupancy (enclosingRun ⟨1, false⟩ ⟨2, false⟩ 0).Bookings 3 = 2 := by
  decide

/-- C3 (failing input): with capacity 1, VIP user 3 books the room and the projector for
[2,5) and then VIP user 4 books them for [0,10); every evaluation returns and both
compounds are committed, so the room holds two VIP-owned bookings at the instant 3. -/
theorem vip_quota_exceeded_by_enclosing_booking :
    ((evaluations (mainStore 1) (MakeBookings ⟨3, true⟩ (mainStore 1) [0, 1] 2 5)
          (fun _ => 0)).all Option.isSome = true ∧
      (evaluations (afterCompound (mainStore 1)
            (MakeBookings ⟨3, true⟩ (mainStore 1) [0, 1] 2 5) 0)
          (MakeBookings ⟨4, true⟩ (mainStore 1) [0, 1] 0 10)
          (fun _ => 0)).all Option.isSome = true) ∧
    (enclosingRun ⟨3, true⟩ ⟨4, true⟩ 0).Capacity = 1 ∧
    (enclosingRun ⟨3, true⟩ ⟨4, true⟩ 0).Bookings.map
        (fun b => (b.User.Id, b.User.Priority, b.StartTime, b.EndTime))
      = [(3, true, 2, 5), (4, true, 0, 10)] ∧
    occupancyVIP (enclosingRun ⟨3, true⟩ ⟨4, true⟩ 0).Bookings 3 = 2 := by
  decide

end Task3

/-! ## Rejection for capacity -/

namespace Task3

/-- For a standard candidate, a counting loop that runs to its end over a non-empty
sequence leaves `num_reserved` below the capacity. -/
theorem scan_standard_lt (c : Booking) (cap : Int) (hstd : c.User.Priority = false) :
    ∀ (bs : List Booking) (b : Booking) (n v : Int) (r : Int × Int),
      scan c cap (b :: bs) n v = some r → r.1 < cap := by
  intro bs
  induction bs with
  | nil =>
    intro b n v r h
    simp only [scan] at h
    obtain ⟨hC, hx⟩ := ite_none_eq_some h
    cases hx
    simp only [hstd, Bool.not_false, Bool.and_true, Bool.or_eq_true, decide_eq_true_eq,
      not_or, not_le] at hC
    simpa using hC.1
  | cons b2 bs ih =>
    intro b n v r h
    rw [scan] at h
    obtain ⟨_, hx⟩ := ite_none_eq_some h
    exact ih b2 _ _ r hx

/-- The rejection of a standard candidate in terms of the count of the first loop: for
a facility with `Capacity ≥ 1` and a standard candidate with
`now ≤ StartTime < EndTime`, `CheckBooking` answers with the rejection "Capacity
exceeded." if and only if the number of bookings of the facility that
`CheckTimeslotOverlap` reports against the candidate is at least `Capacity`; and for a
standard candidate, whatever the capacity, the clock and the interval, `CheckBooking`
returns a response with no remove action and no Cancelled message. -/
theorem CheckBooking_standard (s : Store) (request : Request) (now : Int) (facility : Nat)
    (hstd : request.Booking.User.Priority = false) :
    (1 ≤ (s facility).Capacity → now ≤ request.Booking.StartTime →
      request.Booking.StartTime < request.Booking.EndTime →
      (CheckBooking s request now facility = some (capacityExceeded request) ↔
        (s facility).Capacity ≤ (overlapCount request.Booking (s facility).Bookings : Int))) ∧
    (∃ resp, CheckBooking s request now facility = some resp ∧
      (∀ a ∈ resp.Actions, a.Action ≠ 1) ∧ (∀ m ∈ resp.BookingMessages, m.Action ≠ 2)) := by
  constructor
  · intro hcap hnow hlt
    have h1 : ¬ request.Booking.StartTime < now := by omega
    have h2 : ¬ request.Booking.StartTime ≥ request.Booking.EndTime := by omega
    simp only [CheckBooking, h1, h2, if_false, capacityExceeded]
    cases hs : scan request.Booking (s facility).Capacity (s facility).Bookings 0 0 with
    | none =>
      simp only [true_iff]
      by_contra hc
      obtain ⟨r, hr⟩ := scan_below request.Booking (s facility).Capacity
        (s facility).Bookings 0 0 (le_refl _) (by omega)
      rw [hr] at hs
      exact absurd hs (by simp)
    | some r =>
      obtain ⟨n, v⟩ := r
      have hn : n = (overlapCount request.Booking (s facility).Bookings : Int) := by
        simpa using scan_fst _ _ _ _ _ _ hs
      have hlt2 : n < (s facility).Capacity := by
        cases hb : (s facility).Bookings with
        | nil =>
          rw [hb] at hs
          simp only [scan, Option.some.injEq, Prod.mk.injEq] at hs
          have h0 := hs.1
          omega
        | cons b bs =>
          rw [hb] at hs
          exact scan_standard_lt _ _ hstd _ _ _ _ _ hs
      simp only [hlt2, if_true, Option.some.injEq, CheckResponse.mk.injEq]
      constructor
      · intro h
        simp at h
      · intro h
        omega
  · by_cases h1 : request.Booking.StartTime < now
    · refine ⟨⟨[], [⟨request.Booking, 1, "Booking is in the past."⟩]⟩, ?_, by simp, by simp⟩
      simp only [CheckBooking, h1, if_true]
    · by_cases h2 : request.Booking.StartTime ≥ request.Booking.EndTime
      · refine ⟨⟨[], [⟨request.Booking, 1, "Start time is after end time."⟩]⟩, ?_,
          by simp, by simp⟩
        simp only [CheckBooking, h1, h2, if_true, if_false]
      · cases hs : scan request.Booking (s facility).Capacity (s facility).Bookings 0 0 with
        | none =>
          refine ⟨capacityExceeded request, ?_, by simp [capacityExceeded],
            by simp [capacityExceeded]⟩
          simp only [CheckBooking, h1, h2, hs, if_false, capacityExceeded]
        | some r =>
          obtain ⟨n, v⟩ := r
          by_cases hc : n < (s facility).Capacity
          · refine ⟨outright request facility, ?_, by simp [outright], by simp [outright]⟩
            simp only [CheckBooking, h1, h2, hs, hc, if_true, if_false, outright]
          · cases hb : (s facility).Bookings with
            | nil =>
              refine ⟨⟨[], [⟨request.Booking, 1, "Facility not found."⟩]⟩, ?_, by simp, by simp⟩
              simp only [CheckBooking, h1, h2, hs, hc, if_false]
              rw [hb]
              rfl
            | cons b bs =>
              rw [hb] at hs
              exact absurd (scan_standard_lt _ _ hstd _ _ _ _ _ hs) hc

/-- An instance of `CheckBooking_standard`: standard user 2 asks for the room of capacity 1 that user 1 holds for
the same interval. -/
theorem CheckBooking_standard_witness :
    (standardRoomRequest.Booking.User.Priority = false ∧ 1 ≤ (pairStore 0).Capacity ∧
        (0 : Int) ≤ standardRoomRequest.Booking.StartTime ∧
        standardRoomRequest.Booking.StartTime < standardRoomRequest.Booking.EndTime) ∧
      CheckBooking pairStore standardRoomRequest 0 0
        = some (capacityExceeded standardRoomRequest) :=
  ⟨⟨rfl, by decide, by decide, by decide⟩,
    ((CheckBooking_standard pairStore standardRoomRequest 0 0 rfl).1 (by decide) (by decide)
      (by decide)).mpr (by decide)⟩

end Task3

namespace Task3

/-- When the counting loop runs to its end, `num_reserved_vip` has grown by the number of
VIP-owned bookings that `CheckTimeslotOverlap` reports against the candidate. -/
theorem scan_snd (c : Booking) (cap : Int) :
    ∀ (bs : List Booking) (n v : Int) (r : Int × Int),
      scan c cap bs n v = some r → r.2 = v + (vipOverlapCount c bs : Int) := by
  intro bs
  induction bs with
  | nil =>
    intro n v r h
    simp [scan] at h
    subst h
    simp [vipOverlapCount]
  | cons b bs ih =>
    intro n v r h
    simp only [scan] at h
    obtain ⟨_, hx⟩ := ite_none_eq_some h
    rw [ih _ _ _ hx]
    simp only [vipOverlapCount, List.countP_cons]
    by_cases hb : (CheckTimeslotOverlap c.StartTime c.EndTime b.StartTime b.EndTime
        && b.User.Priority) = true
    · simp only [hb, if_true]
      push_cast
      omega
    · simp [hb]

/-- For a VIP candidate the counting loop runs to its end when the count of VIP-owned
overlapping bookings stays below the capacity. -/
theorem scan_vip_below (c : Booking) (cap : Int) (hvip : c.User.Priority = true) :
    ∀ (bs : List Booking) (n v : Int), v + (vipOverlapCount c bs : Int) < cap →
      ∃ r, scan c cap bs n v = some r := by
  intro bs
  induction bs with
  | nil =>
    intro n v _
    exact ⟨_, rfl⟩
  | cons b bs ih =>
    intro n v hlt
    simp only [vipOverlapCount, List.countP_cons] at hlt
    have hc : (0:Int) ≤ (List.countP (fun booking => CheckTimeslotOverlap c.StartTime
        c.EndTime booking.StartTime booking.EndTime && booking.User.Priority) bs : Int) :=
      Int.natCast_nonneg _
    rw [scan]
    by_cases hb : (CheckTimeslotOverlap c.StartTime c.EndTime b.StartTime b.EndTime
        && b.User.Priority) = true
    · simp only [hb, if_true, Nat.cast_add, Nat.cast_one] at hlt
      have h2 : ¬ (v + 1 ≥ cap) := by omega
      simp only [hb, hvip, if_true, h2, decide_False, Bool.not_true, Bool.and_false,
        Bool.or_self, Bool.false_eq_true, if_false]
      exact ih _ _ (by simp only [vipOverlapCount]; omega)
    · simp only [hb, if_false, Nat.cast_add, Nat.cast_zero, add_zero] at hlt
      have h2 : ¬ (v ≥ cap) := by omega
      simp only [hb, hvip, h2, decide_False, Bool.not_true, Bool.and_false,
        Bool.or_self, Bool.false_eq_true, if_false]
      exact ih _ _ (by simp only [vipOverlapCount]; omega)

/-- A counting loop that starts with `num_reserved_vip` below the capacity and runs to
its end leaves it below the capacity. -/
theorem scan_snd_lt (c : Booking) (cap : Int) :
    ∀ (bs : List Booking) (n v : Int) (r : Int × Int), v < cap →
      scan c cap bs n v = some r → r.2 < cap := by
  intro bs
  induction bs with
  | nil =>
    intro n v r hv h
    simp only [scan, Option.some.injEq] at h
    subst h
    exact hv
  | cons b bs ih =>
    intro n v r _ h
    rw [scan] at h
    obtain ⟨hC, hx⟩ := ite_none_eq_some h
    simp only [Bool.or_eq_true, decide_eq_true_eq, not_or, not_le] at hC
    exact ih _ _ r (by simpa using hC.2) hx

/-- When the second loop finds no victim, every booking that `CheckTimeslotOverlap`
reports against the candidate is VIP-owned. -/
theorem findVictim_none_counts (c : Booking) :
    ∀ (bs : List Booking), findVictim c bs = none → overlapCount c bs = vipOverlapCount c bs := by
  intro bs
  induction bs with
  | nil =>
    intro _
    rfl
  | cons b bs ih =>
    intro h
    simp only [findVictim] at h
    by_cases hb : evictable c b = true
    · rw [if_pos hb] at h
      exact absurd h (by simp)
    · rw [if_neg hb] at h
      have := ih h
      simp only [overlapCount, vipOverlapCount] at this
      simp only [overlapCount, vipOverlapCount, List.countP_cons, this]
      simp only [evictable, Bool.and_eq_true, Bool.not_eq_true', not_and,
        Bool.not_eq_false] at hb
      by_cases ho : CheckTimeslotOverlap c.StartTime c.EndTime b.StartTime b.EndTime = true
      · simp [ho, hb ho]
      · simp [ho]

/-- The rejection of a VIP candidate in terms of the VIP count of the first loop: for a
facility with `Capacity ≥ 1` and a VIP candidate with
`now ≤ StartTime < EndTime`, `CheckBooking` answers with the rejection "Capacity
exceeded." if and only if the number of VIP-owned bookings of the facility that
`CheckTimeslotOverlap` reports against the candidate is at least `Capacity`; otherwise,
the stored bookings carrying their compound group, it answers with the outright response
or with the preempting response for the group of a victim of the facility. -/
theorem CheckBooking_vip (s : Store) (request : Request) (now : Int) (facility : Nat)
    (hcap : 1 ≤ (s facility).Capacity) (hvip : request.Booking.User.Priority = true)
    (hnow : now ≤ request.Booking.StartTime)
    (hlt : request.Booking.StartTime < request.Booking.EndTime) :
    (CheckBooking s request now facility = some (capacityExceeded request) ↔
      (s facility).Capacity ≤ (vipOverlapCount request.Booking (s facility).Bookings : Int)) ∧
    ((∀ b ∈ (s facility).Bookings, b.RequestsPtr.isSome = true) →
      (vipOverlapCount request.Booking (s facility).Bookings : Int) < (s facility).Capacity →
      (CheckBooking s request now facility = some (outright request facility) ∨
        ∃ victim group, victim ∈ (s facility).Bookings ∧ victim.User.Priority = false ∧
          victim.RequestsPtr = some group ∧
          CheckBooking s request now facility = some (overwriting request facility group))) := by
  have h1 : ¬ request.Booking.StartTime < now := by omega
  have h2 : ¬ request.Booking.StartTime ≥ request.Booking.EndTime := by omega
  cases hs : scan request.Booking (s facility).Capacity (s facility).Bookings 0 0 with
  | none =>
    have hge : (s facility).Capacity
        ≤ (vipOverlapCount request.Booking (s facility).Bookings : Int) := by
      by_contra hc
      obtain ⟨r, hr⟩ := scan_vip_below request.Booking (s facility).Capacity hvip
        (s facility).Bookings 0 0 (by omega)
      rw [hr] at hs
      exact absurd hs (by simp)
    refine ⟨?_, fun _ hc => absurd hge (by omega)⟩
    simp only [CheckBooking, h1, h2, hs, if_false, capacityExceeded, hge]
  | some r =>
    obtain ⟨n, v⟩ := r
    have hn : n = (overlapCount request.Booking (s facility).Bookings : Int) := by
      simpa using scan_fst _ _ _ _ _ _ hs
    have hv : v = (vipOverlapCount request.Booking (s facility).Bookings : Int) := by
      simpa using scan_snd _ _ _ _ _ _ hs
    have hvlt : v < (s facility).Capacity :=
      scan_snd_lt _ _ _ _ _ _ (by omega) hs
    by_cases hc : n < (s facility).Capacity
    · have hcb : CheckBooking s request now facility = some (outright request facility) := by
        simp only [CheckBooking, h1, h2, hs, hc, if_true, if_false, outright]
      refine ⟨?_, fun _ _ => Or.inl hcb⟩
      rw [hcb]
      constructor
      · intro h
        simp [outright, capacityExceeded] at h
      · intro h
        omega
    · cases hfv : findVictim request.Booking (s facility).Bookings with
      | none =>
        have := findVictim_none_counts _ _ hfv
        omega
      | some victim =>
        obtain ⟨i, hi, he, _⟩ := findVictim_some _ _ _ hfv
        have hmem : victim ∈ (s facility).Bookings := List.getElem?_mem hi
        simp only [evictable, Bool.and_eq_true, Bool.not_eq_true'] at he
        constructor
        · constructor
          · intro h
            simp only [CheckBooking, h1, h2, hs, hc, hfv, if_false] at h
            cases hg : victim.RequestsPtr with
            | none => simp [hg] at h
            | some group => simp [hg, capacityExceeded] at h
          · intro h
            omega
        · intro hptr _
          have hsome := hptr victim hmem
          cases hg : victim.RequestsPtr with
          | none => simp [hg] at hsome
          | some group =>
            refine Or.inr ⟨victim, group, hmem, he.2, hg, ?_⟩
            simp only [CheckBooking, h1, h2, hs, hc, hfv, hg, if_false, overwriting]

/-- An instance of `CheckBooking_vip`: VIP user 3 asks for the room of capacity 1 that standard user 1's
compound holds; no VIP-owned booking overlaps, and the answer preempts. -/
theorem CheckBooking_vip_witness :
    (1 ≤ (pairStore 0).Capacity ∧ vipRoomRequest.Booking.User.Priority = true ∧
        (0 : Int) ≤ vipRoomRequest.Booking.StartTime ∧
        vipRoomRequest.Booking.StartTime < vipRoomRequest.Booking.EndTime ∧
        (∀ b ∈ (pairStore 0).Bookings, b.RequestsPtr.isSome = true) ∧
        (vipOverlapCount vipRoomRequest.Booking (pairStore 0).Bookings : Int)
          < (pairStore 0).Capacity) ∧
      (CheckBooking pairStore vipRoomRequest 0 0 = some (outright vipRoomRequest 0) ∨
        ∃ victim group, victim ∈ (pairStore 0).Bookings ∧ victim.User.Priority = false ∧
          victim.RequestsPtr = some group ∧
          CheckBooking pairStore vipRoomRequest 0 0
            = some (overwriting vipRoomRequest 0 group)) :=
  ⟨⟨by decide, rfl, by decide, by decide, by decide, by decide⟩,
    (CheckBooking_vip pairStore vipRoomRequest 0 0 (by decide) rfl (by decide) (by decide)).2
      (by decide) (by decide)⟩

end Task3

/-! ## Commit and notifications of the server -/

namespace Task3

/-- C13 (failing input): room of capacity 1 and projector of capacity 2, both holding
user 1's compound for [10,15).  In `rebookCompound` VIP user 3 asks for the room and
user 1 asks again for the projector.  No verdict is a Reject: the room's verdict removes
user 1's compound and the projector's verdict adds user 1's candidate.  With the room's
response first the add is dropped as a duplicate of the remove, and after the commit the
projector does not hold user 1's candidate; with the projector's response first the
remove is dropped, and the projector holds user 1's booking twice instead of not at all. -/
theorem Server_drops_action_with_equal_booking :
    ((arrivedInRequestOrder unevenPairStore rebookCompound (fun _ => 0)).map some
        = evaluations unevenPairStore rebookCompound (fun _ => 0)) ∧
    (arrivedInRequestOrder unevenPairStore rebookCompound (fun _ => 0)).map (fun r =>
        (r.Actions.map (fun a => (a.Action, a.Booking.User.Id, a.Booking.FacilityID, a.Facility)),
          r.BookingMessages.map (fun m => m.Action)))
      = [([(1, 1, "room", 0), (1, 1, "projector", 1), (0, 3, "room", 0)], [2, 2, 0]),
         ([(0, 1, "projector", 1)], [0])] ∧
    ((unevenPairStore 0).Bookings.map (fun b => b.User.Id),
      (unevenPairStore 1).Bookings.map (fun b => b.User.Id)) = ([1], [1]) ∧
    (((Server unevenPairStore
          (arrivedInRequestOrder unevenPairStore rebookCompound (fun _ => 0))).1
        0).Bookings.map (fun b => b.User.Id),
      ((Server unevenPairStore
          (arrivedInRequestOrder unevenPairStore rebookCompound (fun _ => 0))).1
        1).Bookings.map (fun b => b.User.Id)) = ([3], []) ∧
    (((Server unevenPairStore
          (arrivedInRequestOrder unevenPairStore rebookCompound (fun _ => 0)).reverse).1
        0).Bookings.map (fun b => b.User.Id),
      ((Server unevenPairStore
          (arrivedInRequestOrder unevenPairStore rebookCompound (fun _ => 0)).reverse).1
        1).Bookings.map (fun b => b.User.Id)) = ([3], [1, 1]) :=
  ⟨rfl, by decide, by decide, by decide, by decide⟩

/-- C14: when the server finds the compound not possible, every message it sends has
`Action` 1 and the text "Booking not successful as a part of the compound could not be
booked.", so no message with `Action` 2 is sent; and every collected message that is
not a Cancelled one, in particular every Accepted one, is sent in that form. -/
theorem Server_failure_messages (s : Store) (arrived : List CheckResponse)
    (hfail : compound_possible (aggregate arrived).1 = false) :
    (∀ m ∈ (Server s arrived).2, m.Action = 1 ∧ m.Message =
      "Booking not successful as a part of the compound could not be booked.") ∧
    (∀ m ∈ (Server s arrived).2, m.Action ≠ 2) ∧
    (∀ m0 ∈ (aggregate arrived).1, m0.Action ≠ 2 →
      (⟨m0.Booking, 1,
        "Booking not successful as a part of the compound could not be booked."⟩ :
          BookingMessage) ∈ (Server s arrived).2) := by
  have hS : (Server s arrived).2 = failureMessages (aggregate arrived).1 := by
    simp [Server, hfail]
  rw [hS]
  refine ⟨?_, ?_, ?_⟩
  · intro m hm
    simp only [failureMessages, List.mem_map] at hm
    obtain ⟨m0, _, rfl⟩ := hm
    exact ⟨rfl, rfl⟩
  · intro m hm
    simp only [failureMessages, List.mem_map] at hm
    obtain ⟨m0, _, rfl⟩ := hm
    simp
  · intro m0 hm0 hne
    simp only [failureMessages, List.mem_map, List.mem_filter]
    exact ⟨m0, ⟨hm0, by simpa using hne⟩, rfl⟩

/-- Witness of C14: standard user 2 asks for the room and the projector while user 1
holds the room of capacity 1; the projector's verdict is Accepted, the room's is a
Reject, and both sub-bookings are answered with `Action` 1. -/
theorem Server_failure_messages_witness :
    (compound_possible (aggregate halfFailedArrival).1 = false ∧
      (aggregate halfFailedArrival).1.map (fun m => (m.Booking.FacilityID, m.Action))
        = [("room", 1), ("projector", 0)]) ∧
    (∀ m ∈ (Server roomOnlyStore halfFailedArrival).2, m.Action = 1 ∧ m.Message =
      "Booking not successful as a part of the compound could not be booked.") ∧
    (∀ m ∈ (Server roomOnlyStore halfFailedArrival).2, m.Action ≠ 2) ∧
    (∀ m0 ∈ (aggregate halfFailedArrival).1, m0.Action ≠ 2 →
      (⟨m0.Booking, 1,
        "Booking not successful as a part of the compound could not be booked."⟩ :
          BookingMessage) ∈ (Server roomOnlyStore halfFailedArrival).2) :=
  ⟨⟨by decide, by decide⟩,
    Server_failure_messages roomOnlyStore halfFailedArrival (by decide)⟩

/-- C15 (failing input): on `mixedStore`, `laterCompound` is handled with the room's
response first.  The sub-booking of VIP user 1 for the projector gets the verdict Reject,
but the only message sent that concerns an equal booking is the Cancelled message for
user 1's stored booking: user 1 receives neither Accepted nor Rejected. -/
theorem Server_leaves_rejected_part_unanswered :
    ((arrivedInRequestOrder mixedStore laterCompound (fun _ => 0)).map some
        = evaluations mixedStore laterCompound (fun _ => 0)) ∧
    (arrivedInRequestOrder mixedStore laterCompound (fun _ => 0)).map (fun r =>
        r.BookingMessages.map (fun m => (m.Booking.User.Id, m.Booking.FacilityID, m.Action)))
      = [[(2, "room", 2), (1, "projector", 2), (3, "room", 0)], [(1, "projector", 1)]] ∧
    (Server mixedStore (arrivedInRequestOrder mixedStore laterCompound (fun _ => 0))).2.map
        (fun m => (m.Booking.User.Id, m.Booking.FacilityID, m.Action, m.Message))
      = [(2, "room", 2, "A VIP-User has overwritten your booking."),
         (1, "projector", 2, "A VIP-User has overwritten your booking."),
         (3, "room", 0, "Facilities were booked, you have overwritten a non-VIP booking.")] ∧
    ((Server mixedStore (arrivedInRequestOrder mixedStore laterCompound (fun _ => 0))).2.filter
        (fun m => CheckBookingEquality m.Booking ⟨⟨1, true⟩, "projector", 10, 15, none⟩)).map
        (fun m => m.Action) = [2] :=
  ⟨rfl, by decide, by decide, by decide⟩

end Task3

/-! ## Deduplication in the receiving loop -/

namespace Task3

/-- `CheckBookingEquality` holds between a booking and itself. -/
theorem CheckBookingEquality_refl (a : Booking) : CheckBookingEquality a a = true := by
  simp [CheckBookingEquality]

/-- `CheckBookingEquality` does not depend on the order of its arguments. -/
theorem CheckBookingEquality_comm (a b : Booking) :
    CheckBookingEquality a b = CheckBookingEquality b a := by
  simp only [CheckBookingEquality, eq_comm]

/-- `CheckBookingEquality` is transitive. -/
theorem CheckBookingEquality_trans (a b c : Booking) (hab : CheckBookingEquality a b = true)
    (hbc : CheckBookingEquality b c = true) : CheckBookingEquality a c = true := by
  simp only [CheckBookingEquality, Bool.and_eq_true, decide_eq_true_eq] at hab hbc ⊢
  obtain ⟨⟨⟨h1, h2⟩, h3⟩, h4⟩ := hab
  obtain ⟨⟨⟨g1, g2⟩, g3⟩, g4⟩ := hbc
  exact ⟨⟨⟨h1.trans g1, h2.trans g2⟩, h3.trans g3⟩, h4.trans g4⟩

/-- A loop that appends an element unless the accumulator holds one with an equal booking
keeps the accumulator free of two elements with equal bookings. -/
theorem foldl_dedup_pairwise {α : Type} (key : α → Booking) (f : List α → α → List α)
    (hf : ∀ acc x, f acc x =
      if acc.any (fun y => CheckBookingEquality (key y) (key x)) then acc else acc ++ [x]) :
    ∀ (l acc : List α),
      acc.Pairwise (fun a b => CheckBookingEquality (key a) (key b) = false) →
      (l.foldl f acc).Pairwise (fun a b => CheckBookingEquality (key a) (key b) = false) := by
  intro l
  induction l with
  | nil =>
    intro acc h
    exact h
  | cons x l ih =>
    intro acc h
    rw [List.foldl_cons]
    apply ih
    rw [hf]
    by_cases hany : acc.any (fun y => CheckBookingEquality (key y) (key x)) = true
    · rw [if_pos hany]
      exact h
    · rw [if_neg hany]
      rw [List.pairwise_append]
      refine ⟨h, List.pairwise_singleton _ _, ?_⟩
      intro a ha b hb
      simp only [List.mem_singleton] at hb
      subst hb
      simp only [List.any_eq_true, not_exists, not_and, Bool.not_eq_true] at hany
      exact hany a ha

/-- Such a loop keeps, for every booking, the first element with an equal booking that
the accumulator followed by the input holds. -/
theorem foldl_dedup_find {α : Type} (key : α → Booking) (f : List α → α → List α)
    (hf : ∀ acc x, f acc x =
      if acc.any (fun y => CheckBookingEquality (key y) (key x)) then acc else acc ++ [x])
    (b : Booking) :
    ∀ (l acc : List α),
      (l.foldl f acc).find? (fun x => CheckBookingEquality (key x) b)
        = (acc ++ l).find? (fun x => CheckBookingEquality (key x) b) := by
  intro l
  induction l with
  | nil =>
    intro acc
    simp
  | cons x l ih =>
    intro acc
    rw [List.foldl_cons, ih, hf]
    by_cases hany : acc.any (fun y => CheckBookingEquality (key y) (key x)) = true
    · rw [if_pos hany]
      simp only [List.find?_append]
      cases hacc : acc.find? (fun x => CheckBookingEquality (key x) b) with
      | some y => simp
      | none =>
        simp only [Option.none_or]
        have hx : CheckBookingEquality (key x) b = false := by
          cases hxb : CheckBookingEquality (key x) b with
          | false => rfl
          | true =>
            simp only [List.any_eq_true] at hany
            obtain ⟨y, hy, hyx⟩ := hany
            have hyb := CheckBookingEquality_trans _ _ _ hyx hxb
            simp only [List.find?_eq_none] at hacc
            exact absurd hyb (hacc y hy)
        simp [List.find?_cons, hx]
    · rw [if_neg hany]
      simp

/-- In a list free of two elements with equal bookings, at most one element has a
booking equal to a given one. -/
theorem countP_le_one_of_pairwise {α : Type} (key : α → Booking) (b : Booking) :
    ∀ (l : List α), l.Pairwise (fun x y => CheckBookingEquality (key x) (key y) = false) →
      l.countP (fun x => CheckBookingEquality (key x) b) ≤ 1 := by
  intro l
  induction l with
  | nil =>
    intro _
    simp
  | cons x l ih =>
    intro h
    rw [List.pairwise_cons] at h
    rw [List.countP_cons]
    by_cases hx : CheckBookingEquality (key x) b = true
    · have hzero : l.countP (fun x => CheckBookingEquality (key x) b) = 0 := by
        rw [List.countP_eq_zero]
        intro y hy hyb
        have hby : CheckBookingEquality b (key y) = true := by
          rw [CheckBookingEquality_comm]
          exact hyb
        have := CheckBookingEquality_trans _ _ _ hx hby
        rw [h.1 y hy] at this
        exact absurd this (by simp)
      simp [hx, hzero]
    · simp only [hx, if_false, add_zero, Bool.false_eq_true]
      exact ih h.2

/-- The receiving loop treats messages and actions separately: each of the two collected
lists is the deduplicating loop over the concatenation, in arrival order, of what the
responses carry. -/
theorem foldl_collect (arrived : List CheckResponse) :
    ∀ (acc : List BookingMessage × List Action),
      arrived.foldl collect acc
        = ((arrived.flatMap (fun r => r.BookingMessages)).foldl addMessage acc.1,
            (arrived.flatMap (fun r => r.Actions)).foldl addAction acc.2) := by
  induction arrived with
  | nil =>
    intro acc
    rfl
  | cons r rs ih =>
    intro acc
    rw [List.foldl_cons, ih]
    simp only [collect, List.flatMap_cons, List.foldl_append]

/-- C16: for every list of responses in arrival order, the collected messages hold no two
messages with bookings equal under `CheckBookingEquality`, the collected actions hold no
two actions with equal bookings, and for every message (action) of some response the
collected list holds exactly one element with an equal booking, namely the first such
element of the responses in arrival order. -/
theorem aggregate_deduplicates (arrived : List CheckResponse) :
    (aggregate arrived).1.Pairwise
        (fun a b => CheckBookingEquality a.Booking b.Booking = false) ∧
    (aggregate arrived).2.Pairwise
        (fun a b => CheckBookingEquality a.Booking b.Booking = false) ∧
    (∀ r ∈ arrived, ∀ m ∈ r.BookingMessages,
      (aggregate arrived).1.countP (fun x => CheckBookingEquality x.Booking m.Booking) = 1 ∧
      (aggregate arrived).1.find? (fun x => CheckBookingEquality x.Booking m.Booking)
        = (arrived.flatMap (fun r => r.BookingMessages)).find?
            (fun x => CheckBookingEquality x.Booking m.Booking)) ∧
    (∀ r ∈ arrived, ∀ a ∈ r.Actions,
      (aggregate arrived).2.countP (fun x => CheckBookingEquality x.Booking a.Booking) = 1 ∧
      (aggregate arrived).2.find? (fun x => CheckBookingEquality x.Booking a.Booking)
        = (arrived.flatMap (fun r => r.Actions)).find?
            (fun x => CheckBookingEquality x.Booking a.Booking)) := by
  have hagg : aggregate arrived
      = ((arrived.flatMap (fun r => r.BookingMessages)).foldl addMessage [],
          (arrived.flatMap (fun r => r.Actions)).foldl addAction []) := by
    rw [aggregate, foldl_collect]
  have hpm := foldl_dedup_pairwise BookingMessage.Booking addMessage (fun _ _ => rfl)
    (arrived.flatMap (fun r => r.BookingMessages)) [] List.Pairwise.nil
  have hpa := foldl_dedup_pairwise Action.Booking addAction (fun _ _ => rfl)
    (arrived.flatMap (fun r => r.Actions)) [] List.Pairwise.nil
  rw [hagg]
  refine ⟨hpm, hpa, ?_, ?_⟩
  · intro r hr m hm
    have hfind := foldl_dedup_find BookingMessage.Booking addMessage (fun _ _ => rfl)
      m.Booking (arrived.flatMap (fun r => r.BookingMessages)) []
    simp only [List.nil_append] at hfind
    refine ⟨?_, hfind⟩
    have hle := countP_le_one_of_pairwise BookingMessage.Booking m.Booking _ hpm
    have hflat : m ∈ arrived.flatMap (fun r => r.BookingMessages) :=
      List.mem_flatMap.mpr ⟨r, hr, hm⟩
    have hsome : ((arrived.flatMap (fun r => r.BookingMessages)).find?
        (fun x => CheckBookingEquality x.Booking m.Booking)).isSome = true := by
      rw [List.find?_isSome]
      exact ⟨m, hflat, CheckBookingEquality_refl _⟩
    rw [← hfind, List.find?_isSome] at hsome
    have hpos := List.countP_pos_iff.mpr hsome
    exact Nat.le_antisymm hle hpos
  · intro r hr a ha
    have hfind := foldl_dedup_find Action.Booking addAction (fun _ _ => rfl)
      a.Booking (arrived.flatMap (fun r => r.Actions)) []
    simp only [List.nil_append] at hfind
    refine ⟨?_, hfind⟩
    have hle := countP_le_one_of_pairwise Action.Booking a.Booking _ hpa
    have hflat : a ∈ arrived.flatMap (fun r => r.Actions) :=
      List.mem_flatMap.mpr ⟨r, hr, ha⟩
    have hsome : ((arrived.flatMap (fun r => r.Actions)).find?
        (fun x => CheckBookingEquality x.Booking a.Booking)).isSome = true := by
      rw [List.find?_isSome]
      exact ⟨a, hflat, CheckBookingEquality_refl _⟩
    rw [← hfind, List.find?_isSome] at hsome
    have hpos := List.countP_pos_iff.mpr hsome
    exact Nat.le_antisymm hle hpos

end Task3

/-! ## A compound of one request against task 2 -/

namespace Task3

/-- The counting loops of task 3 and task 2 agree. -/
theorem scan_toTask2 (c : Booking) (cap : Int) :
    ∀ (bs : List Booking) (n v : Int),
      Task2.scan (toTask2 c) cap (bs.map toTask2) n v = scan c cap bs n v := by
  intro bs
  induction bs with
  | nil =>
    intro n v
    rfl
  | cons b bs ih =>
    intro n v
    simp only [List.map_cons, Task2.scan, scan, ih]
    rfl

/-- The second loops of task 3 and task 2 stop at the same booking; task 2 also knows
its index, before which no booking passes the test. -/
theorem findVictim_toTask2 (c : Booking) :
    ∀ (bs : List Booking) (k : Nat),
      (findVictim c bs = none ∧ Task2.findVictim (toTask2 c) (bs.map toTask2) k = none) ∨
      (∃ (i : Nat) (v : Booking), findVictim c bs = some v ∧ bs[i]? = some v ∧
        evictable c v = true ∧
        (∀ j : Nat, j < i → ∀ w, bs[j]? = some w → evictable c w = false) ∧
        Task2.findVictim (toTask2 c) (bs.map toTask2) k = some (k + i, toTask2 v)) := by
  intro bs
  induction bs with
  | nil =>
    intro k
    exact Or.inl ⟨rfl, rfl⟩
  | cons b bs ih =>
    intro k
    have he : Task2.evictable (toTask2 c) (toTask2 b) = evictable c b := rfl
    by_cases hb : evictable c b = true
    · refine Or.inr ⟨0, b, ?_, by simp, hb, fun j hj => absurd hj (Nat.not_lt_zero j), ?_⟩
      · simp [findVictim, hb]
      · simp [Task2.findVictim, he, hb]
    · rcases ih (k + 1) with ⟨h3, h2⟩ | ⟨i, v, h3, hi, hv, hfirst, h2⟩
      · refine Or.inl ⟨?_, ?_⟩
        · simp [findVictim, hb, h3]
        · simp [Task2.findVictim, he, hb, h2]
      · refine Or.inr ⟨i + 1, v, ?_, by simpa using hi, hv, ?_, ?_⟩
        · simp [findVictim, hb, h3]
        · intro j hj w hw
          cases j with
          | zero =>
            simp at hw
            subst hw
            simpa using hb
          | succ n => exact hfirst n (by omega) w (by simpa using hw)
        · simp only [List.map_cons, Task2.findVictim, he, hb, Bool.false_eq_true, if_false, h2]
          congr 2
          omega

/-- The loop of `RemoveBooking` erases the index of the first booking equal to its
argument under `CheckBookingEquality`. -/
theorem removeFirst_eq_eraseIdx (target : Booking) :
    ∀ (bs : List Booking) (i : Nat) (v : Booking), bs[i]? = some v →
      CheckBookingEquality v target = true →
      (∀ j : Nat, j < i → ∀ w, bs[j]? = some w → CheckBookingEquality w target = false) →
      removeFirst target bs = bs.eraseIdx i := by
  intro bs
  induction bs with
  | nil =>
    intro i v hi
    simp at hi
  | cons b bs ih =>
    intro i v hi hv hfirst
    cases i with
    | zero =>
      simp at hi
      subst hi
      simp [removeFirst, hv]
    | succ n =>
      have hb : CheckBookingEquality b target = false := hfirst 0 (by omega) b (by simp)
      simp only [removeFirst, hb, Bool.false_eq_true, if_false, List.eraseIdx_cons_succ]
      congr 1
      exact ih n v (by simpa using hi) hv
        (fun j hj w hw => hfirst (j + 1) (by omega) w (by simpa using hw))

/-- Erasing an index commutes with reading the bookings as task 2 bookings. -/
theorem eraseIdx_map_toTask2 :
    ∀ (bs : List Booking) (i : Nat),
      (bs.eraseIdx i).map toTask2 = (bs.map toTask2).eraseIdx i := by
  intro bs
  induction bs with
  | nil =>
    intro i
    simp
  | cons b bs ih =>
    intro i
    cases i with
    | zero => simp
    | succ n => simp [ih]

/-- Two bookings that are equal under `CheckBookingEquality` pass or fail the overlap
test against a candidate together. -/
theorem CheckBookingEquality_overlap (c w v : Booking)
    (h : CheckBookingEquality w v = true) :
    CheckTimeslotOverlap c.StartTime c.EndTime w.StartTime w.EndTime
      = CheckTimeslotOverlap c.StartTime c.EndTime v.StartTime v.EndTime := by
  simp only [CheckBookingEquality, Bool.and_eq_true, decide_eq_true_eq] at h
  rw [h.1.2, h.2]

end Task3

namespace Task3

/-- Bookings with the same task 2 reading agree on every field that task 2 has. -/
theorem toTask2_fields (a b : Booking) (h : toTask2 a = toTask2 b) :
    a.User.Id = b.User.Id ∧ a.User.Priority = b.User.Priority ∧
      a.FacilityID = b.FacilityID ∧ a.StartTime = b.StartTime ∧ a.EndTime = b.EndTime := by
  simp only [toTask2, Task2.Booking.mk.injEq, Task2.User.mk.injEq] at h
  exact ⟨h.1.1, h.1.2, h.2.1, h.2.2.1, h.2.2.2⟩

/-- The server on the single response of a rejection: nothing is committed and the
booking is answered with `Action` 1. -/
theorem Server_single_reject (s : Store) (b : Booking) (text : String) :
    Server s [⟨[], [⟨b, 1, text⟩]⟩]
      = (s, [⟨b, 1, "Booking not successful as a part of the compound could not be booked."⟩]) := by
  simp [Server, aggregate, collect, addMessage, compound_possible, failureMessages]

/-- The server on the single outright response: the add is committed. -/
theorem Server_single_outright (s : Store) (b : Booking) (f : Nat) (text : String) :
    Server s [⟨[⟨0, b, f⟩], [⟨b, 0, text⟩]⟩] = (AddBooking b f s, [⟨b, 0, text⟩]) := by
  simp [Server, aggregate, collect, addMessage, addAction, compound_possible, execute]

/-- The server on the single preempting response for a group of one booking that is not
equal to the candidate: the remove and the add are committed in this order. -/
theorem Server_single_overwrite (s : Store) (v b : Booking) (f g : Nat) (t1 t2 : String)
    (hne : CheckBookingEquality v b = false) :
    Server s [⟨[⟨1, v, g⟩, ⟨0, b, f⟩], [⟨v, 2, t1⟩, ⟨b, 0, t2⟩]⟩]
      = (AddBooking b f (RemoveBooking v g s), [⟨v, 2, t1⟩, ⟨b, 0, t2⟩]) := by
  simp [Server, aggregate, collect, addMessage, addAction, compound_possible, execute, hne]

/-- The server on one request, against task 2 `CheckBooking` on the same candidate. -/
theorem single_candidate_refines (s : Store) (f : Nat) (c : Booking) (now : Int)
    (hgroup : ∀ b ∈ (s f).Bookings, ∃ b0 : Booking,
      b.RequestsPtr = some [⟨f, b0⟩] ∧ toTask2 b0 = toTask2 b)
    (hprio : ∀ b1 ∈ c :: (s f).Bookings, ∀ b2 ∈ c :: (s f).Bookings,
      b1.User.Id = b2.User.Id → b1.User.Priority = b2.User.Priority) :
    ∃ resp, CheckBooking s ⟨f, c⟩ now f = some resp ∧
      ((Server s [resp]).1 f).Bookings.map toTask2
        = (Task2.CheckBooking ⟨c.FacilityID, toTask2 c⟩ now
            (toTask2Facility (s f))).2.Bookings ∧
      (Server s [resp]).2.map (fun m => (toTask2 m.Booking, m.Action))
        = (Task2.CheckBooking ⟨c.FacilityID, toTask2 c⟩ now
            (toTask2Facility (s f))).1.map (fun m => (m.Booking, m.Action)) := by
  have hS : (toTask2 c).StartTime = c.StartTime := rfl
  have hE : (toTask2 c).EndTime = c.EndTime := rfl
  have hscan := scan_toTask2 c (s f).Capacity (s f).Bookings 0 0
  by_cases h1 : c.StartTime < now
  · refine ⟨⟨[], [⟨c, 1, "Booking is in the past."⟩]⟩, ?_, ?_, ?_⟩
    · simp only [CheckBooking, h1, if_true]
    · simp [Server_single_reject, Task2.CheckBooking, hS, h1, toTask2Facility]
    · simp [Server_single_reject, Task2.CheckBooking, hS, h1]
  · by_cases h2 : c.StartTime ≥ c.EndTime
    · refine ⟨⟨[], [⟨c, 1, "Start time is after end time."⟩]⟩, ?_, ?_, ?_⟩
      · simp only [CheckBooking, h1, h2, if_true, if_false]
      · simp [Server_single_reject, Task2.CheckBooking, hS, hE, h1, h2, toTask2Facility]
      · simp [Server_single_reject, Task2.CheckBooking, hS, hE, h1, h2]
    · cases hs : scan c (s f).Capacity (s f).Bookings 0 0 with
      | none =>
        rw [hs] at hscan
        refine ⟨⟨[], [⟨c, 1, "Capacity exceeded."⟩]⟩, ?_, ?_, ?_⟩
        · simp only [CheckBooking, h1, h2, hs, if_false]
        · simp [Server_single_reject, Task2.CheckBooking, hS, hE, h1, h2, toTask2Facility,
            hscan]
        · simp [Server_single_reject, Task2.CheckBooking, hS, hE, h1, h2, toTask2Facility,
            hscan]
      | some r =>
        obtain ⟨n, v⟩ := r
        rw [hs] at hscan
        by_cases hc : n < (s f).Capacity
        · refine ⟨⟨[⟨0, c, f⟩], [⟨c, 0, "Facilities were booked."⟩]⟩, ?_, ?_, ?_⟩
          · simp only [CheckBooking, h1, h2, hs, hc, if_true, if_false]
          · simp [Server_single_outright, Task2.CheckBooking, hS, hE, h1, h2,
              toTask2Facility, hscan, hc, AddBooking]
          · simp [Server_single_outright, Task2.CheckBooking, hS, hE, h1, h2,
              toTask2Facility, hscan, hc]
        · rcases findVictim_toTask2 c (s f).Bookings 0 with
            ⟨h3, ht2⟩ | ⟨i, victim, h3, hi, hev, hfirst, ht2⟩
          · refine ⟨⟨[], [⟨c, 1, "Facility not found."⟩]⟩, ?_, ?_, ?_⟩
            · simp only [CheckBooking, h1, h2, hs, hc, h3, if_false]
            · simp [Server_single_reject, Task2.CheckBooking, hS, hE, h1, h2,
                toTask2Facility, hscan, hc, ht2]
            · simp [Server_single_reject, Task2.CheckBooking, hS, hE, h1, h2,
                toTask2Facility, hscan, hc, ht2]
          · have hmem : victim ∈ (s f).Bookings := List.getElem?_mem hi
            obtain ⟨v0, hptr, hv0⟩ := hgroup victim hmem
            obtain ⟨hid, hpr, hfid, hst, hen⟩ := toTask2_fields _ _ hv0
            simp only [evictable, Bool.and_eq_true, Bool.not_eq_true'] at hev
            have hvip : c.User.Priority = true := by
              cases hp : c.User.Priority with
              | true => rfl
              | false =>
                cases hb : (s f).Bookings with
                | nil =>
                  rw [hb] at hmem
                  simp at hmem
                | cons b bs =>
                  rw [hb] at hs
                  exact absurd (scan_standard_lt _ _ hp _ _ _ _ _ hs) hc
            have hne : CheckBookingEquality v0 c = false := by
              cases hcb : CheckBookingEquality v0 c with
              | false => rfl
              | true =>
                simp only [CheckBookingEquality, Bool.and_eq_true, decide_eq_true_eq] at hcb
                have := hprio victim (List.mem_cons_of_mem _ hmem) c (List.mem_cons_self _ _)
                  (by rw [← hid]; exact hcb.1.1.1)
                rw [hev.2, hvip] at this
                exact absurd this (by simp)
            have hvv0 : CheckBookingEquality victim v0 = true := by
              simp [CheckBookingEquality, hid, hfid, hst, hen]
            have hrm : removeFirst v0 (s f).Bookings = (s f).Bookings.eraseIdx i := by
              apply removeFirst_eq_eraseIdx v0 _ i victim hi hvv0
              intro j hj w hw
              cases hwv : CheckBookingEquality w v0 with
              | false => rfl
              | true =>
                have hwmem : w ∈ (s f).Bookings := List.getElem?_mem hw
                have hov := CheckBookingEquality_overlap c w v0 hwv
                simp only [CheckBookingEquality, Bool.and_eq_true, decide_eq_true_eq] at hwv
                have hwp := hprio w (List.mem_cons_of_mem _ hwmem) victim
                  (List.mem_cons_of_mem _ hmem) (by rw [← hid]; exact hwv.1.1.1)
                have hfalse := hfirst j hj w hw
                rw [hst, hen, hev.1] at hov
                simp [evictable, hov, hwp, hev.2] at hfalse
            refine ⟨⟨[⟨1, v0, f⟩, ⟨0, c, f⟩],
              [⟨v0, 2, "A VIP-User has overwritten your booking."⟩,
                ⟨c, 0, "Facilities were booked, you have overwritten a non-VIP booking."⟩]⟩,
              ?_, ?_, ?_⟩
            · simp only [CheckBooking, h1, h2, hs, hc, h3, hptr, if_false, List.map_cons,
                List.map_nil, List.cons_append, List.nil_append]
            · simp [Server_single_overwrite, hne, Task2.CheckBooking, hS, hE, h1, h2,
                toTask2Facility, hscan, hc, ht2, AddBooking, RemoveBooking, hrm,
                eraseIdx_map_toTask2]
            · simp [Server_single_overwrite, hne, Task2.CheckBooking, hS, hE, h1, h2,
                toTask2Facility, hscan, hc, ht2, hv0]

end Task3

namespace Task3

/-- C20: let every booking stored in the target facility carry a compound group that
consists of that booking alone, and let users with the same id have the same priority
(among the candidate and the stored bookings).  When the server handles the compound
that consists of the one request, the evaluation returns, and afterwards the facility's
booking sequence, read without group pointers, is the sequence that task 2
`CheckBooking` leaves for the same candidate at the same clock value, and the messages
sent carry the same bookings with the same outcome codes, in the same order. -/
theorem single_request_compound_refines_task2 (s : Store) (request : Request) (now : Int)
    (hgroup : ∀ b ∈ (s request.Facility).Bookings, ∃ b0 : Booking,
      b.RequestsPtr = some [⟨request.Facility, b0⟩] ∧ toTask2 b0 = toTask2 b)
    (hprio : ∀ b1 ∈ request.Booking :: (s request.Facility).Bookings,
      ∀ b2 ∈ request.Booking :: (s request.Facility).Bookings,
      b1.User.Id = b2.User.Id → b1.User.Priority = b2.User.Priority) :
    ∃ resp, evaluations s [request] (fun _ => now) = [some resp] ∧
      ((Server s [resp]).1 request.Facility).Bookings.map toTask2
        = (Task2.CheckBooking (toTask2Request request) now
            (toTask2Facility (s request.Facility))).2.Bookings ∧
      (Server s [resp]).2.map (fun m => (toTask2 m.Booking, m.Action))
        = (Task2.CheckBooking (toTask2Request request) now
            (toTask2Facility (s request.Facility))).1.map (fun m => (m.Booking, m.Action)) := by
  have hprio2 : ∀ b1 ∈ (⟨request.Booking.User, request.Booking.FacilityID,
        request.Booking.StartTime, request.Booking.EndTime, some [request]⟩ : Booking)
          :: (s request.Facility).Bookings,
      ∀ b2 ∈ (⟨request.Booking.User, request.Booking.FacilityID,
        request.Booking.StartTime, request.Booking.EndTime, some [request]⟩ : Booking)
          :: (s request.Facility).Bookings,
      b1.User.Id = b2.User.Id → b1.User.Priority = b2.User.Priority := by
    intro b1 h1 b2 h2
    rw [List.mem_cons] at h1 h2
    rcases h1 with rfl | h1 <;> rcases h2 with rfl | h2
    · intro _
      rfl
    · exact hprio request.Booking (List.mem_cons_self _ _) b2 (List.mem_cons_of_mem _ h2)
    · exact hprio b1 (List.mem_cons_of_mem _ h1) request.Booking (List.mem_cons_self _ _)
    · exact hprio b1 (List.mem_cons_of_mem _ h1) b2 (List.mem_cons_of_mem _ h2)
  obtain ⟨resp, hresp, hb, hm⟩ := single_candidate_refines s request.Facility
    ⟨request.Booking.User, request.Booking.FacilityID, request.Booking.StartTime,
      request.Booking.EndTime, some [request]⟩ now hgroup hprio2
  refine ⟨resp, ?_, hb, hm⟩
  simp only [evaluations, List.enum, List.enumFrom, List.map_cons, List.map_nil]
  rw [hresp]

/-- Witness of C20: VIP user 3 asks for the room of capacity 1 that standard user 1 holds
through a compound of that booking alone; in both tasks user 1's booking is replaced by
user 3's, user 1 is told Cancelled and user 3 Accepted. -/
theorem single_request_compound_refines_task2_witness :
    ((Task2.CheckBooking (toTask2Request soloVipRequest) 0 (toTask2Facility (soloStore 0))).2.Bookings
        = [⟨⟨3, true⟩, "room", 10, 15⟩] ∧
      (Task2.CheckBooking (toTask2Request soloVipRequest) 0
          (toTask2Facility (soloStore 0))).1.map (fun m => (m.Booking.User.Id, m.Action))
        = [(1, 2), (3, 0)]) ∧
    ∃ resp, evaluations soloStore [soloVipRequest] (fun _ => 0) = [some resp] ∧
      ((Server soloStore [resp]).1 soloVipRequest.Facility).Bookings.map toTask2
        = (Task2.CheckBooking (toTask2Request soloVipRequest) 0
            (toTask2Facility (soloStore soloVipRequest.Facility))).2.Bookings ∧
      (Server soloStore [resp]).2.map (fun m => (toTask2 m.Booking, m.Action))
        = (Task2.CheckBooking (toTask2Request soloVipRequest) 0
            (toTask2Facility (soloStore soloVipRequest.Facility))).1.map
              (fun m => (m.Booking, m.Action)) :=
  ⟨⟨by decide, by decide⟩,
    single_request_compound_refines_task2 soloStore soloVipRequest 0
      (by
        intro b hb
        have hbs : (soloStore soloVipRequest.Facility).Bookings
            = [⟨⟨1, false⟩, "room", 10, 15,
                some [⟨0, ⟨⟨1, false⟩, "room", 10, 15, none⟩⟩]⟩] := rfl
        rw [hbs, List.mem_singleton] at hb
        subst hb
        exact ⟨_, rfl, rfl⟩)
      (by decide)⟩

end Task3

/-! ## Task 1: requests with equal or disjoint intervals -/

namespace Task1

/-- Number of bookings of a sequence that `CheckTimeslotOverlap` reports against the
candidate; the counting loop of task 1 reaches it when it runs to its end. -/
theorem task1_scan_some (c : Booking) (cap : Int) :
    ∀ (bs : List Booking) (n : Int),
      n + (bs.countP (fun b => CheckTimeslotOverlap c.StartTime c.EndTime
        b.StartTime b.EndTime) : Int) < cap →
      scan c cap bs n = some (n + (bs.countP (fun b => CheckTimeslotOverlap c.StartTime
        c.EndTime b.StartTime b.EndTime) : Int)) := by
  intro bs
  induction bs with
  | nil =>
    intro n _
    simp [scan]
  | cons b bs ih =>
    intro n h
    have hc : (0:Int) ≤ (bs.countP (fun b => CheckTimeslotOverlap c.StartTime c.EndTime
        b.StartTime b.EndTime) : Int) := Int.natCast_nonneg _
    simp only [List.countP_cons] at h ⊢
    by_cases hb : CheckTimeslotOverlap c.StartTime c.EndTime b.StartTime b.EndTime = true
    · simp only [hb, if_true, Nat.cast_add, Nat.cast_one] at h ⊢
      have h1 : ¬ (n + 1 ≥ cap) := by omega
      simp only [scan, hb, if_true, h1, if_false]
      rw [ih (n + 1) (by omega)]
      congr 1
      omega
    · simp only [hb, if_false, Nat.cast_add, Nat.cast_zero, add_zero, Bool.false_eq_true] at h ⊢
      have h1 : ¬ (n ≥ cap) := by omega
      simp only [scan, hb, if_false, h1, Bool.false_eq_true]
      exact ih n h

/-- The counting loop of task 1 returns from inside when the count reaches the capacity. -/
theorem task1_scan_none (c : Booking) (cap : Int) :
    ∀ (bs : List Booking) (n : Int), n < cap →
      cap ≤ n + (bs.countP (fun b => CheckTimeslotOverlap c.StartTime c.EndTime
        b.StartTime b.EndTime) : Int) →
      scan c cap bs n = none := by
  intro bs
  induction bs with
  | nil =>
    intro n h1 h2
    simp at h2
    omega
  | cons b bs ih =>
    intro n hn h
    simp only [List.countP_cons] at h
    by_cases hb : CheckTimeslotOverlap c.StartTime c.EndTime b.StartTime b.EndTime = true
    · simp only [hb, if_true, Nat.cast_add, Nat.cast_one] at h
      by_cases h1 : n + 1 ≥ cap
      · simp only [scan, hb, if_true, h1]
      · simp only [scan, hb, if_true, h1, if_false]
        exact ih (n + 1) (by omega) (by omega)
    · simp only [hb, if_false, Nat.cast_add, Nat.cast_zero, add_zero, Bool.false_eq_true] at h
      have h1 : ¬ (n ≥ cap) := by omega
      simp only [scan, hb, if_false, h1, Bool.false_eq_true]
      exact ih n hn h

/-- Task 1 `CheckBooking` for a request with `now ≤ StartTime < EndTime` on a facility
with `Capacity ≥ 1`: accepted and appended when the overlap count is below the capacity,
otherwise rejected with "Capacity exceeded." and the facility unchanged. -/
theorem task1_CheckBooking_eq (request : Request) (now : Int) (facility : Facility)
    (hcap : 1 ≤ facility.Capacity) (hnow : now ≤ request.Booking.StartTime)
    (hlt : request.Booking.StartTime < request.Booking.EndTime) :
    CheckBooking request now facility =
      if ((facility.Bookings.countP (fun b => CheckTimeslotOverlap request.Booking.StartTime
          request.Booking.EndTime b.StartTime b.EndTime) : Nat) : Int) < facility.Capacity then
        ([⟨request.Booking, 0, "Facilities were booked."⟩],
          { facility with Bookings := facility.Bookings ++ [request.Booking] })
      else ([⟨request.Booking, 1, "Capacity exceeded."⟩], facility) := by
  have h1 : ¬ request.Booking.StartTime < now := by omega
  have h2 : ¬ request.Booking.StartTime ≥ request.Booking.EndTime := by omega
  by_cases hc : ((facility.Bookings.countP (fun b => CheckTimeslotOverlap
      request.Booking.StartTime request.Booking.EndTime b.StartTime b.EndTime) : Nat) : Int)
      < facility.Capacity
  · have hs := task1_scan_some request.Booking facility.Capacity facility.Bookings 0 (by omega)
    simp only [zero_add] at hs
    simp only [CheckBooking, h1, h2, if_false, hs, hc, if_true]
  · have hs := task1_scan_none request.Booking facility.Capacity facility.Bookings 0 (by omega)
      (by omega)
    simp only [CheckBooking, h1, h2, if_false, hs, hc]

end Task1

namespace Task1

/-- Bookings with the same interval as a third one are counted together. -/
theorem sameInterval_congr (a b x : Booking) (h : sameInterval a b = true) :
    sameInterval x a = sameInterval x b := by
  simp only [sameInterval, Bool.and_eq_true, decide_eq_true_eq] at h
  simp only [sameInterval, h.1, h.2]

/-- Against a proper interval, a booking with the same interval is reported by
`CheckTimeslotOverlap` and a booking with a disjoint interval is not. -/
theorem CheckTimeslotOverlap_eq_sameInterval (c b : Booking) (hc : c.StartTime < c.EndTime)
    (h : (b.StartTime = c.StartTime ∧ b.EndTime = c.EndTime) ∨
      (b.EndTime ≤ c.StartTime ∨ c.EndTime ≤ b.StartTime)) :
    CheckTimeslotOverlap c.StartTime c.EndTime b.StartTime b.EndTime = sameInterval b c := by
  rcases h with ⟨h1, h2⟩ | h
  · have e1 : c.StartTime ≥ b.StartTime := by omega
    have e2 : c.StartTime < b.EndTime := by omega
    simp [CheckTimeslotOverlap, sameInterval, h1, h2, e1, e2, hc]
  · have hno : CheckTimeslotOverlap c.StartTime c.EndTime b.StartTime b.EndTime = false := by
      cases ho : CheckTimeslotOverlap c.StartTime c.EndTime b.StartTime b.EndTime with
      | false => rfl
      | true =>
        have := CheckTimeslotOverlap_true_imp _ _ _ _ hc ho
        omega
    have hns : sameInterval b c = false := by
      cases hs : sameInterval b c with
      | false => rfl
      | true =>
        simp only [sameInterval, Bool.and_eq_true, decide_eq_true_eq] at hs
        omega
    rw [hno, hns]

/-- The loop of one facility, started on a facility that holds, for every interval, as
many bookings as were requested before, capped by the capacity: the request at position
`i` is answered by the number of earlier requests with its interval. -/
theorem FacilityServer_general :
    ∀ (rs earlier : List (Request × Int)) (facility : Facility),
      1 ≤ facility.Capacity →
      (∀ p ∈ earlier ++ rs, p.2 ≤ p.1.Booking.StartTime ∧
        p.1.Booking.StartTime < p.1.Booking.EndTime) →
      (∀ p ∈ earlier ++ rs, ∀ q ∈ earlier ++ rs,
        (p.1.Booking.StartTime = q.1.Booking.StartTime ∧
          p.1.Booking.EndTime = q.1.Booking.EndTime) ∨
        (p.1.Booking.EndTime ≤ q.1.Booking.StartTime ∨
          q.1.Booking.EndTime ≤ p.1.Booking.StartTime)) →
      (∀ b ∈ facility.Bookings, ∃ p ∈ earlier, p.1.Booking = b) →
      (∀ r : Booking, ((facility.Bookings.countP (fun b => sameInterval b r) : Nat) : Int)
        = min facility.Capacity
            ((earlier.countP (fun p => sameInterval p.1.Booking r) : Nat) : Int)) →
      ∀ (i : Nat) (r : Request) (now : Int), rs[i]? = some (r, now) →
        (FacilityServer facility rs).1[i]? = some
          (if (((earlier ++ rs.take i).countP
              (fun p => sameInterval p.1.Booking r.Booking) : Nat) : Int)
              < facility.Capacity
            then [⟨r.Booking, 0, "Facilities were booked."⟩]
            else [⟨r.Booking, 1, "Capacity exceeded."⟩]) := by
  intro rs
  induction rs with
  | nil =>
    intro earlier facility _ _ _ _ _ i r now hi
    simp at hi
  | cons p0 rs ih =>
    obtain ⟨r0, now0⟩ := p0
    intro earlier facility hcap hvalid hcompat hfrom hcount i r now hi
    have hp0 : (r0, now0) ∈ earlier ++ (r0, now0) :: rs := by simp
    have hv0 := hvalid _ hp0
    simp only at hv0
    have hoverlap : facility.Bookings.countP (fun b => CheckTimeslotOverlap
        r0.Booking.StartTime r0.Booking.EndTime b.StartTime b.EndTime)
        = facility.Bookings.countP (fun b => sameInterval b r0.Booking) := by
      apply List.countP_congr
      intro b hb
      obtain ⟨p, hp, hpb⟩ := hfrom b hb
      have hc := hcompat p (List.mem_append_left _ hp) _ hp0
      simp only [hpb] at hc
      rw [CheckTimeslotOverlap_eq_sameInterval r0.Booking b hv0.2 hc]
    have hcb := task1_CheckBooking_eq r0 now0 facility hcap hv0.1 hv0.2
    rw [hoverlap, hcount r0.Booking] at hcb
    have hk : (0:Int) ≤ ((earlier.countP (fun p => sameInterval p.1.Booking r0.Booking)
        : Nat) : Int) := Int.natCast_nonneg _
    cases i with
    | zero =>
      simp only [List.getElem?_cons_zero, Option.some.injEq, Prod.mk.injEq] at hi
      obtain ⟨rfl, rfl⟩ := hi
      simp only [FacilityServer, List.getElem?_cons_zero, List.take_zero, List.append_nil,
        hcb]
      by_cases hlt : ((earlier.countP (fun p => sameInterval p.1.Booking r0.Booking)
          : Nat) : Int) < facility.Capacity
      · have : min facility.Capacity ((earlier.countP (fun p =>
            sameInterval p.1.Booking r0.Booking) : Nat) : Int) < facility.Capacity := by
          omega
        simp [hlt, this]
      · have : ¬ min facility.Capacity ((earlier.countP (fun p =>
            sameInterval p.1.Booking r0.Booking) : Nat) : Int) < facility.Capacity := by
          omega
        simp [hlt, this]
    | succ j =>
      simp only [List.getElem?_cons_succ] at hi
      have hassoc : earlier ++ (r0, now0) :: rs = (earlier ++ [(r0, now0)]) ++ rs := by simp
      have hstep : (FacilityServer facility ((r0, now0) :: rs)).1[j + 1]?
          = (FacilityServer (CheckBooking r0 now0 facility).2 rs).1[j]? := by
        simp [FacilityServer]
      have hcap2 : (CheckBooking r0 now0 facility).2.Capacity = facility.Capacity := by
        rw [hcb]
        split <;> rfl
      rw [hstep]
      have hres := ih (earlier ++ [(r0, now0)]) (CheckBooking r0 now0 facility).2
        (by rw [hcap2]; exact hcap)
        (by rw [← hassoc]; exact hvalid)
        (by rw [← hassoc]; exact hcompat)
        (by
          intro b hb
          rw [hcb] at hb
          split at hb
          · simp only [List.mem_append, List.mem_singleton] at hb
            rcases hb with hb | hb
            · obtain ⟨p, hp, hpb⟩ := hfrom b hb
              exact ⟨p, List.mem_append_left _ hp, hpb⟩
            · exact ⟨(r0, now0), by simp, hb.symm⟩
          · obtain ⟨p, hp, hpb⟩ := hfrom b hb
            exact ⟨p, List.mem_append_left _ hp, hpb⟩)
        (by
          intro x
          have hx := hcount x
          have hkx : (0:Int) ≤ ((earlier.countP (fun p => sameInterval p.1.Booking x)
              : Nat) : Int) := Int.natCast_nonneg _
          rw [hcap2, hcb]
          simp only [List.countP_append, List.countP_cons, List.countP_nil, zero_add,
            Nat.cast_add]
          by_cases hsame : sameInterval r0.Booking x = true
          · have e1 : (fun b => sameInterval b r0.Booking) = (fun b => sameInterval b x) := by
              funext b
              exact sameInterval_congr _ _ b hsame
            have e2 : (fun p : Request × Int => sameInterval p.1.Booking r0.Booking)
                = (fun p => sameInterval p.1.Booking x) := by
              funext p
              exact sameInterval_congr _ _ p.1.Booking hsame
            rw [e2] at hk
            simp only [e2]
            split
            · rename_i hlt
              simp only [List.countP_append, List.countP_cons, List.countP_nil, zero_add,
                Nat.cast_add, hsame, if_true, Nat.cast_one]
              omega
            · rename_i hlt
              simp only [hsame, if_true, Nat.cast_one]
              omega
          · split
            · simp only [List.countP_append, List.countP_cons, List.countP_nil, zero_add,
                Nat.cast_add, hsame, if_false, Nat.cast_zero, add_zero, Bool.false_eq_true]
              exact hx
            · simp only [hsame, if_false, Nat.cast_zero, add_zero, Bool.false_eq_true]
              exact hx)
        j r now hi
      rw [hres, hcap2]
      simp only [List.take_succ_cons, List.append_assoc, List.singleton_append]

end Task1

namespace Task1

/-- C19: one facility of task 1 with capacity `c ≥ 1` and no bookings serves any sequence
of requests, each with `now ≤ StartTime < EndTime`, whose intervals are pairwise equal or
disjoint.  The request at position `i` is accepted ("Facilities were booked.") when fewer
than `c` earlier requests carry its interval, and otherwise rejected with "Capacity
exceeded.": of the requests with one interval exactly the first `c` (all of them when
they are fewer) are accepted. -/
theorem task1_first_requests_accepted (id : String) (c : Int) (rs : List (Request × Int))
    (hc : 1 ≤ c)
    (hvalid : ∀ p ∈ rs, p.2 ≤ p.1.Booking.StartTime ∧
      p.1.Booking.StartTime < p.1.Booking.EndTime)
    (hcompat : ∀ p ∈ rs, ∀ q ∈ rs,
      (p.1.Booking.StartTime = q.1.Booking.StartTime ∧
        p.1.Booking.EndTime = q.1.Booking.EndTime) ∨
      (p.1.Booking.EndTime ≤ q.1.Booking.StartTime ∨
        q.1.Booking.EndTime ≤ p.1.Booking.StartTime))
    (i : Nat) (r : Request) (now : Int) (hi : rs[i]? = some (r, now)) :
    (FacilityServer ⟨id, [], c⟩ rs).1[i]? = some
      (if (((rs.take i).countP (fun p => sameInterval p.1.Booking r.Booking) : Nat) : Int) < c
        then [⟨r.Booking, 0, "Facilities were booked."⟩]
        else [⟨r.Booking, 1, "Capacity exceeded."⟩]) := by
  have h := FacilityServer_general rs [] ⟨id, [], c⟩ hc (by simpa using hvalid)
    (by simpa using hcompat) (by simp) (by
      intro r
      simp only [List.countP_nil, Nat.cast_zero]
      omega) i r now hi
  simpa using h

/-- Witness of C19: the projector of the test with capacity 2.  User 3 sends the third
request for [10,15) and is rejected; user 5 sends the second request for [15,20) and is
accepted; four of the five requests are accepted. -/
theorem task1_first_requests_accepted_witness :
    ((1 : Int) ≤ 2 ∧
      (∀ p ∈ projectorInbox, p.2 ≤ p.1.Booking.StartTime ∧
        p.1.Booking.StartTime < p.1.Booking.EndTime) ∧
      (∀ p ∈ projectorInbox, ∀ q ∈ projectorInbox,
        (p.1.Booking.StartTime = q.1.Booking.StartTime ∧
          p.1.Booking.EndTime = q.1.Booking.EndTime) ∨
        (p.1.Booking.EndTime ≤ q.1.Booking.StartTime ∨
          q.1.Booking.EndTime ≤ p.1.Booking.StartTime))) ∧
    (FacilityServer ⟨"projector", [], 2⟩ projectorInbox).1[3]?
      = some [⟨⟨⟨3⟩, "projector", 10, 15⟩, 1, "Capacity exceeded."⟩] ∧
    (FacilityServer ⟨"projector", [], 2⟩ projectorInbox).1[4]?
      = some [⟨⟨⟨5⟩, "projector", 15, 20⟩, 0, "Facilities were booked."⟩] ∧
    (FacilityServer ⟨"projector", [], 2⟩ projectorInbox).1.map
      (fun ms => ms.map (fun m => m.Action)) = [[0], [0], [0], [1], [0]] :=
  ⟨⟨by decide, by decide, by decide⟩,
    task1_first_requests_accepted "projector" 2 projectorInbox (by decide) (by decide)
      (by decide) 3 ⟨"projector", ⟨⟨3⟩, "projector", 10, 15⟩⟩ 0 rfl,
    task1_first_requests_accepted "projector" 2 projectorInbox (by decide) (by decide)
      (by decide) 4 ⟨"projector", ⟨⟨5⟩, "projector", 15, 20⟩⟩ 0 rfl,
    by decide⟩

end Task1

/-! ## Task 2: requests that all carry one interval -/

namespace Task2

/-- One round of the counting loop of task 2 on a booking that overlaps the candidate. -/
theorem task2_scan_cons_hit (c b : Booking) (cap : Int) (rest : List Booking) (n v : Int)
    (hb : CheckTimeslotOverlap c.StartTime c.EndTime b.StartTime b.EndTime = true) :
    scan c cap (b :: rest) n v =
      if (decide (n + 1 ≥ cap) && !c.User.Priority ||
          decide ((if b.User.Priority = true then v + 1 else v) ≥ cap)) = true then none
      else scan c cap rest (n + 1) (if b.User.Priority = true then v + 1 else v) := by
  simp [scan, hb]

/-- The VIP count of a sequence, one booking at a time. -/
theorem vipCount_cons (b : Booking) (rest : List Booking) :
    (vipCount (b :: rest) : Int)
      = (vipCount rest : Int) + (if b.User.Priority = true then 1 else 0) := by
  simp only [vipCount, List.countP_cons]
  split <;> simp

/-- Over bookings that all overlap the candidate, the counting loop of task 2 runs to its
end when neither counter reaches the capacity. -/
theorem task2_scan_some (c : Booking) (cap : Int) :
    ∀ (bs : List Booking) (n v : Int),
      (∀ b ∈ bs, CheckTimeslotOverlap c.StartTime c.EndTime b.StartTime b.EndTime = true) →
      (c.User.Priority = false → n + (bs.length : Int) < cap) →
      v + (vipCount bs : Int) < cap →
      scan c cap bs n v = some (n + (bs.length : Int), v + (vipCount bs : Int)) := by
  intro bs
  induction bs with
  | nil =>
    intro n v _ _ _
    simp [scan, vipCount]
  | cons b rest ih =>
    intro n v hall hn hv
    have hb := hall b (List.mem_cons_self _ _)
    have hrest : ∀ x ∈ rest, CheckTimeslotOverlap c.StartTime c.EndTime x.StartTime x.EndTime
        = true := fun x hx => hall x (List.mem_cons_of_mem _ hx)
    have hvc : (0 : Int) ≤ (vipCount rest : Int) := Int.natCast_nonneg _
    have hlen : (0 : Int) ≤ (rest.length : Int) := Int.natCast_nonneg _
    rw [vipCount_cons] at hv ⊢
    simp only [List.length_cons, Nat.cast_add, Nat.cast_one] at hn ⊢
    rw [task2_scan_cons_hit c b cap rest n v hb]
    by_cases hp : b.User.Priority = true
    · simp only [hp, if_true] at hv ⊢
      have hcond : ¬ ((decide (n + 1 ≥ cap) && !c.User.Priority ||
          decide (v + 1 ≥ cap)) = true) := by
        simp only [Bool.or_eq_true, Bool.and_eq_true, decide_eq_true_eq, Bool.not_eq_true',
          not_or, not_and, not_le]
        constructor
        · intro h1 h2
          have := hn h2
          omega
        · omega
      rw [if_neg hcond, ih _ _ hrest (fun h => by have := hn h; omega) (by omega)]
      congr 2 <;> omega
    · simp only [hp, if_false, add_zero, Bool.false_eq_true] at hv ⊢
      have hcond : ¬ ((decide (n + 1 ≥ cap) && !c.User.Priority ||
          decide (v ≥ cap)) = true) := by
        simp only [Bool.or_eq_true, Bool.and_eq_true, decide_eq_true_eq, Bool.not_eq_true',
          not_or, not_and, not_le]
        constructor
        · intro h1 h2
          have := hn h2
          omega
        · omega
      rw [if_neg hcond, ih _ _ hrest (fun h => by have := hn h; omega) (by omega)]
      congr 2
      omega

/-- For a standard candidate the counting loop returns from inside when the bookings,
all overlapping, are at least as many as the capacity allows. -/
theorem task2_scan_none_standard (c : Booking) (cap : Int) (hstd : c.User.Priority = false) :
    ∀ (bs : List Booking) (n v : Int),
      (∀ b ∈ bs, CheckTimeslotOverlap c.StartTime c.EndTime b.StartTime b.EndTime = true) →
      0 < bs.length → cap ≤ n + (bs.length : Int) → scan c cap bs n v = none := by
  intro bs
  induction bs with
  | nil =>
    intro n v _ h
    simp at h
  | cons b rest ih =>
    intro n v hall _ hn
    have hb := hall b (List.mem_cons_self _ _)
    have hrest : ∀ x ∈ rest, CheckTimeslotOverlap c.StartTime c.EndTime x.StartTime x.EndTime
        = true := fun x hx => hall x (List.mem_cons_of_mem _ hx)
    simp only [List.length_cons, Nat.cast_add, Nat.cast_one] at hn
    rw [task2_scan_cons_hit c b cap rest n v hb]
    by_cases hcond : (decide (n + 1 ≥ cap) && !c.User.Priority ||
        decide ((if b.User.Priority = true then v + 1 else v) ≥ cap)) = true
    · rw [if_pos hcond]
    · rw [if_neg hcond]
      simp only [hstd, Bool.not_false, Bool.and_true, Bool.or_eq_true, decide_eq_true_eq,
        not_or, not_le] at hcond
      exact ih _ _ hrest (by omega) (by omega)

/-- The counting loop returns from inside when the VIP-owned bookings, all overlapping,
reach the capacity. -/
theorem task2_scan_none_vip (c : Booking) (cap : Int) :
    ∀ (bs : List Booking) (n v : Int),
      (∀ b ∈ bs, CheckTimeslotOverlap c.StartTime c.EndTime b.StartTime b.EndTime = true) →
      v < cap → cap ≤ v + (vipCount bs : Int) → scan c cap bs n v = none := by
  intro bs
  induction bs with
  | nil =>
    intro n v _ h1 h2
    simp [vipCount] at h2
    omega
  | cons b rest ih =>
    intro n v hall hv hge
    have hb := hall b (List.mem_cons_self _ _)
    have hrest : ∀ x ∈ rest, CheckTimeslotOverlap c.StartTime c.EndTime x.StartTime x.EndTime
        = true := fun x hx => hall x (List.mem_cons_of_mem _ hx)
    rw [vipCount_cons] at hge
    rw [task2_scan_cons_hit c b cap rest n v hb]
    by_cases hcond : (decide (n + 1 ≥ cap) && !c.User.Priority ||
        decide ((if b.User.Priority = true then v + 1 else v) ≥ cap)) = true
    · rw [if_pos hcond]
    · rw [if_neg hcond]
      simp only [Bool.or_eq_true, decide_eq_true_eq, not_or, not_le] at hcond
      by_cases hp : b.User.Priority = true
      · simp only [hp, if_true] at hge hcond ⊢
        exact ih _ _ hrest hcond.2 (by omega)
      · simp only [hp, if_false, add_zero, Bool.false_eq_true] at hge hcond ⊢
        exact ih _ _ hrest hcond.2 (by omega)

end Task2

namespace Task2

/-- The second loop of task 2 finds a victim unless every booking passes for VIP-owned
or fails the overlap test. -/
theorem task2_findVictim_none (c : Booking) :
    ∀ (bs : List Booking) (k : Nat), findVictim c bs k = none →
      (∀ b ∈ bs, CheckTimeslotOverlap c.StartTime c.EndTime b.StartTime b.EndTime = true) →
      vipCount bs = bs.length := by
  intro bs
  induction bs with
  | nil =>
    intro _ _ _
    rfl
  | cons b rest ih =>
    intro k h hall
    have hb := hall b (List.mem_cons_self _ _)
    simp only [findVictim] at h
    by_cases he : evictable c b = true
    · rw [if_pos he] at h
      exact absurd h (by simp)
    · rw [if_neg he] at h
      have hrest := ih (k + 1) h (fun x hx => hall x (List.mem_cons_of_mem _ hx))
      simp only [evictable, hb, Bool.true_and, Bool.not_eq_true', Bool.not_eq_false] at he
      simp only [vipCount, List.countP_cons, he, if_true, List.length_cons] at hrest ⊢
      omega

/-- Erasing a booking that is not VIP-owned keeps the VIP count. -/
theorem vipCount_eraseIdx :
    ∀ (bs : List Booking) (i : Nat) (v : Booking), bs[i]? = some v → v.User.Priority = false →
      vipCount (bs.eraseIdx i) = vipCount bs := by
  intro bs
  induction bs with
  | nil =>
    intro i v h
    simp at h
  | cons b rest ih =>
    intro i v h hv
    cases i with
    | zero =>
      simp only [List.getElem?_cons_zero, Option.some.injEq] at h
      subst h
      simp [vipCount, hv]
    | succ j =>
      simp only [List.getElem?_cons_succ] at h
      have := ih j v h hv
      simp only [vipCount] at this
      simp only [List.eraseIdx_cons_succ, vipCount, List.countP_cons, this]

/-- One call of task 2 `CheckBooking` on a facility of capacity at least 1 that holds at
most `Capacity` bookings, all with the interval of the request, which is proper and not
in the past: the request is appended while there is room; on a full facility it is
rejected when it is standard or all bookings are VIP-owned; otherwise it replaces the
first booking that is not VIP-owned. -/
theorem task2_step (request : Request) (now : Int) (facility : Facility)
    (hcap : 1 ≤ facility.Capacity) (hnow : now ≤ request.Booking.StartTime)
    (hlt : request.Booking.StartTime < request.Booking.EndTime)
    (huni : ∀ b ∈ facility.Bookings, b.StartTime = request.Booking.StartTime ∧
      b.EndTime = request.Booking.EndTime)
    (hlen : (facility.Bookings.length : Int) ≤ facility.Capacity) :
    ((facility.Bookings.length : Int) < facility.Capacity ∧
      CheckBooking request now facility =
        ([⟨request.Booking, 0, "Facilities were booked."⟩],
          { facility with Bookings := facility.Bookings ++ [request.Booking] })) ∨
    ((facility.Bookings.length : Int) = facility.Capacity ∧
      (request.Booking.User.Priority = false ∨
        (vipCount facility.Bookings : Int) = facility.Capacity) ∧
      CheckBooking request now facility =
        ([⟨request.Booking, 1, "Capacity exceeded."⟩], facility)) ∨
    ((facility.Bookings.length : Int) = facility.Capacity ∧
      request.Booking.User.Priority = true ∧
      (vipCount facility.Bookings : Int) < facility.Capacity ∧
      ∃ (i : Nat) (v : Booking), facility.Bookings[i]? = some v ∧ v.User.Priority = false ∧
        CheckBooking request now facility =
          ([⟨v, 2, "A VIP-User has overwritten your booking."⟩,
            ⟨request.Booking, 0,
              "Facilities were booked, you have overwritten a non-VIP booking."⟩],
            { facility with
              Bookings := facility.Bookings.eraseIdx i ++ [request.Booking] })) := by
  have h1 : ¬ request.Booking.StartTime < now := by omega
  have h2 : ¬ request.Booking.StartTime ≥ request.Booking.EndTime := by omega
  have hall : ∀ b ∈ facility.Bookings, CheckTimeslotOverlap request.Booking.StartTime
      request.Booking.EndTime b.StartTime b.EndTime = true := by
    intro b hb
    obtain ⟨e1, e2⟩ := huni b hb
    simp [CheckTimeslotOverlap, e1, e2, hlt]
  have hvle : vipCount facility.Bookings ≤ facility.Bookings.length := by
    simp only [vipCount]
    exact List.countP_le_length _
  by_cases hroom : (facility.Bookings.length : Int) < facility.Capacity
  · left
    refine ⟨hroom, ?_⟩
    have hs := task2_scan_some request.Booking facility.Capacity facility.Bookings 0 0 hall
      (fun _ => by omega) (by omega)
    simp only [zero_add] at hs
    simp only [CheckBooking, h1, h2, if_false, hs, hroom, if_true]
  · have hfull : (facility.Bookings.length : Int) = facility.Capacity := by omega
    right
    by_cases hrej : request.Booking.User.Priority = false ∨
        (vipCount facility.Bookings : Int) = facility.Capacity
    · left
      refine ⟨hfull, hrej, ?_⟩
      have hs : scan request.Booking facility.Capacity facility.Bookings 0 0 = none := by
        rcases hrej with hstd | hv
        · exact task2_scan_none_standard _ _ hstd _ _ _ hall (by omega) (by omega)
        · exact task2_scan_none_vip _ _ _ _ _ hall (by omega) (by omega)
      simp only [CheckBooking, h1, h2, if_false, hs]
    · right
      simp only [not_or, Bool.not_eq_false] at hrej
      obtain ⟨hvip, hvne⟩ := hrej
      have hvlt : (vipCount facility.Bookings : Int) < facility.Capacity := by omega
      refine ⟨hfull, hvip, hvlt, ?_⟩
      have hs := task2_scan_some request.Booking facility.Capacity facility.Bookings 0 0 hall
        (fun h => by rw [hvip] at h; exact absurd h (by simp)) (by omega)
      simp only [zero_add] at hs
      cases hfv : findVictim request.Booking facility.Bookings 0 with
      | none =>
        have := task2_findVictim_none _ _ _ hfv hall
        omega
      | some p =>
        obtain ⟨i, v⟩ := p
        obtain ⟨d, hd, hi, he, _⟩ := findVictimIdx_some _ _ _ _ _ hfv
        have hid : i = d := by omega
        subst hid
        simp only [evictable, Bool.and_eq_true, Bool.not_eq_true'] at he
        refine ⟨i, v, hi, he.2, ?_⟩
        simp only [CheckBooking, h1, h2, if_false, hs, hroom, hfv]

end Task2

namespace Task2

/-- The loop of one facility of task 2 over requests that all carry the interval
`[s,e)`, started on a facility of capacity `c` with at most `c` bookings of that
interval: the bookings fill up to `c`, the VIP-owned ones grow with every VIP request
up to `c`, and the VIP requests rejected with "Capacity exceeded." are those that did
not get in. -/
theorem task2_run_counts (c s e : Int) (hc : 1 ≤ c) (hse : s < e) :
    ∀ (rs : List (Request × Int)) (F : Facility),
      F.Capacity = c → (F.Bookings.length : Int) ≤ c →
      (∀ b ∈ F.Bookings, b.StartTime = s ∧ b.EndTime = e) →
      (∀ p ∈ rs, p.2 ≤ s ∧ p.1.Booking.StartTime = s ∧ p.1.Booking.EndTime = e) →
      (FacilityServer F rs).1.length = rs.length ∧
      (FacilityServer F rs).2.Capacity = c ∧
      (∀ b ∈ (FacilityServer F rs).2.Bookings, b.StartTime = s ∧ b.EndTime = e) ∧
      ((FacilityServer F rs).2.Bookings.length : Int)
        = min c ((F.Bookings.length : Int) + (rs.length : Int)) ∧
      (vipCount (FacilityServer F rs).2.Bookings : Int)
        = min c ((vipCount F.Bookings : Int)
            + (rs.countP (fun p => p.1.Booking.User.Priority) : Int)) ∧
      (((rs.zip (FacilityServer F rs).1).countP (fun q => q.1.1.Booking.User.Priority &&
          decide (q.2 = [⟨q.1.1.Booking, 1, "Capacity exceeded."⟩])) : Nat) : Int)
        = (vipCount F.Bookings : Int) + (rs.countP (fun p => p.1.Booking.User.Priority) : Int)
          - (vipCount (FacilityServer F rs).2.Bookings : Int) := by
  intro rs
  induction rs with
  | nil =>
    intro F hF hlen huni _
    have hv : vipCount F.Bookings ≤ F.Bookings.length := List.countP_le_length _
    refine ⟨rfl, hF, huni, ?_, ?_, ?_⟩
    · simp only [FacilityServer, List.length_nil, Nat.cast_zero, add_zero]
      omega
    · simp only [FacilityServer, List.countP_nil, Nat.cast_zero, add_zero]
      omega
    · simp [FacilityServer]
  | cons p rs ih =>
    obtain ⟨r, now⟩ := p
    intro F hF hlen huni hreq
    have hr := hreq (r, now) (List.mem_cons_self _ _)
    simp only at hr
    obtain ⟨hnow, hrs, hre⟩ := hr
    have hrest : ∀ p ∈ rs, p.2 ≤ s ∧ p.1.Booking.StartTime = s ∧ p.1.Booking.EndTime = e :=
      fun p hp => hreq p (List.mem_cons_of_mem _ hp)
    have hv : vipCount F.Bookings ≤ F.Bookings.length := List.countP_le_length _
    have hfs : FacilityServer F ((r, now) :: rs)
        = ((CheckBooking r now F).1 :: (FacilityServer (CheckBooking r now F).2 rs).1,
            (FacilityServer (CheckBooking r now F).2 rs).2) := rfl
    have hstep := task2_step r now F (by omega) (by omega) (by omega)
      (fun b hb => by have := huni b hb; omega) (by omega)
    rw [hfs]
    simp only [List.length_cons, List.zip_cons_cons, List.countP_cons, Nat.cast_add,
      Nat.cast_one]
    rcases hstep with ⟨hroom, hout⟩ | ⟨hfull, hwhy, hout⟩ | ⟨hfull, hvip, hvlt, i, v, hi, hv0, hout⟩
    · rw [hout]
      have hF1 : ((F.Bookings ++ [r.Booking]).length : Int) ≤ c := by
        simp only [List.length_append, List.length_singleton, Nat.cast_add, Nat.cast_one]
        omega
      obtain ⟨g1, g2, g3, g4, g5, g6⟩ := ih
        { F with Bookings := F.Bookings ++ [r.Booking] } hF hF1
        (by
          intro b hb
          simp only [List.mem_append, List.mem_singleton] at hb
          rcases hb with hb | hb
          · exact huni b hb
          · subst hb
            exact ⟨hrs, hre⟩) hrest
      have hvc : (vipCount (F.Bookings ++ [r.Booking]) : Int)
          = (vipCount F.Bookings : Int) + (if r.Booking.User.Priority = true then 1 else 0) := by
        simp only [vipCount, List.countP_append, List.countP_cons, List.countP_nil, zero_add,
          Nat.cast_add]
        split <;> simp
      simp only [List.length_append, List.length_singleton, Nat.cast_add, Nat.cast_one] at g4
      rw [hvc] at g5 g6
      refine ⟨by rw [g1], g2, g3, by rw [g4]; congr 1; omega, ?_, ?_⟩
      · rw [g5]
        by_cases hp : r.Booking.User.Priority = true
        · simp only [hp, if_true, Nat.cast_one]
          congr 1
          omega
        · simp only [hp, if_false, Nat.cast_zero, add_zero, Bool.false_eq_true]
      · rw [g6]
        by_cases hp : r.Booking.User.Priority = true
        · simp [hp]
          omega
        · simp [hp]
    · rw [hout]
      obtain ⟨g1, g2, g3, g4, g5, g6⟩ := ih F hF hlen huni hrest
      refine ⟨by rw [g1], g2, g3, by rw [g4]; omega, ?_, ?_⟩
      · rw [g5]
        by_cases hp : r.Booking.User.Priority = true
        · simp only [hp, if_true, Nat.cast_one]
          rcases hwhy with hstd | hvfull
          · rw [hp] at hstd
            exact absurd hstd (by simp)
          · omega
        · simp only [hp, if_false, Nat.cast_zero, add_zero, Bool.false_eq_true]
      · rw [g6]
        by_cases hp : r.Booking.User.Priority = true
        · simp [hp]
          omega
        · simp [hp]
    · rw [hout]
      have hilt : i < F.Bookings.length := by
        rw [List.getElem?_eq_some_iff] at hi
        exact hi.1
      have hlenE : (F.Bookings.eraseIdx i ++ [r.Booking]).length = F.Bookings.length := by
        simp only [List.length_append, List.length_singleton,
          List.length_eraseIdx_of_lt hilt]
        omega
      have hvcE : vipCount (F.Bookings.eraseIdx i ++ [r.Booking]) = vipCount F.Bookings + 1 := by
        have := vipCount_eraseIdx F.Bookings i v hi hv0
        simp only [vipCount] at this
        simp [vipCount, List.countP_append, this, hvip]
      obtain ⟨g1, g2, g3, g4, g5, g6⟩ := ih
        { F with Bookings := F.Bookings.eraseIdx i ++ [r.Booking] } hF
        (by simp only [hlenE]; exact hlen)
        (by
          intro b hb
          simp only [List.mem_append, List.mem_singleton] at hb
          rcases hb with hb | hb
          · exact huni b (List.mem_of_mem_eraseIdx hb)
          · subst hb
            exact ⟨hrs, hre⟩) hrest
      simp only [hlenE, hvcE, Nat.cast_add, Nat.cast_one] at g4 g5 g6
      refine ⟨by rw [g1], g2, g3, by rw [g4]; omega, ?_, ?_⟩
      · rw [g5]
        simp only [hvip, if_true, Nat.cast_one]
        congr 1
        omega
      · rw [g6]
        simp [hvip]
        omega

end Task2

namespace Task2

/-- In such a run, a booking that the facility holds at the start is still held at the
end or is named in a Cancelled message sent during the run. -/
theorem task2_held_or_cancelled (c s e : Int) (hc : 1 ≤ c) (hse : s < e) :
    ∀ (rs : List (Request × Int)) (F : Facility),
      F.Capacity = c → (F.Bookings.length : Int) ≤ c →
      (∀ b ∈ F.Bookings, b.StartTime = s ∧ b.EndTime = e) →
      (∀ p ∈ rs, p.2 ≤ s ∧ p.1.Booking.StartTime = s ∧ p.1.Booking.EndTime = e) →
      ∀ b ∈ F.Bookings, b ∈ (FacilityServer F rs).2.Bookings ∨
        ∃ (j : Nat) (ms : List BookingMessage), (FacilityServer F rs).1[j]? = some ms ∧
          (⟨b, 2, "A VIP-User has overwritten your booking."⟩ : BookingMessage) ∈ ms := by
  intro rs
  induction rs with
  | nil =>
    intro F _ _ _ _ b hb
    exact Or.inl hb
  | cons p rs ih =>
    obtain ⟨r, now⟩ := p
    intro F hF hlen huni hreq b hb
    have hr := hreq (r, now) (List.mem_cons_self _ _)
    simp only at hr
    obtain ⟨hnow, hrs, hre⟩ := hr
    have hrest : ∀ p ∈ rs, p.2 ≤ s ∧ p.1.Booking.StartTime = s ∧ p.1.Booking.EndTime = e :=
      fun p hp => hreq p (List.mem_cons_of_mem _ hp)
    have hfs : FacilityServer F ((r, now) :: rs)
        = ((CheckBooking r now F).1 :: (FacilityServer (CheckBooking r now F).2 rs).1,
            (FacilityServer (CheckBooking r now F).2 rs).2) := rfl
    have hstep := task2_step r now F (by omega) (by omega) (by omega)
      (fun b hb => by have := huni b hb; omega) (by omega)
    rw [hfs]
    rcases hstep with ⟨hroom, hout⟩ | ⟨hfull, hwhy, hout⟩ | ⟨hfull, hvip, hvlt, i, v, hi, hv0, hout⟩
    · rw [hout]
      have hF1 : ((F.Bookings ++ [r.Booking]).length : Int) ≤ c := by
        simp only [List.length_append, List.length_singleton, Nat.cast_add, Nat.cast_one]
        omega
      rcases ih { F with Bookings := F.Bookings ++ [r.Booking] } hF hF1
        (by
          intro x hx
          simp only [List.mem_append, List.mem_singleton] at hx
          rcases hx with hx | hx
          · exact huni x hx
          · subst hx
            exact ⟨hrs, hre⟩) hrest b (List.mem_append_left _ hb) with h | ⟨j, ms, hj, hm⟩
      · exact Or.inl h
      · exact Or.inr ⟨j + 1, ms, by simpa using hj, hm⟩
    · rw [hout]
      rcases ih F hF hlen huni hrest b hb with h | ⟨j, ms, hj, hm⟩
      · exact Or.inl h
      · exact Or.inr ⟨j + 1, ms, by simpa using hj, hm⟩
    · rw [hout]
      by_cases hbv : b = v
      · subst hbv
        exact Or.inr ⟨0, [⟨b, 2, "A VIP-User has overwritten your booking."⟩,
          ⟨r.Booking, 0, "Facilities were booked, you have overwritten a non-VIP booking."⟩],
          by simp, by simp⟩
      · have hilt : i < F.Bookings.length := by
          rw [List.getElem?_eq_some_iff] at hi
          exact hi.1
        have hlenE : (F.Bookings.eraseIdx i ++ [r.Booking]).length = F.Bookings.length := by
          simp only [List.length_append, List.length_singleton,
            List.length_eraseIdx_of_lt hilt]
          omega
        have hbmem : b ∈ F.Bookings.eraseIdx i ++ [r.Booking] := by
          apply List.mem_append_left
          rw [List.mem_eraseIdx_iff_getElem?]
          obtain ⟨k, hk⟩ := List.mem_iff_getElem?.mp hb
          refine ⟨k, ?_, hk⟩
          intro hki
          subst hki
          rw [hi] at hk
          exact hbv (Option.some.inj hk).symm
        rcases ih { F with Bookings := F.Bookings.eraseIdx i ++ [r.Booking] } hF
          (by simp only [hlenE]; exact hlen)
          (by
            intro x hx
            simp only [List.mem_append, List.mem_singleton] at hx
            rcases hx with hx | hx
            · exact huni x (List.mem_of_mem_eraseIdx hx)
            · subst hx
              exact ⟨hrs, hre⟩) hrest b hbmem with h | ⟨j, ms, hj, hm⟩
        · exact Or.inl h
        · exact Or.inr ⟨j + 1, ms, by simpa using hj, hm⟩

/-- In such a run that ends with VIP-owned bookings only, a standard request is rejected
with "Capacity exceeded.", or it is accepted and a later response cancels its booking. -/
theorem task2_standard_outcome (c s e : Int) (hc : 1 ≤ c) (hse : s < e) :
    ∀ (rs : List (Request × Int)) (F : Facility),
      F.Capacity = c → (F.Bookings.length : Int) ≤ c →
      (∀ b ∈ F.Bookings, b.StartTime = s ∧ b.EndTime = e) →
      (∀ p ∈ rs, p.2 ≤ s ∧ p.1.Booking.StartTime = s ∧ p.1.Booking.EndTime = e) →
      (∀ b ∈ (FacilityServer F rs).2.Bookings, b.User.Priority = true) →
      ∀ (i : Nat) (r : Request) (now : Int), rs[i]? = some (r, now) →
        r.Booking.User.Priority = false →
        (FacilityServer F rs).1[i]? = some [⟨r.Booking, 1, "Capacity exceeded."⟩] ∨
        ((FacilityServer F rs).1[i]? = some [⟨r.Booking, 0, "Facilities were booked."⟩] ∧
          ∃ (j : Nat) (ms : List BookingMessage), i < j ∧
            (FacilityServer F rs).1[j]? = some ms ∧
            (⟨r.Booking, 2, "A VIP-User has overwritten your booking."⟩ : BookingMessage)
              ∈ ms) := by
  intro rs
  induction rs with
  | nil =>
    intro F _ _ _ _ _ i r now hi
    simp at hi
  | cons p rs ih =>
    obtain ⟨r0, now0⟩ := p
    intro F hF hlen huni hreq hfinal i r now hi hstd
    have hr := hreq (r0, now0) (List.mem_cons_self _ _)
    simp only at hr
    obtain ⟨hnow, hrs, hre⟩ := hr
    have hrest : ∀ p ∈ rs, p.2 ≤ s ∧ p.1.Booking.StartTime = s ∧ p.1.Booking.EndTime = e :=
      fun p hp => hreq p (List.mem_cons_of_mem _ hp)
    have hfs : FacilityServer F ((r0, now0) :: rs)
        = ((CheckBooking r0 now0 F).1 :: (FacilityServer (CheckBooking r0 now0 F).2 rs).1,
            (FacilityServer (CheckBooking r0 now0 F).2 rs).2) := rfl
    have hstep := task2_step r0 now0 F (by omega) (by omega) (by omega)
      (fun b hb => by have := huni b hb; omega) (by omega)
    rw [hfs] at hfinal ⊢
    simp only at hfinal
    have hinv : (CheckBooking r0 now0 F).2.Capacity = c ∧
        ((CheckBooking r0 now0 F).2.Bookings.length : Int) ≤ c ∧
        (∀ b ∈ (CheckBooking r0 now0 F).2.Bookings, b.StartTime = s ∧ b.EndTime = e) := by
      rcases hstep with ⟨hroom, hout⟩ | ⟨hfull, hwhy, hout⟩ |
        ⟨hfull, hvip, hvlt, k, v, hk, hv0, hout⟩
      · rw [hout]
        refine ⟨hF, ?_, ?_⟩
        · simp only [List.length_append, List.length_singleton, Nat.cast_add, Nat.cast_one]
          omega
        · intro x hx
          simp only [List.mem_append, List.mem_singleton] at hx
          rcases hx with hx | hx
          · exact huni x hx
          · subst hx
            exact ⟨hrs, hre⟩
      · rw [hout]
        exact ⟨hF, hlen, huni⟩
      · rw [hout]
        have hklt : k < F.Bookings.length := by
          rw [List.getElem?_eq_some_iff] at hk
          exact hk.1
        refine ⟨hF, ?_, ?_⟩
        · simp only [List.length_append, List.length_singleton,
            List.length_eraseIdx_of_lt hklt]
          omega
        · intro x hx
          simp only [List.mem_append, List.mem_singleton] at hx
          rcases hx with hx | hx
          · exact huni x (List.mem_of_mem_eraseIdx hx)
          · subst hx
            exact ⟨hrs, hre⟩
    cases i with
    | zero =>
      simp only [List.getElem?_cons_zero, Option.some.injEq, Prod.mk.injEq] at hi
      obtain ⟨rfl, rfl⟩ := hi
      rcases hstep with ⟨hroom, hout⟩ | ⟨hfull, hwhy, hout⟩ |
        ⟨hfull, hvip, hvlt, k, v, hk, hv0, hout⟩
      · right
        refine ⟨by simp [hout], ?_⟩
        have hmem : r0.Booking ∈ (CheckBooking r0 now0 F).2.Bookings := by
          rw [hout]
          simp
        rcases task2_held_or_cancelled c s e hc hse rs (CheckBooking r0 now0 F).2
          hinv.1 hinv.2.1 hinv.2.2 hrest r0.Booking hmem with h | ⟨j, ms, hj, hm⟩
        · have := hfinal _ h
          rw [hstd] at this
          exact absurd this (by simp)
        · exact ⟨j + 1, ms, by omega, by simpa using hj, hm⟩
      · left
        simp [hout]
      · rw [hstd] at hvip
        exact absurd hvip (by simp)
    | succ k =>
      simp only [List.getElem?_cons_succ] at hi ⊢
      rcases ih (CheckBooking r0 now0 F).2 hinv.1 hinv.2.1 hinv.2.2 hrest hfinal k r now hi hstd
        with h | ⟨h, j, ms, hkj, hj, hm⟩
      · exact Or.inl h
      · exact Or.inr ⟨h, j + 1, ms, by omega, by simpa using hj, hm⟩

end Task2

namespace Task2

/-- C18: one facility of task 2 with capacity `c ≥ 1` and no bookings serves, in any
order, requests that all carry the interval `[s,e)` with `s < e` and are read at clock
values not after `s`, at least `c` of them from VIP users.  At the end the facility
holds exactly `c` bookings, all VIP-owned; the VIP requests rejected with "Capacity
exceeded." are exactly the number of VIP requests minus `c`; and every standard request
is rejected with "Capacity exceeded.", or it is accepted and a later response sends the
Cancelled message for its booking. -/
theorem task2_vips_take_the_facility (id : String) (c s e : Int)
    (rs : List (Request × Int)) (hc : 1 ≤ c) (hse : s < e)
    (hreq : ∀ p ∈ rs, p.2 ≤ s ∧ p.1.Booking.StartTime = s ∧ p.1.Booking.EndTime = e)
    (hvips : c ≤ (rs.countP (fun p => p.1.Booking.User.Priority) : Int)) :
    (((FacilityServer ⟨id, [], c⟩ rs).2.Bookings.length : Int) = c ∧
      ∀ b ∈ (FacilityServer ⟨id, [], c⟩ rs).2.Bookings, b.User.Priority = true) ∧
    (((rs.zip (FacilityServer ⟨id, [], c⟩ rs).1).countP (fun q =>
        q.1.1.Booking.User.Priority &&
          decide (q.2 = [⟨q.1.1.Booking, 1, "Capacity exceeded."⟩])) : Nat) : Int)
      = (rs.countP (fun p => p.1.Booking.User.Priority) : Int) - c ∧
    (∀ (i : Nat) (r : Request) (now : Int), rs[i]? = some (r, now) →
      r.Booking.User.Priority = false →
      (FacilityServer ⟨id, [], c⟩ rs).1[i]? = some [⟨r.Booking, 1, "Capacity exceeded."⟩] ∨
      ((FacilityServer ⟨id, [], c⟩ rs).1[i]?
          = some [⟨r.Booking, 0, "Facilities were booked."⟩] ∧
        ∃ (j : Nat) (ms : List BookingMessage), i < j ∧
          (FacilityServer ⟨id, [], c⟩ rs).1[j]? = some ms ∧
          (⟨r.Booking, 2, "A VIP-User has overwritten your booking."⟩ : BookingMessage)
            ∈ ms)) := by
  have hle : rs.countP (fun p => p.1.Booking.User.Priority) ≤ rs.length :=
    List.countP_le_length _
  obtain ⟨_, _, _, g4, g5, g6⟩ := task2_run_counts c s e hc hse rs ⟨id, [], c⟩ rfl
    (by simp only [List.length_nil, Nat.cast_zero]; omega) (by simp) hreq
  simp only [List.length_nil, Nat.cast_zero, zero_add, vipCount, List.countP_nil] at g4 g5 g6
  have hlen : ((FacilityServer ⟨id, [], c⟩ rs).2.Bookings.length : Int) = c := by
    rw [g4]
    omega
  have hvc : (((FacilityServer ⟨id, [], c⟩ rs).2.Bookings.countP
      (fun b => b.User.Priority) : Nat) : Int) = c := by
    rw [g5]
    omega
  have hall : ∀ b ∈ (FacilityServer ⟨id, [], c⟩ rs).2.Bookings, b.User.Priority = true := by
    have heq : (FacilityServer ⟨id, [], c⟩ rs).2.Bookings.countP (fun b => b.User.Priority)
        = (FacilityServer ⟨id, [], c⟩ rs).2.Bookings.length := by omega
    exact List.countP_eq_length.mp heq
  refine ⟨⟨hlen, hall⟩, ?_, ?_⟩
  · rw [g6, hvc]
  · exact task2_standard_outcome c s e hc hse rs ⟨id, [], c⟩ rfl
      (by simp only [List.length_nil, Nat.cast_zero]; omega) (by simp) hreq hall

/-- Witness of C18: the room of the test with capacity 2, asked for [10,15) by user 1
(standard), user 3 (VIP), user 2 (standard), user 4 (VIP) and user 5 (VIP) in this order.
User 1 is accepted and later cancelled, user 2 is rejected, one VIP (user 5) is rejected,
and the room ends with the bookings of the VIP users 3 and 4.  On the projector, where
VIP user 5 asks for [15,20), no VIP is rejected. -/
theorem task2_vips_take_the_facility_witness :
    ((1 : Int) ≤ 2 ∧ (10 : Int) < 15 ∧
      (∀ p ∈ roomInbox, p.2 ≤ 10 ∧ p.1.Booking.StartTime = 10 ∧ p.1.Booking.EndTime = 15) ∧
      (2 : Int) ≤ (roomInbox.countP (fun p => p.1.Booking.User.Priority) : Int)) ∧
    ((FacilityServer ⟨"room", [], 2⟩ roomInbox).2.Bookings.map (fun b => b.User.Id) = [3, 4] ∧
      (FacilityServer ⟨"room", [], 2⟩ roomInbox).1.map
        (fun ms => ms.map (fun m => (m.Booking.User.Id, m.Action)))
        = [[(1, 0)], [(3, 0)], [(2, 1)], [(1, 2), (4, 0)], [(5, 1)]] ∧
      (FacilityServer ⟨"projector", [], 2⟩ projectorInbox).1.map
        (fun ms => ms.map (fun m => (m.Booking.User.Id, m.Action)))
        = [[(1, 0)], [(3, 0)], [(2, 1)], [(1, 2), (4, 0)], [(5, 0)]]) ∧
    ((((FacilityServer ⟨"room", [], 2⟩ roomInbox).2.Bookings.length : Int) = 2 ∧
      ∀ b ∈ (FacilityServer ⟨"room", [], 2⟩ roomInbox).2.Bookings, b.User.Priority = true) ∧
    (((roomInbox.zip (FacilityServer ⟨"room", [], 2⟩ roomInbox).1).countP (fun q =>
        q.1.1.Booking.User.Priority &&
          decide (q.2 = [⟨q.1.1.Booking, 1, "Capacity exceeded."⟩])) : Nat) : Int)
      = (roomInbox.countP (fun p => p.1.Booking.User.Priority) : Int) - 2 ∧
    (∀ (i : Nat) (r : Request) (now : Int), roomInbox[i]? = some (r, now) →
      r.Booking.User.Priority = false →
      (FacilityServer ⟨"room", [], 2⟩ roomInbox).1[i]?
          = some [⟨r.Booking, 1, "Capacity exceeded."⟩] ∨
      ((FacilityServer ⟨"room", [], 2⟩ roomInbox).1[i]?
          = some [⟨r.Booking, 0, "Facilities were booked."⟩] ∧
        ∃ (j : Nat) (ms : List BookingMessage), i < j ∧
          (FacilityServer ⟨"room", [], 2⟩ roomInbox).1[j]? = some ms ∧
          (⟨r.Booking, 2, "A VIP-User has overwritten your booking."⟩ : BookingMessage)
            ∈ ms))) :=
  ⟨⟨by decide, by decide, by decide, by decide⟩, ⟨by decide, by decide, by decide⟩,
    task2_vips_take_the_facility "room" 2 10 15 roomInbox (by decide) (by decide)
      (by decide) (by decide)⟩

end Task2

/-! ## Task 3: compounds of all facilities for one interval -/

namespace Task3

/-- A list that is a permutation of the image of `fs` is the image of a permutation of
`fs`. -/
theorem perm_map_inv {α β : Type} (g : α → β) :
    ∀ (fs : List α) (l : List β), l.Perm (fs.map g) → ∃ σ : List α, σ.Perm fs ∧ l = σ.map g := by
  intro fs
  induction fs with
  | nil =>
    intro l h
    simp only [List.map_nil, List.perm_nil] at h
    exact ⟨[], List.Perm.refl _, by simp [h]⟩
  | cons a fs ih =>
    intro l h
    have hmem : g a ∈ l := h.symm.subset (by simp)
    obtain ⟨l1, l2, rfl⟩ := List.append_of_mem hmem
    have h2 : (l1 ++ l2).Perm (fs.map g) := by
      have := List.perm_middle.symm.trans h
      simp only [List.map_cons] at this
      exact List.Perm.cons_inv this
    obtain ⟨σ, hσ, hl⟩ := ih (l1 ++ l2) h2
    obtain ⟨σ1, σ2, rfl, h1, h3⟩ := List.map_eq_append_iff.mp hl.symm
    refine ⟨σ1 ++ a :: σ2, List.perm_middle.trans (List.Perm.cons a hσ), ?_⟩
    simp [h1, h3]

/-- The evaluations for a compound made by `MakeBookings`. -/
theorem evaluations_MakeBookings (st s0 : Store) (fs : List Nat) (s e : Int) (u : User)
    (clock : Nat → Int) :
    evaluations st (MakeBookings u s0 fs s e) clock
      = fs.enum.map (fun p =>
          CheckBooking st ⟨p.2, compoundBooking s0 fs s e u p.2⟩ (clock p.1) p.2) := by
  simp only [evaluations, MakeBookings, List.enum_map, List.map_map]
  rfl

end Task3

namespace Task3

/-- Every booking of a sequence with the candidate's proper interval is counted by the
overlap count. -/
theorem overlapCount_same_interval (cand : Booking) (bs : List Booking)
    (hlt : cand.StartTime < cand.EndTime)
    (h : ∀ b ∈ bs, b.StartTime = cand.StartTime ∧ b.EndTime = cand.EndTime) :
    overlapCount cand bs = bs.length ∧
      vipOverlapCount cand bs = bs.countP (fun b => b.User.Priority) := by
  have hall : ∀ b ∈ bs, CheckTimeslotOverlap cand.StartTime cand.EndTime b.StartTime
      b.EndTime = true := by
    intro b hb
    obtain ⟨e1, e2⟩ := h b hb
    simp [CheckTimeslotOverlap, e1, e2, hlt]
  constructor
  · simp only [overlapCount]
    exact List.countP_eq_length.mpr hall
  · simp only [vipOverlapCount]
    apply List.countP_congr
    intro b hb
    simp [hall b hb]

/-- One evaluation of `CheckBooking` on a facility of capacity at least 1 that holds at
most `Capacity` bookings, all with the interval of the candidate, which is proper and
not in the past: outright while there is room; on a full facility the rejection
"Capacity exceeded." when the candidate is standard or all bookings are VIP-owned; and
otherwise the preempting response for the group of the first booking that is not
VIP-owned. -/
theorem CheckBooking_same_interval (st : Store) (f : Nat) (cand : Booking) (now : Int)
    (hcap : 1 ≤ (st f).Capacity) (hnow : now ≤ cand.StartTime)
    (hlt : cand.StartTime < cand.EndTime)
    (huni : ∀ b ∈ (st f).Bookings, b.StartTime = cand.StartTime ∧ b.EndTime = cand.EndTime)
    (hlen : ((st f).Bookings.length : Int) ≤ (st f).Capacity) :
    (((st f).Bookings.length : Int) < (st f).Capacity ∧
      CheckBooking st ⟨f, cand⟩ now f = some (outright ⟨f, cand⟩ f)) ∨
    (((st f).Bookings.length : Int) = (st f).Capacity ∧
      (cand.User.Priority = false ∨
        (((st f).Bookings.countP (fun b => b.User.Priority) : Nat) : Int) = (st f).Capacity) ∧
      CheckBooking st ⟨f, cand⟩ now f = some (capacityExceeded ⟨f, cand⟩)) ∨
    (((st f).Bookings.length : Int) = (st f).Capacity ∧ cand.User.Priority = true ∧
      (((st f).Bookings.countP (fun b => b.User.Priority) : Nat) : Int) < (st f).Capacity ∧
      ∃ (i : Nat) (v : Booking), (st f).Bookings[i]? = some v ∧ v.User.Priority = false ∧
        (∀ j : Nat, j < i → ∀ w, (st f).Bookings[j]? = some w → w.User.Priority = true) ∧
        CheckBooking st ⟨f, cand⟩ now f
          = v.RequestsPtr.map (fun group => overwriting ⟨f, cand⟩ f group)) := by
  have h1 : ¬ cand.StartTime < now := by omega
  have h2 : ¬ cand.StartTime ≥ cand.EndTime := by omega
  obtain ⟨hoc, hvc⟩ := overlapCount_same_interval cand (st f).Bookings hlt huni
  have hvle : (st f).Bookings.countP (fun b => b.User.Priority) ≤ (st f).Bookings.length :=
    List.countP_le_length _
  have hfst : ∀ r, scan cand (st f).Capacity (st f).Bookings 0 0 = some r →
      r.1 = ((st f).Bookings.length : Int) := by
    intro r hr
    have := scan_fst _ _ _ _ _ _ hr
    rw [hoc] at this
    simpa using this
  have hsnd : ∀ r, scan cand (st f).Capacity (st f).Bookings 0 0 = some r →
      r.2 = (((st f).Bookings.countP (fun b => b.User.Priority) : Nat) : Int) := by
    intro r hr
    have := scan_snd _ _ _ _ _ _ hr
    rw [hvc] at this
    simpa using this
  by_cases hroom : ((st f).Bookings.length : Int) < (st f).Capacity
  · left
    refine ⟨hroom, ?_⟩
    obtain ⟨r, hr⟩ := scan_below cand (st f).Capacity (st f).Bookings 0 0 (le_refl _)
      (by rw [hoc]; omega)
    have hr1 := hfst r hr
    obtain ⟨n, v⟩ := r
    simp only at hr1
    subst hr1
    simp only [CheckBooking, h1, h2, if_false, hr, hroom, if_true, outright]
  · have hfull : ((st f).Bookings.length : Int) = (st f).Capacity := by omega
    right
    by_cases hrej : cand.User.Priority = false ∨
        (((st f).Bookings.countP (fun b => b.User.Priority) : Nat) : Int) = (st f).Capacity
    · left
      refine ⟨hfull, hrej, ?_⟩
      have hs : scan cand (st f).Capacity (st f).Bookings 0 0 = none := by
        cases hsc : scan cand (st f).Capacity (st f).Bookings 0 0 with
        | none => rfl
        | some r =>
          exfalso
          rcases hrej with hstd | hv
          · cases hb : (st f).Bookings with
            | nil =>
              rw [hb] at hfull
              simp at hfull
              omega
            | cons b bs =>
              have hr1 := hfst r hsc
              rw [hb] at hsc
              have := scan_standard_lt _ _ hstd _ _ _ _ _ hsc
              omega
          · have := scan_snd_lt _ _ _ _ _ _ (by omega) hsc
            have := hsnd r hsc
            omega
      simp only [CheckBooking, h1, h2, if_false, hs, capacityExceeded]
    · right
      simp only [not_or, Bool.not_eq_false] at hrej
      obtain ⟨hvip, hvne⟩ := hrej
      have hvlt : (((st f).Bookings.countP (fun b => b.User.Priority) : Nat) : Int)
          < (st f).Capacity := by omega
      refine ⟨hfull, hvip, hvlt, ?_⟩
      obtain ⟨r, hr⟩ := scan_vip_below cand (st f).Capacity hvip (st f).Bookings 0 0
        (by rw [hvc]; omega)
      have hr1 := hfst r hr
      obtain ⟨n, v⟩ := r
      simp only at hr1
      subst hr1
      cases hfv : findVictim cand (st f).Bookings with
      | none =>
        have := findVictim_none_counts _ _ hfv
        omega
      | some victim =>
        obtain ⟨i, hi, he, hfirst⟩ := findVictim_some _ _ _ hfv
        simp only [evictable, Bool.and_eq_true, Bool.not_eq_true'] at he
        refine ⟨i, victim, hi, he.2, ?_, ?_⟩
        · intro j hj w hw
          have hjf := hfirst j hj w hw
          obtain ⟨e1, e2⟩ := huni w (List.getElem?_mem hw)
          simpa [evictable, CheckTimeslotOverlap, e1, e2, hlt] using hjf
        · simp only [CheckBooking, h1, h2, if_false, hr, hroom, hfv]
          cases victim.RequestsPtr <;> rfl

end Task3

namespace Task3

/-- The deduplicating loop appends its whole input when no two elements of the
accumulator followed by the input have equal bookings. -/
theorem foldl_dedup_fresh {α : Type} (key : α → Booking) (f : List α → α → List α)
    (hf : ∀ acc x, f acc x =
      if acc.any (fun y => CheckBookingEquality (key y) (key x)) then acc else acc ++ [x]) :
    ∀ (l acc : List α),
      (acc ++ l).Pairwise (fun a b => CheckBookingEquality (key a) (key b) = false) →
      l.foldl f acc = acc ++ l := by
  intro l
  induction l with
  | nil =>
    intro acc _
    simp
  | cons x l ih =>
    intro acc h
    have hany : ¬ (acc.any (fun y => CheckBookingEquality (key y) (key x)) = true) := by
      simp only [List.any_eq_true, not_exists, not_and, Bool.not_eq_true]
      intro a ha
      rw [List.pairwise_append] at h
      exact h.2.2 a ha x (List.mem_cons_self _ _)
    rw [List.foldl_cons, hf, if_neg hany, ih (acc ++ [x]) (by simpa using h)]
    simp

/-- The deduplicating loop leaves the accumulator as it is when every element of the
input has an equal booking in the accumulator. -/
theorem foldl_dedup_known {α : Type} (key : α → Booking) (f : List α → α → List α)
    (hf : ∀ acc x, f acc x =
      if acc.any (fun y => CheckBookingEquality (key y) (key x)) then acc else acc ++ [x]) :
    ∀ (l acc : List α),
      (∀ x ∈ l, ∃ a ∈ acc, CheckBookingEquality (key a) (key x) = true) →
      l.foldl f acc = acc := by
  intro l
  induction l with
  | nil =>
    intro acc _
    rfl
  | cons x l ih =>
    intro acc h
    have hany : acc.any (fun y => CheckBookingEquality (key y) (key x)) = true := by
      simp only [List.any_eq_true]
      exact h x (List.mem_cons_self _ _)
    rw [List.foldl_cons, hf, if_pos hany]
    exact ih acc (fun y hy => h y (List.mem_cons_of_mem _ hy))

/-- The deduplicating loop over responses that all carry the same elements `X`, each
followed by one element of its own: `X` is kept once, followed by the own elements in
arrival order. -/
theorem foldl_dedup_shared {α ι : Type} (key : α → Booking) (f : List α → α → List α)
    (hf : ∀ acc x, f acc x =
      if acc.any (fun y => CheckBookingEquality (key y) (key x)) then acc else acc ++ [x])
    (X : List α) (y : ι → α) :
    ∀ (σ : List ι),
      (X ++ σ.map y).Pairwise (fun a b => CheckBookingEquality (key a) (key b) = false) →
      (σ = [] → X = []) →
      (σ.flatMap (fun g => X ++ [y g])).foldl f [] = X ++ σ.map y := by
  have hgen : ∀ (σ : List ι) (ys : List α),
      (X ++ ys ++ σ.map y).Pairwise
        (fun a b => CheckBookingEquality (key a) (key b) = false) →
      (σ.flatMap (fun g => X ++ [y g])).foldl f (X ++ ys) = X ++ ys ++ σ.map y := by
    intro σ
    induction σ with
    | nil =>
      intro ys _
      simp
    | cons g σ ih =>
      intro ys h
      rw [List.flatMap_cons, List.foldl_append, List.foldl_append,
        foldl_dedup_known key f hf X (X ++ ys)
          (fun x hx => ⟨x, List.mem_append_left _ hx, CheckBookingEquality_refl _⟩)]
      have hy : ¬ ((X ++ ys).any (fun z => CheckBookingEquality (key z) (key (y g))) = true) := by
        simp only [List.any_eq_true, not_exists, not_and, Bool.not_eq_true]
        intro a ha
        rw [List.pairwise_append] at h
        exact h.2.2 a ha (y g) (by simp)
      simp only [List.foldl_cons, List.foldl_nil, hf, if_neg hy]
      have := ih (ys ++ [y g]) (by simpa [List.append_assoc] using h)
      simpa [List.append_assoc] using this
  intro σ h hnil
  cases σ with
  | nil =>
    simp [hnil rfl]
  | cons g σ =>
    rw [List.flatMap_cons, List.foldl_append,
      foldl_dedup_fresh key f hf (X ++ [y g]) [] (by
        have := h
        simp only [List.map_cons] at this
        simp only [List.nil_append]
        rw [List.pairwise_append] at this ⊢
        refine ⟨this.1, List.pairwise_singleton _ _, ?_⟩
        intro a ha b hb
        simp only [List.mem_singleton] at hb
        subst hb
        exact this.2.2 a ha _ (List.mem_cons_self _ _))]
    have := hgen σ [y g] (by simpa [List.append_assoc] using h)
    simpa [List.append_assoc] using this

/-- `execute` changes the store only at the facility the action points to, by `effect`. -/
theorem execute_eq_update (st : Store) (a : Action) :
    execute st a = Function.update st a.Facility (effect (st a.Facility) a) := by
  unfold execute effect AddBooking RemoveBooking
  split
  · rfl
  · split
    · rfl
    · exact (Function.update_eq_self _ _).symm

/-- The commit loop, seen from one facility, is the loop of `effect` over the actions
that point to it. -/
theorem foldl_execute_at :
    ∀ (acts : List Action) (st : Store) (f : Nat),
      (acts.foldl execute st) f
        = (acts.filter (fun a => decide (a.Facility = f))).foldl effect (st f) := by
  intro acts
  induction acts with
  | nil =>
    intro st f
    rfl
  | cons a acts ih =>
    intro st f
    rw [List.foldl_cons, ih, execute_eq_update]
    by_cases hf : a.Facility = f
    · subst hf
      simp [List.filter_cons]
    · simp [List.filter_cons, hf, Function.update_noteq (Ne.symm hf)]

/-- In a list without repetition, the elements equal to a member are that member once. -/
theorem filter_eq_of_nodup :
    ∀ (σ : List Nat) (f : Nat), σ.Nodup → f ∈ σ → σ.filter (fun g => decide (g = f)) = [f] := by
  intro σ
  induction σ with
  | nil =>
    intro f _ h
    simp at h
  | cons g σ ih =>
    intro f hnd hf
    rw [List.nodup_cons] at hnd
    by_cases hgf : g = f
    · subst hgf
      have : σ.filter (fun x => decide (x = g)) = [] := by
        rw [List.filter_eq_nil_iff]
        intro a ha
        simp only [decide_eq_true_eq]
        intro hag
        subst hag
        exact hnd.1 ha
      simp [List.filter_cons, this]
    · have hmem : f ∈ σ := by
        rcases List.mem_cons.mp hf with h | h
        · exact absurd h.symm hgf
        · exact h
      simp [List.filter_cons, hgf, ih f hnd.2 hmem]

end Task3

namespace Task3

/-- A list with fewer VIP users than users has a first standard user. -/
theorem exists_first_standard :
    ∀ (W : List User), W.countP (fun w => w.Priority) < W.length →
      ∃ (i : Nat) (v : User), W[i]? = some v ∧ v.Priority = false ∧
        ∀ j : Nat, j < i → ∀ w, W[j]? = some w → w.Priority = true := by
  intro W
  induction W with
  | nil =>
    intro h
    simp at h
  | cons a W ih =>
    intro h
    by_cases ha : a.Priority = true
    · simp only [List.countP_cons, ha, if_true, List.length_cons] at h
      obtain ⟨i, v, hi, hv, hfirst⟩ := ih (by omega)
      refine ⟨i + 1, v, by simpa using hi, hv, ?_⟩
      intro j hj w hw
      cases j with
      | zero =>
        simp at hw
        subst hw
        exact ha
      | succ k => exact hfirst k (by omega) w (by simpa using hw)
    · exact ⟨0, a, by simp, by simpa using ha, fun j hj => absurd hj (Nat.not_lt_zero j)⟩

/-- Erasing an index commutes with mapping. -/
theorem eraseIdx_map_comm {α β : Type} (g : α → β) :
    ∀ (l : List α) (i : Nat), (l.eraseIdx i).map g = (l.map g).eraseIdx i := by
  intro l
  induction l with
  | nil =>
    intro i
    simp
  | cons a l ih =>
    intro i
    cases i with
    | zero => simp
    | succ n => simp [ih]

/-- The evaluation of the request of user `u` at a facility of a seated store, by the
number of holders, the number of VIP holders and the first standard holder. -/
theorem CheckBooking_seated (s0 st : Store) (fs : List Nat) (c s e : Int) (W : List User)
    (u : User) (f : Nat) (now : Int) (hseat : Seated s0 fs c s e st W) (hf : f ∈ fs)
    (hc : 1 ≤ c) (hnow : now ≤ s) (hse : s < e) (hlen : (W.length : Int) ≤ c) :
    ((W.length : Int) < c →
      CheckBooking st ⟨f, compoundBooking s0 fs s e u f⟩ now f
        = some (outright ⟨f, compoundBooking s0 fs s e u f⟩ f)) ∧
    ((W.length : Int) = c →
      (u.Priority = false ∨ ((W.countP (fun w => w.Priority) : Nat) : Int) = c) →
      CheckBooking st ⟨f, compoundBooking s0 fs s e u f⟩ now f
        = some (capacityExceeded ⟨f, compoundBooking s0 fs s e u f⟩)) ∧
    ((W.length : Int) = c → u.Priority = true →
      ((W.countP (fun w => w.Priority) : Nat) : Int) < c →
      ∀ (i : Nat) (v : User), W[i]? = some v → v.Priority = false →
        (∀ j : Nat, j < i → ∀ w, W[j]? = some w → w.Priority = true) →
        CheckBooking st ⟨f, compoundBooking s0 fs s e u f⟩ now f
          = some (overwriting ⟨f, compoundBooking s0 fs s e u f⟩ f
              (MakeBookings v s0 fs s e))) := by
  obtain ⟨_, hcap, hB⟩ := hseat f hf
  have hBlen : (st f).Bookings.length = W.length := by rw [hB, List.length_map]
  have hBvip : (st f).Bookings.countP (fun b => b.User.Priority)
      = W.countP (fun w => w.Priority) := by
    rw [hB, List.countP_map]
    rfl
  have hcase := CheckBooking_same_interval st f (compoundBooking s0 fs s e u f) now
    (by rw [hcap]; exact hc) hnow hse
    (by
      intro b hb
      rw [hB, List.mem_map] at hb
      obtain ⟨w, _, rfl⟩ := hb
      exact ⟨rfl, rfl⟩)
    (by rw [hBlen, hcap]; exact hlen)
  rw [hBlen, hBvip, hcap] at hcase
  have hU : (compoundBooking s0 fs s e u f).User.Priority = u.Priority := rfl
  rw [hU] at hcase
  refine ⟨?_, ?_, ?_⟩
  · intro hlt
    rcases hcase with ⟨_, h⟩ | ⟨h, _⟩ | ⟨h, _⟩
    · exact h
    · omega
    · omega
  · intro hfull hwhy
    rcases hcase with ⟨h, _⟩ | ⟨_, _, h⟩ | ⟨_, hv, hvl, _⟩
    · omega
    · exact h
    · rcases hwhy with h | h
      · rw [hv] at h
        exact absurd h (by simp)
      · omega
  · intro hfull hvip hvlt i v hi hv hfirst
    rcases hcase with ⟨h, _⟩ | ⟨_, hwhy, _⟩ | ⟨_, _, _, k, victim, hk, hvk, hkfirst, h⟩
    · omega
    · rcases hwhy with h | h
      · rw [hvip] at h
        exact absurd h (by simp)
      · omega
    · rw [hB, List.getElem?_map] at hk
      have hki : k = i := by
        rcases Nat.lt_trichotomy k i with hlt | heq | hgt
        · exfalso
          cases hwk : W[k]? with
          | none =>
            rw [hwk] at hk
            simp at hk
          | some w =>
            rw [hwk] at hk
            simp only [Option.map_some', Option.some.injEq] at hk
            have := hfirst k hlt w hwk
            rw [← hk] at hvk
            simp only [compoundBooking] at hvk
            rw [this] at hvk
            exact absurd hvk (by simp)
        · exact heq
        · exfalso
          have := hkfirst i hgt (compoundBooking s0 fs s e v f)
            (by rw [hB, List.getElem?_map, hi]; rfl)
          simp only [compoundBooking] at this
          rw [hv] at this
          exact absurd this (by simp)
      subst hki
      rw [hi] at hk
      simp only [Option.map_some', Option.some.injEq] at hk
      rw [h, ← hk]
      rfl

end Task3

namespace Task3

/-- Elements made for the facilities of a list without repetition, whose bookings carry
facility ids that differ from facility to facility, have pairwise unequal bookings. -/
theorem pairwise_of_facility_ids {α : Type} (key : α → Booking) (m : Nat → α) (σ : List Nat)
    (hnd : σ.Nodup)
    (hinj : ∀ g ∈ σ, ∀ h ∈ σ, (key (m g)).FacilityID = (key (m h)).FacilityID → g = h) :
    (σ.map m).Pairwise (fun a b => CheckBookingEquality (key a) (key b) = false) := by
  rw [List.pairwise_map]
  have hnd2 : σ.Pairwise (fun g h => g ≠ h) := hnd
  refine (List.Pairwise.and_mem.mp hnd2).imp ?_
  intro g h hgh
  obtain ⟨hg, hh, hne⟩ := hgh
  cases hcb : CheckBookingEquality (key (m g)) (key (m h)) with
  | false => rfl
  | true =>
    simp only [CheckBookingEquality, Bool.and_eq_true, decide_eq_true_eq] at hcb
    exact absurd (hinj g hg h hh hcb.1.1.2) hne

/-- Concatenating one-element lists is mapping. -/
theorem flatMap_singleton_map {α β : Type} (y : α → β) :
    ∀ (σ : List α), σ.flatMap (fun g => [y g]) = σ.map y := by
  intro σ
  induction σ with
  | nil => rfl
  | cons a σ ih => simp [List.flatMap_cons, ih]

/-- The server on a seated store when every facility answers outright: the user's
compound is appended in every facility and every sub-booking is answered Accepted. -/
theorem Server_seated_outright (s0 st : Store) (fs : List Nat) (c s e : Int) (W : List User)
    (u : User) (σ : List Nat) (hseat : Seated s0 fs c s e st W) (hσ : σ.Perm fs)
    (hnd : fs.Nodup) (hids : ∀ g ∈ fs, ∀ h ∈ fs, (s0 g).Id = (s0 h).Id → g = h) :
    Seated s0 fs c s e
      (Server st (σ.map (fun g => outright ⟨g, compoundBooking s0 fs s e u g⟩ g))).1
      (W ++ [u]) ∧
    inboxActions
        (Server st (σ.map (fun g => outright ⟨g, compoundBooking s0 fs s e u g⟩ g))).2
      = List.replicate fs.length (u, 0) := by
  have hσnd : σ.Nodup := hσ.nodup_iff.mpr hnd
  have hσids : ∀ g ∈ σ, ∀ h ∈ σ, (s0 g).Id = (s0 h).Id → g = h :=
    fun g hg h hh => hids g (hσ.subset hg) h (hσ.subset hh)
  have hagg : aggregate (σ.map (fun g => outright ⟨g, compoundBooking s0 fs s e u g⟩ g))
      = (σ.map (fun g => (⟨compoundBooking s0 fs s e u g, 0, "Facilities were booked."⟩ :
            BookingMessage)),
          σ.map (fun g => (⟨0, compoundBooking s0 fs s e u g, g⟩ : Action))) := by
    rw [aggregate, foldl_collect]
    simp only [List.flatMap_map, outright, flatMap_singleton_map]
    rw [foldl_dedup_fresh BookingMessage.Booking addMessage (fun _ _ => rfl) _ []
        (by
          rw [List.nil_append]
          exact pairwise_of_facility_ids BookingMessage.Booking _ σ hσnd hσids),
      foldl_dedup_fresh Action.Booking addAction (fun _ _ => rfl) _ []
        (by
          rw [List.nil_append]
          exact pairwise_of_facility_ids Action.Booking _ σ hσnd hσids)]
    simp
  have hposs : compound_possible (σ.map (fun g =>
      (⟨compoundBooking s0 fs s e u g, 0, "Facilities were booked."⟩ : BookingMessage)))
      = true := by
    simp [compound_possible]
  have hS : Server st (σ.map (fun g => outright ⟨g, compoundBooking s0 fs s e u g⟩ g))
      = ((σ.map (fun g => (⟨0, compoundBooking s0 fs s e u g, g⟩ : Action))).foldl execute st,
          σ.map (fun g => (⟨compoundBooking s0 fs s e u g, 0, "Facilities were booked."⟩ :
            BookingMessage))) := by
    simp only [Server, hagg, hposs, if_true]
  rw [hS]
  constructor
  · intro f hf
    obtain ⟨hid, hcap, hB⟩ := hseat f hf
    have hfσ : f ∈ σ := hσ.symm.subset hf
    simp only [foldl_execute_at, List.filter_map]
    have hfil : σ.filter ((fun a : Action => decide (a.Facility = f)) ∘
        (fun g => (⟨0, compoundBooking s0 fs s e u g, g⟩ : Action))) = [f] := by
      have := filter_eq_of_nodup σ f hσnd hfσ
      simpa [Function.comp_def] using this
    rw [hfil]
    simp [effect, hid, hcap, hB]
  · simp only [inboxActions, List.map_map, Function.comp_def]
    show List.map (fun _ => (u, (0 : Int))) σ = _
    rw [List.map_const', hσ.length_eq]

/-- The server on a seated store when every facility answers with the rejection: the
store stays as it is and every sub-booking is answered Rejected. -/
theorem Server_seated_rejected (s0 st : Store) (fs : List Nat) (s e : Int)
    (u : User) (σ : List Nat) (hσ : σ.Perm fs)
    (hnd : fs.Nodup) (hids : ∀ g ∈ fs, ∀ h ∈ fs, (s0 g).Id = (s0 h).Id → g = h) :
    (Server st (σ.map (fun g => capacityExceeded ⟨g, compoundBooking s0 fs s e u g⟩))).1 = st ∧
    inboxActions
        (Server st (σ.map (fun g => capacityExceeded ⟨g, compoundBooking s0 fs s e u g⟩))).2
      = List.replicate fs.length (u, 1) := by
  have hσnd : σ.Nodup := hσ.nodup_iff.mpr hnd
  have hσids : ∀ g ∈ σ, ∀ h ∈ σ, (s0 g).Id = (s0 h).Id → g = h :=
    fun g hg h hh => hids g (hσ.subset hg) h (hσ.subset hh)
  have hagg : aggregate (σ.map (fun g => capacityExceeded ⟨g, compoundBooking s0 fs s e u g⟩))
      = (σ.map (fun g => (⟨compoundBooking s0 fs s e u g, 1, "Capacity exceeded."⟩ :
            BookingMessage)), []) := by
    rw [aggregate, foldl_collect]
    simp only [List.flatMap_map, capacityExceeded, flatMap_singleton_map]
    rw [foldl_dedup_fresh BookingMessage.Booking addMessage (fun _ _ => rfl) _ []
        (by
          rw [List.nil_append]
          exact pairwise_of_facility_ids BookingMessage.Booking _ σ hσnd hσids)]
    simp [List.flatMap_def]
  cases σ with
  | nil =>
    have hfs : fs = [] := List.perm_nil.mp hσ.symm
    subst hfs
    simp [Server, aggregate, compound_possible, inboxActions]
  | cons g σ =>
    have hposs : compound_possible ((g :: σ).map (fun g =>
        (⟨compoundBooking s0 fs s e u g, 1, "Capacity exceeded."⟩ : BookingMessage)))
        = false := by
      simp [compound_possible]
    have hS : Server st ((g :: σ).map
        (fun g => capacityExceeded ⟨g, compoundBooking s0 fs s e u g⟩))
        = (st, (g :: σ).map (fun g => (⟨compoundBooking s0 fs s e u g, 1,
            "Booking not successful as a part of the compound could not be booked."⟩ :
            BookingMessage))) := by
      simp only [Server, hagg, hposs, failureMessages]
      rw [List.filter_eq_self.mpr (by simp)]
      simp
    rw [hS]
    refine ⟨rfl, ?_⟩
    rw [← hσ.length_eq, inboxActions, List.map_map]
    show List.map (fun _ => (u, (1 : Int))) (g :: σ) = _
    rw [List.map_const']

end Task3

namespace Task3

/-- In a list of users with distinct ids, users at different positions have different
ids. -/
theorem ids_ne_of_nodup (W : List User) (hW : (W.map (fun w => w.Id)).Nodup)
    (j i : Nat) (w v : User) (hj : W[j]? = some w) (hi : W[i]? = some v) (hji : j < i) :
    w.Id ≠ v.Id := by
  intro heq
  have hlen : i < (W.map (fun w => w.Id)).length := by
    rw [List.length_map]
    exact (List.getElem?_eq_some_iff.mp hi).1
  have := (List.nodup_iff_getElem?_ne_getElem?.mp hW) j i hji hlen
  apply this
  rw [List.getElem?_map, List.getElem?_map, hj, hi]
  simp [heq]

/-- The server on a seated store when every facility answers with the eviction of the
compound of the holder `v` at position `i`: in every facility the booking of `v` is
removed and the booking of `u` appended; every sub-booking of `v` is answered Cancelled
and every sub-booking of `u` Accepted. -/
theorem Server_seated_overwriting (s0 st : Store) (fs : List Nat) (c s e : Int)
    (W : List User) (u : User) (σ : List Nat) (i : Nat) (v : User)
    (hseat : Seated s0 fs c s e st W) (hσ : σ.Perm fs)
    (hnd : fs.Nodup) (hids : ∀ g ∈ fs, ∀ h ∈ fs, (s0 g).Id = (s0 h).Id → g = h)
    (hi : W[i]? = some v) (hW : (W.map (fun w => w.Id)).Nodup)
    (hu : ∀ w ∈ W, w.Id ≠ u.Id) :
    Seated s0 fs c s e
      (Server st (σ.map (fun g => overwriting ⟨g, compoundBooking s0 fs s e u g⟩ g
        (MakeBookings v s0 fs s e)))).1
      (W.eraseIdx i ++ [u]) ∧
    inboxActions (Server st (σ.map (fun g => overwriting ⟨g, compoundBooking s0 fs s e u g⟩ g
        (MakeBookings v s0 fs s e)))).2
      = List.replicate fs.length (v, 2) ++ List.replicate fs.length (u, 0) := by
  have hσnd : σ.Nodup := hσ.nodup_iff.mpr hnd
  have hσids : ∀ g ∈ σ, ∀ h ∈ σ, (s0 g).Id = (s0 h).Id → g = h :=
    fun g hg h hh => hids g (hσ.subset hg) h (hσ.subset hh)
  have hvW : v ∈ W := List.getElem?_mem hi
  have hvu : v.Id ≠ u.Id := hu v hvW
  have hempty : σ = [] → fs = [] := by
    intro h
    subst h
    exact List.perm_nil.mp hσ.symm
  have hagg : aggregate (σ.map (fun g => overwriting ⟨g, compoundBooking s0 fs s e u g⟩ g
        (MakeBookings v s0 fs s e)))
      = (fs.map (fun h => (⟨⟨v, (s0 h).Id, s, e, none⟩, 2,
              "A VIP-User has overwritten your booking."⟩ : BookingMessage))
            ++ σ.map (fun g => (⟨compoundBooking s0 fs s e u g, 0,
              "Facilities were booked, you have overwritten a non-VIP booking."⟩ :
              BookingMessage)),
          fs.map (fun h => (⟨1, ⟨v, (s0 h).Id, s, e, none⟩, h⟩ : Action))
            ++ σ.map (fun g => (⟨0, compoundBooking s0 fs s e u g, g⟩ : Action))) := by
    rw [aggregate, foldl_collect]
    simp only [List.flatMap_map, overwriting, MakeBookings, List.map_map, Function.comp_def]
    rw [foldl_dedup_shared BookingMessage.Booking addMessage (fun _ _ => rfl) _ _ σ
        (by
          rw [List.pairwise_append]
          refine ⟨pairwise_of_facility_ids BookingMessage.Booking _ fs hnd hids,
            pairwise_of_facility_ids BookingMessage.Booking _ σ hσnd hσids, ?_⟩
          intro a ha b hb
          rw [List.mem_map] at ha hb
          obtain ⟨h, _, rfl⟩ := ha
          obtain ⟨g, _, rfl⟩ := hb
          simp [CheckBookingEquality, compoundBooking, hvu])
        (by
          intro h
          rw [hempty h]
          rfl),
      foldl_dedup_shared Action.Booking addAction (fun _ _ => rfl) _ _ σ
        (by
          rw [List.pairwise_append]
          refine ⟨pairwise_of_facility_ids Action.Booking _ fs hnd hids,
            pairwise_of_facility_ids Action.Booking _ σ hσnd hσids, ?_⟩
          intro a ha b hb
          rw [List.mem_map] at ha hb
          obtain ⟨h, _, rfl⟩ := ha
          obtain ⟨g, _, rfl⟩ := hb
          simp [CheckBookingEquality, compoundBooking, hvu])
        (by
          intro h
          rw [hempty h]
          rfl)]
  have hposs : compound_possible
      (fs.map (fun h => (⟨⟨v, (s0 h).Id, s, e, none⟩, 2,
              "A VIP-User has overwritten your booking."⟩ : BookingMessage))
            ++ σ.map (fun g => (⟨compoundBooking s0 fs s e u g, 0,
              "Facilities were booked, you have overwritten a non-VIP booking."⟩ :
              BookingMessage))) = true := by
    simp [compound_possible]
  have hS : Server st (σ.map (fun g => overwriting ⟨g, compoundBooking s0 fs s e u g⟩ g
        (MakeBookings v s0 fs s e)))
      = ((fs.map (fun h => (⟨1, ⟨v, (s0 h).Id, s, e, none⟩, h⟩ : Action))
            ++ σ.map (fun g => (⟨0, compoundBooking s0 fs s e u g, g⟩ : Action))).foldl
            execute st,
          fs.map (fun h => (⟨⟨v, (s0 h).Id, s, e, none⟩, 2,
              "A VIP-User has overwritten your booking."⟩ : BookingMessage))
            ++ σ.map (fun g => (⟨compoundBooking s0 fs s e u g, 0,
              "Facilities were booked, you have overwritten a non-VIP booking."⟩ :
              BookingMessage))) := by
    simp only [Server, hagg, hposs, if_true]
  rw [hS]
  constructor
  · intro f hf
    obtain ⟨hid, hcap, hB⟩ := hseat f hf
    have hfσ : f ∈ σ := hσ.symm.subset hf
    simp only [foldl_execute_at, List.filter_append, List.filter_map]
    have hfil1 : fs.filter ((fun a : Action => decide (a.Facility = f)) ∘
        (fun h => (⟨1, ⟨v, (s0 h).Id, s, e, none⟩, h⟩ : Action))) = [f] := by
      have := filter_eq_of_nodup fs f hnd hf
      simpa [Function.comp_def] using this
    have hfil2 : σ.filter ((fun a : Action => decide (a.Facility = f)) ∘
        (fun g => (⟨0, compoundBooking s0 fs s e u g, g⟩ : Action))) = [f] := by
      have := filter_eq_of_nodup σ f hσnd hfσ
      simpa [Function.comp_def] using this
    rw [hfil1, hfil2]
    have hrem : removeFirst ⟨v, (s0 f).Id, s, e, none⟩
        (W.map (fun w => compoundBooking s0 fs s e w f))
        = (W.map (fun w => compoundBooking s0 fs s e w f)).eraseIdx i := by
      refine removeFirst_eq_eraseIdx _ _ i (compoundBooking s0 fs s e v f)
        (by rw [List.getElem?_map, hi]; rfl)
        (by simp [CheckBookingEquality, compoundBooking]) ?_
      intro j hj w hw
      rw [List.getElem?_map] at hw
      cases hwj : W[j]? with
      | none =>
        rw [hwj] at hw
        simp at hw
      | some w0 =>
        rw [hwj] at hw
        simp only [Option.map_some', Option.some.injEq] at hw
        subst hw
        have := ids_ne_of_nodup W hW j i w0 v hwj hi hj
        simp [CheckBookingEquality, compoundBooking, this]
    simp only [List.map_cons, List.map_nil, List.singleton_append, List.foldl_cons,
      List.foldl_nil, effect]
    simp [hid, hcap, hB, hrem, eraseIdx_map_comm]
  · rw [inboxActions, List.map_append, List.map_map, List.map_map]
    show List.map (fun _ => (v, (2 : Int))) fs ++ List.map (fun _ => (u, (0 : Int))) σ = _
    rw [List.map_const', List.map_const', hσ.length_eq]

end Task3

namespace Task3

/-- When every evaluation returns, the server receives all the responses. -/
theorem returned_map_some {α : Type} (resp : α → CheckResponse) :
    ∀ (l : List α), returned (l.map (fun f => some (resp f))) = some (l.map resp) := by
  intro l
  induction l with
  | nil => rfl
  | cons a l ih => simp [returned, ih]

/-- One iteration of the server for a compound of `MakeBookings` whose evaluation at
each facility `f` returns `resp f` whatever clock value it reads: the responses reach
`Server` in an order that is a permutation of the facilities. -/
theorem ServerIteration_of_responses (s0 st : Store) (fs : List Nat) (s e : Int) (u : User)
    (clock : Nat → Int) (order : List CheckResponse → List CheckResponse)
    (resp : Nat → CheckResponse)
    (hresp : ∀ f ∈ fs, ∀ i, CheckBooking st ⟨f, compoundBooking s0 fs s e u f⟩ (clock i) f
      = some (resp f))
    (horder : ∀ l, (order l).Perm l) :
    ∃ σ : List Nat, σ.Perm fs ∧
      ServerIteration st (MakeBookings u s0 fs s e) clock order
        = some (Server st (σ.map resp)) := by
  have hev : evaluations st (MakeBookings u s0 fs s e) clock
      = fs.map (fun f => some (resp f)) := by
    rw [evaluations_MakeBookings]
    have h1 : fs.enum.map (fun p =>
        CheckBooking st ⟨p.2, compoundBooking s0 fs s e u p.2⟩ (clock p.1) p.2)
        = fs.enum.map (fun p => some (resp p.2)) := by
      apply List.map_congr_left
      intro p hp
      have hmem : p.2 ∈ fs := by
        have : p.2 ∈ fs.enum.map Prod.snd := List.mem_map_of_mem Prod.snd hp
        rwa [List.enum_map_snd] at this
      exact hresp p.2 hmem p.1
    rw [h1]
    have h2 : fs.enum.map (fun p => some (resp p.2))
        = (fs.enum.map Prod.snd).map (fun f => some (resp f)) := by
      rw [List.map_map]
      rfl
    rw [h2, List.enum_map_snd]
  obtain ⟨σ, hσ, hl⟩ := perm_map_inv resp fs (order (fs.map resp)) (horder _)
  refine ⟨σ, hσ, ?_⟩
  rw [ServerIteration, hev, returned_map_some, Option.map_some', hl]

/-- One iteration of the server on a seated store for the compound of a user `u` whose
id no holder has.  With a free place the compound is appended everywhere; with no free
place a standard user, and a VIP user facing VIP holders only, is rejected everywhere
and the store stays; otherwise the compound of the first standard holder is removed
everywhere and the compound of `u` appended. -/
theorem ServerIteration_seated (s0 st : Store) (fs : List Nat) (c s e : Int) (W : List User)
    (u : User) (clock : Nat → Int) (order : List CheckResponse → List CheckResponse)
    (hseat : Seated s0 fs c s e st W) (hc : 1 ≤ c) (hse : s < e)
    (hnd : fs.Nodup) (hids : ∀ g ∈ fs, ∀ h ∈ fs, (s0 g).Id = (s0 h).Id → g = h)
    (hclock : ∀ i, clock i ≤ s) (horder : ∀ l, (order l).Perm l)
    (hlen : (W.length : Int) ≤ c) (hW : (W.map (fun w => w.Id)).Nodup)
    (hu : ∀ w ∈ W, w.Id ≠ u.Id) :
    ∃ (st2 : Store) (ms : List BookingMessage),
      ServerIteration st (MakeBookings u s0 fs s e) clock order = some (st2, ms) ∧
      (((W.length : Int) < c ∧ Seated s0 fs c s e st2 (W ++ [u]) ∧
          inboxActions ms = List.replicate fs.length (u, 0)) ∨
        ((W.length : Int) = c ∧
          (u.Priority = false ∨ ((W.countP (fun w => w.Priority) : Nat) : Int) = c) ∧
          st2 = st ∧ inboxActions ms = List.replicate fs.length (u, 1)) ∨
        ((W.length : Int) = c ∧ u.Priority = true ∧
          ((W.countP (fun w => w.Priority) : Nat) : Int) < c ∧
          ∃ (i : Nat) (v : User), W[i]? = some v ∧ v.Priority = false ∧
            Seated s0 fs c s e st2 (W.eraseIdx i ++ [u]) ∧
            inboxActions ms
              = List.replicate fs.length (v, 2) ++ List.replicate fs.length (u, 0))) := by
  have hvle : W.countP (fun w => w.Priority) ≤ W.length := List.countP_le_length _
  by_cases hfree : (W.length : Int) < c
  · obtain ⟨σ, hσ, hit⟩ := ServerIteration_of_responses s0 st fs s e u clock order
      (fun f => outright ⟨f, compoundBooking s0 fs s e u f⟩ f)
      (fun f hf i => (CheckBooking_seated s0 st fs c s e W u f (clock i) hseat hf hc
        (hclock i) hse hlen).1 hfree)
      horder
    obtain ⟨h1, h2⟩ := Server_seated_outright s0 st fs c s e W u σ hseat hσ hnd hids
    exact ⟨_, _, hit, Or.inl ⟨hfree, h1, h2⟩⟩
  · have hfull : (W.length : Int) = c := by omega
    by_cases hwhy : u.Priority = false ∨ ((W.countP (fun w => w.Priority) : Nat) : Int) = c
    · obtain ⟨σ, hσ, hit⟩ := ServerIteration_of_responses s0 st fs s e u clock order
        (fun f => capacityExceeded ⟨f, compoundBooking s0 fs s e u f⟩)
        (fun f hf i => (CheckBooking_seated s0 st fs c s e W u f (clock i) hseat hf hc
          (hclock i) hse hlen).2.1 hfull hwhy)
        horder
      obtain ⟨h1, h2⟩ := Server_seated_rejected s0 st fs s e u σ hσ hnd hids
      exact ⟨_, _, hit, Or.inr (Or.inl ⟨hfull, hwhy, h1, h2⟩)⟩
    · have hvip : u.Priority = true := by
        cases hp : u.Priority with
        | true => rfl
        | false => exact absurd (Or.inl hp) hwhy
      have hvlt : ((W.countP (fun w => w.Priority) : Nat) : Int) < c := by
        have : ¬ ((W.countP (fun w => w.Priority) : Nat) : Int) = c := fun h => hwhy (Or.inr h)
        omega
      obtain ⟨i, v, hi, hv, hfirst⟩ := exists_first_standard W (by omega)
      obtain ⟨σ, hσ, hit⟩ := ServerIteration_of_responses s0 st fs s e u clock order
        (fun f => overwriting ⟨f, compoundBooking s0 fs s e u f⟩ f (MakeBookings v s0 fs s e))
        (fun f hf k => (CheckBooking_seated s0 st fs c s e W u f (clock k) hseat hf hc
          (hclock k) hse hlen).2.2 hfull hvip hvlt i v hi hv hfirst)
        horder
      obtain ⟨h1, h2⟩ := Server_seated_overwriting s0 st fs c s e W u σ i v hseat hσ hnd hids
        hi hW hu
      exact ⟨_, _, hit, Or.inr (Or.inr ⟨hfull, hvip, hvlt, i, v, hi, hv, h1, h2⟩)⟩

end Task3

namespace Task3

/-- Erasing an element that fails the test does not change the count. -/
theorem countP_eraseIdx_of_false {α : Type} (p : α → Bool) :
    ∀ (l : List α) (i : Nat) (v : α), l[i]? = some v → p v = false →
      (l.eraseIdx i).countP p = l.countP p := by
  intro l
  induction l with
  | nil =>
    intro i v hi
    simp at hi
  | cons a l ih =>
    intro i v hi hv
    cases i with
    | zero =>
      simp at hi
      subst hi
      simp [List.countP_cons, hv]
    | succ n =>
      simp only [List.eraseIdx_cons_succ, List.countP_cons]
      rw [ih n v (by simpa using hi) hv]

/-- Erasing an index of the list shortens it by one. -/
theorem length_eraseIdx_of_get {α : Type} :
    ∀ (l : List α) (i : Nat) (v : α), l[i]? = some v →
      (l.eraseIdx i).length + 1 = l.length := by
  intro l
  induction l with
  | nil =>
    intro i v hi
    simp at hi
  | cons a l ih =>
    intro i v hi
    cases i with
    | zero => simp
    | succ n =>
      simp only [List.eraseIdx_cons_succ, List.length_cons]
      rw [ih n v (by simpa using hi)]

/-- An element of the list is the erased one or is still there. -/
theorem mem_eraseIdx_or {α : Type} (w : α) :
    ∀ (l : List α) (i : Nat) (v : α), l[i]? = some v → w ∈ l → w = v ∨ w ∈ l.eraseIdx i := by
  intro l
  induction l with
  | nil =>
    intro i v hi
    simp at hi
  | cons a l ih =>
    intro i v hi hw
    cases i with
    | zero =>
      simp at hi
      subst hi
      simpa using hw
    | succ n =>
      simp only [List.eraseIdx_cons_succ, List.mem_cons]
      rcases List.mem_cons.mp hw with h | h
      · exact Or.inr (Or.inl h)
      · rcases ih n v (by simpa using hi) h with h2 | h2
        · exact Or.inl h2
        · exact Or.inr (Or.inr h2)

end Task3

namespace Task3

/-- The server loop on a seated store for compounds of `MakeBookings` over all the
facilities, one per user, with ids that differ from each other and from the ids of the
holders: the loop returns, the final store is seated, the number of holders and the
number of VIP holders grow up to the capacity, VIP holders stay, and every standard
holder that is gone has been sent its cancellations. -/
theorem ServerLoop_seated (s0 : Store) (fs : List Nat) (c s e : Int) (hc : 1 ≤ c)
    (hse : s < e) (hnd : fs.Nodup)
    (hids : ∀ g ∈ fs, ∀ h ∈ fs, (s0 g).Id = (s0 h).Id → g = h) :
    ∀ (jobs : List (User × (Nat → Int) × (List CheckResponse → List CheckResponse)))
      (st : Store) (W : List User),
      Seated s0 fs c s e st W → (W.length : Int) ≤ c →
      (W.map (fun w => w.Id) ++ jobs.map (fun j => j.1.Id)).Nodup →
      (∀ j ∈ jobs, ∀ i, j.2.1 i ≤ s) → (∀ j ∈ jobs, ∀ l, (j.2.2 l).Perm l) →
      ∃ (final : Store) (out : List (List BookingMessage)) (Wf : List User),
        ServerLoop st (jobs.map (fun j => (MakeBookings j.1 s0 fs s e, j.2.1, j.2.2)))
          = some (final, out) ∧
        Seated s0 fs c s e final Wf ∧
        (Wf.length : Int) = min c ((W.length : Int) + (jobs.length : Int)) ∧
        ((Wf.countP (fun w => w.Priority) : Nat) : Int)
          = min c (((W.countP (fun w => w.Priority) : Nat) : Int)
              + ((jobs.countP (fun j => j.1.Priority) : Nat) : Int)) ∧
        (∀ w ∈ Wf, w ∈ W ∨ w ∈ jobs.map (fun j => j.1)) ∧
        out.length = jobs.length ∧
        (∀ w ∈ W, w.Priority = true → w ∈ Wf) ∧
        (∀ w ∈ W, w.Priority = false → w ∈ Wf ∨
          ∃ (j : Nat) (ms : List BookingMessage) (tail : List (User × Int)),
            out[j]? = some ms ∧ inboxActions ms = List.replicate fs.length (w, 2) ++ tail) ∧
        (∀ (i : Nat) (job : User × (Nat → Int) × (List CheckResponse → List CheckResponse)),
          jobs[i]? = some job → ∃ ms, out[i]? = some ms ∧
            (inboxActions ms = List.replicate fs.length (job.1, 1) ∨
              ((inboxActions ms = List.replicate fs.length (job.1, 0) ∨
                  (job.1.Priority = true ∧ ∃ v : User, v.Priority = false ∧
                    inboxActions ms
                      = List.replicate fs.length (v, 2)
                        ++ List.replicate fs.length (job.1, 0))) ∧
                (job.1 ∈ Wf ∨ (job.1.Priority = false ∧
                  ∃ (j : Nat) (ms2 : List BookingMessage) (tail : List (User × Int)),
                    i < j ∧ out[j]? = some ms2 ∧
                    inboxActions ms2 = List.replicate fs.length (job.1, 2) ++ tail))))) := by
  intro jobs
  induction jobs with
  | nil =>
    intro st W hseat hlen _ _ _
    have hvle : W.countP (fun w => w.Priority) ≤ W.length := List.countP_le_length _
    refine ⟨st, [], W, rfl, hseat, ?_, ?_, fun w hw => Or.inl hw, rfl, fun w hw _ => hw,
      fun w hw _ => Or.inl hw, ?_⟩
    · simp only [List.length_nil, Nat.cast_zero, add_zero]
      omega
    · simp only [List.countP_nil, Nat.cast_zero, add_zero]
      omega
    · intro i job hjob
      simp at hjob
  | cons job rest ih =>
    intro st W hseat hlen hnodup hclock horder
    have hvle : W.countP (fun w => w.Priority) ≤ W.length := List.countP_le_length _
    have hW : (W.map (fun w => w.Id)).Nodup := (List.nodup_append.mp hnodup).1
    have hu : ∀ w ∈ W, w.Id ≠ job.1.Id := by
      intro w hw heq
      have hdis := (List.nodup_append.mp hnodup).2.2
      exact hdis (List.mem_map_of_mem (fun w => w.Id) hw)
        (by rw [heq]; simp)
    have hclock2 : ∀ j ∈ rest, ∀ i, j.2.1 i ≤ s := fun j hj => hclock j (List.mem_cons_of_mem _ hj)
    have horder2 : ∀ j ∈ rest, ∀ l, (j.2.2 l).Perm l :=
      fun j hj => horder j (List.mem_cons_of_mem _ hj)
    have hcount : (job :: rest).countP (fun j => j.1.Priority)
        = rest.countP (fun j => j.1.Priority) + (if job.1.Priority = true then 1 else 0) := by
      rw [List.countP_cons]
    -- the step from the state after the first compound to the whole run
    have assemble : ∀ (W2 : List User) (st2 : Store) (ms : List BookingMessage),
        ServerIteration st (MakeBookings job.1 s0 fs s e) job.2.1 job.2.2 = some (st2, ms) →
        Seated s0 fs c s e st2 W2 → (W2.length : Int) ≤ c →
        (W2.map (fun w => w.Id) ++ rest.map (fun j => j.1.Id)).Nodup →
        min c ((W2.length : Int) + (rest.length : Int))
          = min c ((W.length : Int) + ((rest.length : Int) + 1)) →
        min c (((W2.countP (fun w => w.Priority) : Nat) : Int)
            + ((rest.countP (fun j => j.1.Priority) : Nat) : Int))
          = min c (((W.countP (fun w => w.Priority) : Nat) : Int)
            + (((rest.countP (fun j => j.1.Priority) : Nat) : Int)
              + (if job.1.Priority = true then 1 else 0))) →
        (∀ w ∈ W2, w ∈ W ∨ w = job.1) →
        (∀ w ∈ W, w.Priority = true → w ∈ W2) →
        (∀ w ∈ W, w.Priority = false → w ∈ W2 ∨
          ∃ tail : List (User × Int),
            inboxActions ms = List.replicate fs.length (w, 2) ++ tail) →
        (inboxActions ms = List.replicate fs.length (job.1, 1) ∨
          ((inboxActions ms = List.replicate fs.length (job.1, 0) ∨
              (job.1.Priority = true ∧ ∃ v : User, v.Priority = false ∧
                inboxActions ms
                  = List.replicate fs.length (v, 2)
                    ++ List.replicate fs.length (job.1, 0))) ∧
            job.1 ∈ W2)) →
        ∃ (final : Store) (out : List (List BookingMessage)) (Wf : List User),
          ServerLoop st ((job :: rest).map
              (fun j => (MakeBookings j.1 s0 fs s e, j.2.1, j.2.2))) = some (final, out) ∧
          Seated s0 fs c s e final Wf ∧
          (Wf.length : Int) = min c ((W.length : Int) + ((job :: rest).length : Int)) ∧
          ((Wf.countP (fun w => w.Priority) : Nat) : Int)
            = min c (((W.countP (fun w => w.Priority) : Nat) : Int)
                + (((job :: rest).countP (fun j => j.1.Priority) : Nat) : Int)) ∧
          (∀ w ∈ Wf, w ∈ W ∨ w ∈ (job :: rest).map (fun j => j.1)) ∧
          out.length = (job :: rest).length ∧
          (∀ w ∈ W, w.Priority = true → w ∈ Wf) ∧
          (∀ w ∈ W, w.Priority = false → w ∈ Wf ∨
            ∃ (j : Nat) (ms : List BookingMessage) (tail : List (User × Int)),
              out[j]? = some ms ∧
              inboxActions ms = List.replicate fs.length (w, 2) ++ tail) ∧
          (∀ (i : Nat)
            (jb : User × (Nat → Int) × (List CheckResponse → List CheckResponse)),
            (job :: rest)[i]? = some jb → ∃ ms, out[i]? = some ms ∧
              (inboxActions ms = List.replicate fs.length (jb.1, 1) ∨
                ((inboxActions ms = List.replicate fs.length (jb.1, 0) ∨
                    (jb.1.Priority = true ∧ ∃ v : User, v.Priority = false ∧
                      inboxActions ms
                        = List.replicate fs.length (v, 2)
                          ++ List.replicate fs.length (jb.1, 0))) ∧
                  (jb.1 ∈ Wf ∨ (jb.1.Priority = false ∧
                    ∃ (j : Nat) (ms2 : List BookingMessage) (tail : List (User × Int)),
                      i < j ∧ out[j]? = some ms2 ∧
                      inboxActions ms2
                        = List.replicate fs.length (jb.1, 2) ++ tail))))) := by
      intro W2 st2 ms hit hseat2 hlen2 hnodup2 r1 r2 r3 r4 r5 r6
      obtain ⟨final, out, Wf, hloop, hseatf, hL, hV, hmem, houtlen, hstay, hstd, hjobs⟩ :=
        ih st2 W2 hseat2 hlen2 hnodup2 hclock2 horder2
      have hstd2 : ∀ w ∈ W2, w.Priority = false → w ∈ Wf ∨
          ∃ (j : Nat) (ms2 : List BookingMessage) (tail : List (User × Int)),
            0 < j ∧ (ms :: out)[j]? = some ms2 ∧
            inboxActions ms2 = List.replicate fs.length (w, 2) ++ tail := by
        intro w hw hp
        rcases hstd w hw hp with h | ⟨j, ms2, tail, hj, hms2⟩
        · exact Or.inl h
        · exact Or.inr ⟨j + 1, ms2, tail, Nat.succ_pos j, by simpa using hj, hms2⟩
      refine ⟨final, ms :: out, Wf, ?_, hseatf, ?_, ?_, ?_, ?_, ?_, ?_, ?_⟩
      · simp only [List.map_cons, ServerLoop, hit, hloop, Option.map_some']
      · rw [hL, r1]
        simp only [List.length_cons, Nat.cast_add, Nat.cast_one]
      · rw [hV, r2, hcount]
        simp only [Nat.cast_add]
        split <;> simp
      · intro w hw
        rcases hmem w hw with h | h
        · rcases r3 w h with h2 | h2
          · exact Or.inl h2
          · exact Or.inr (by rw [h2]; simp)
        · exact Or.inr (by
            rw [List.map_cons]
            exact List.mem_cons_of_mem _ h)
      · simp [houtlen]
      · intro w hw hp
        exact hstay w (r4 w hw hp) hp
      · intro w hw hp
        rcases r5 w hw hp with h | ⟨tail, h⟩
        · rcases hstd2 w h hp with h2 | ⟨j, ms2, tail, _, hj, hms2⟩
          · exact Or.inl h2
          · exact Or.inr ⟨j, ms2, tail, hj, hms2⟩
        · exact Or.inr ⟨0, ms, tail, by simp, h⟩
      · intro i jb hjb
        cases i with
        | zero =>
          simp only [List.getElem?_cons_zero, Option.some.injEq] at hjb
          subst hjb
          refine ⟨ms, by simp, ?_⟩
          rcases r6 with h | ⟨hacc, hin⟩
          · exact Or.inl h
          · refine Or.inr ⟨hacc, ?_⟩
            cases hp : job.1.Priority with
            | true => exact Or.inl (hstay job.1 hin hp)
            | false =>
              rcases hstd2 job.1 hin hp with h2 | h2
              · exact Or.inl h2
              · exact Or.inr ⟨rfl, h2⟩
        | succ k =>
          obtain ⟨ms1, hms1, hwhat⟩ := hjobs k jb (by simpa using hjb)
          refine ⟨ms1, by simpa using hms1, ?_⟩
          rcases hwhat with h | ⟨hacc, hend⟩
          · exact Or.inl h
          · refine Or.inr ⟨hacc, ?_⟩
            rcases hend with h | ⟨hp, j, ms2, tail, hkj, hj, hms2⟩
            · exact Or.inl h
            · exact Or.inr ⟨hp, j + 1, ms2, tail, by omega, by simpa using hj, hms2⟩
    obtain ⟨st2, ms, hit, hcase⟩ := ServerIteration_seated s0 st fs c s e W job.1 job.2.1
      job.2.2 hseat hc hse hnd hids (hclock job (List.mem_cons_self _ _))
      (horder job (List.mem_cons_self _ _)) hlen hW hu
    rcases hcase with ⟨hfree, hseat2, hms⟩ | ⟨hfull, hwhy, hst, hms⟩ |
      ⟨hfull, hvip, hvlt, i, v, hi, hv, hseat2, hms⟩
    · -- a free place: the compound is appended
      refine assemble (W ++ [job.1]) st2 ms hit hseat2 ?_ ?_ ?_ ?_ ?_ ?_ ?_ ?_
      · simp only [List.length_append, List.length_singleton, Nat.cast_add, Nat.cast_one]
        omega
      · simpa [List.map_append, List.append_assoc] using hnodup
      · simp only [List.length_append, List.length_singleton, Nat.cast_add, Nat.cast_one]
        congr 1
        omega
      · simp only [List.countP_append, List.countP_cons, List.countP_nil, Nat.cast_add]
        congr 1
        split
        · simp
          omega
        · simp
      · intro w hw
        rcases List.mem_append.mp hw with h | h
        · exact Or.inl h
        · exact Or.inr (by simpa using h)
      · intro w hw _
        exact List.mem_append_left _ hw
      · intro w hw _
        exact Or.inl (List.mem_append_left _ hw)
      · exact Or.inr ⟨Or.inl hms, by simp⟩
    · -- no free place and no standard holder to evict: rejected, the store stays
      subst hst
      refine assemble W st2 ms hit hseat hlen ?_ ?_ ?_ ?_ ?_ ?_ ?_
      · refine hnodup.sublist ?_
        exact List.Sublist.append (List.Sublist.refl _)
          (by
            rw [List.map_cons]
            exact List.sublist_cons_self _ _)
      · omega
      · rcases hwhy with h | h
        · simp [h]
        · split <;> omega
      · intro w hw
        exact Or.inl hw
      · intro w hw _
        exact hw
      · intro w hw _
        exact Or.inl hw
      · exact Or.inl hms
    · -- no free place and a standard holder: its compound is evicted
      have hlenE := length_eraseIdx_of_get W i v hi
      have hcntE := countP_eraseIdx_of_false (fun w : User => w.Priority) W i v hi hv
      refine assemble (W.eraseIdx i ++ [job.1]) st2 ms hit hseat2 ?_ ?_ ?_ ?_ ?_ ?_ ?_ ?_
      · simp only [List.length_append, List.length_singleton, Nat.cast_add, Nat.cast_one]
        omega
      · refine hnodup.sublist ?_
        rw [List.map_append, List.append_assoc]
        exact List.Sublist.append ((List.eraseIdx_sublist W i).map _)
          (by simp)
      · simp only [List.length_append, List.length_singleton, Nat.cast_add, Nat.cast_one]
        omega
      · simp only [List.countP_append, List.countP_cons, List.countP_nil, Nat.cast_add, hcntE,
          hvip, if_true]
        congr 1
        simp
        omega
      · intro w hw
        rcases List.mem_append.mp hw with h | h
        · exact Or.inl (List.mem_of_mem_eraseIdx h)
        · exact Or.inr (by simpa using h)
      · intro w hw hp
        rcases mem_eraseIdx_or w W i v hi hw with h | h
        · rw [h, hv] at hp
          exact absurd hp (by simp)
        · exact List.mem_append_left _ h
      · intro w hw _
        rcases mem_eraseIdx_or w W i v hi hw with h | h
        · exact Or.inr ⟨_, by rw [hms, h]⟩
        · exact Or.inl (List.mem_append_left _ h)
      · exact Or.inr ⟨Or.inr ⟨hvip, v, hv, hms⟩, by simp⟩

end Task3

namespace Task3

/-- C17: let the facilities `fs` (distinct addresses, distinct ids) all have capacity
`c ≥ 1` and no bookings, and let users with distinct ids, at least `c` of them VIP, each
submit through `MakeBookings` one compound that books every facility for `[s,e)` with
`s < e`.  The list `jobs` gives the order in which the server takes the compounds, and
for each compound the clock values that its evaluations read, none after `s`, and the
order in which its responses arrive.  Then the server loop returns, and there are `c`
users `winners`, all VIP and among the submitters, such that at the end every facility
holds exactly the bookings of the compounds of `winners`.  Every VIP user who is not a
winner is answered Rejected for every sub-booking, and every standard user is answered
Rejected for every sub-booking, or is answered Accepted for every sub-booking and a later
compound sends it a Cancelled message for every sub-booking. -/
theorem task3_vips_take_all_facilities (s0 : Store) (fs : List Nat) (c s e : Int)
    (jobs : List (User × (Nat → Int) × (List CheckResponse → List CheckResponse)))
    (hc : 1 ≤ c) (hse : s < e) (hnd : fs.Nodup)
    (hids : ∀ g ∈ fs, ∀ h ∈ fs, (s0 g).Id = (s0 h).Id → g = h)
    (hstart : ∀ f ∈ fs, (s0 f).Capacity = c ∧ (s0 f).Bookings = [])
    (husers : (jobs.map (fun j => j.1.Id)).Nodup)
    (hclock : ∀ j ∈ jobs, ∀ i, j.2.1 i ≤ s)
    (horder : ∀ j ∈ jobs, ∀ l, (j.2.2 l).Perm l)
    (hvips : c ≤ ((jobs.countP (fun j => j.1.Priority) : Nat) : Int)) :
    ∃ (final : Store) (out : List (List BookingMessage)) (winners : List User),
      ServerLoop s0 (jobs.map (fun j => (MakeBookings j.1 s0 fs s e, j.2.1, j.2.2)))
        = some (final, out) ∧
      (winners.length : Int) = c ∧
      (∀ w ∈ winners, w.Priority = true ∧ w ∈ jobs.map (fun j => j.1)) ∧
      (∀ f ∈ fs,
        (final f).Bookings = winners.map (fun w => compoundBooking s0 fs s e w f)) ∧
      out.length = jobs.length ∧
      (∀ (i : Nat) (job : User × (Nat → Int) × (List CheckResponse → List CheckResponse)),
        jobs[i]? = some job → ∃ ms, out[i]? = some ms ∧
          (job.1.Priority = true → job.1 ∉ winners →
            inboxActions ms = List.replicate fs.length (job.1, 1)) ∧
          (job.1.Priority = false →
            inboxActions ms = List.replicate fs.length (job.1, 1) ∨
            (inboxActions ms = List.replicate fs.length (job.1, 0) ∧
              ∃ (j : Nat) (ms2 : List BookingMessage) (tail : List (User × Int)),
                i < j ∧ out[j]? = some ms2 ∧
                inboxActions ms2 = List.replicate fs.length (job.1, 2) ++ tail))) := by
  have hseat : Seated s0 fs c s e s0 [] := by
    intro f hf
    exact ⟨rfl, (hstart f hf).1, by rw [(hstart f hf).2]; rfl⟩
  obtain ⟨final, out, Wf, hloop, hseatf, hL, hV, hmem, houtlen, _, _, hjobs⟩ :=
    ServerLoop_seated s0 fs c s e hc hse hnd hids jobs s0 [] hseat
      (by simp only [List.length_nil, Nat.cast_zero]; omega)
      (by simpa using husers) hclock horder
  have hvle : jobs.countP (fun j => j.1.Priority) ≤ jobs.length := List.countP_le_length _
  simp only [List.length_nil, Nat.cast_zero, zero_add, List.countP_nil] at hL hV
  have hlen : (Wf.length : Int) = c := by
    rw [hL]
    omega
  have hall : ∀ w ∈ Wf, w.Priority = true := by
    have heq : Wf.countP (fun w => w.Priority) = Wf.length := by omega
    intro w hw
    exact List.countP_eq_length.mp heq w hw
  refine ⟨final, out, Wf, hloop, hlen, ?_, fun f hf => (hseatf f hf).2.2, houtlen, ?_⟩
  · intro w hw
    refine ⟨hall w hw, ?_⟩
    rcases hmem w hw with h | h
    · simp at h
    · exact h
  · intro i job hjob
    obtain ⟨ms, hms, hwhat⟩ := hjobs i job hjob
    refine ⟨ms, hms, ?_, ?_⟩
    · intro hp hnot
      rcases hwhat with h | ⟨_, hend⟩
      · exact h
      · rcases hend with h | ⟨hstd, _⟩
        · exact absurd h hnot
        · rw [hp] at hstd
          exact absurd hstd (by simp)
    · intro hp
      rcases hwhat with h | ⟨hacc, hend⟩
      · exact Or.inl h
      · refine Or.inr ⟨?_, ?_⟩
        · rcases hacc with h | ⟨hvip, _⟩
          · exact h
          · rw [hp] at hvip
            exact absurd hvip (by simp)
        · rcases hend with h | ⟨_, h⟩
          · have := hall job.1 h
            rw [hp] at this
            exact absurd this (by simp)
          · exact h

/-- Witness of C17: the room and the projector of `main` with capacity 2 and the five
users of `main`, all booking both facilities for [10,15).  The compounds of the standard
users 1 and 2 are accepted, the compounds of the VIP users 3 and 4 evict them, and the
compound of VIP user 5 is rejected; at the end both facilities hold the bookings of
users 3 and 4. -/
theorem task3_vips_take_all_facilities_witness :
    ((1 : Int) ≤ 2 ∧ (10 : Int) < 15 ∧ [0, 1].Nodup ∧
      (∀ g ∈ [0, 1], ∀ h ∈ [0, 1], (mainStore 2 g).Id = (mainStore 2 h).Id → g = h) ∧
      (∀ f ∈ [0, 1], (mainStore 2 f).Capacity = 2 ∧ (mainStore 2 f).Bookings = []) ∧
      (mainJobs.map (fun j => j.1.Id)).Nodup ∧
      (∀ j ∈ mainJobs, ∀ i, j.2.1 i ≤ 10) ∧
      (∀ j ∈ mainJobs, ∀ l, (j.2.2 l).Perm l) ∧
      (2 : Int) ≤ ((mainJobs.countP (fun j => j.1.Priority) : Nat) : Int)) ∧
    ((ServerLoop (mainStore 2)
        (mainJobs.map (fun j => (MakeBookings j.1 (mainStore 2) [0, 1] 10 15, j.2.1, j.2.2)))).map
      (fun r => ((r.1 0).Bookings.map (fun b => b.User.Id),
        (r.1 1).Bookings.map (fun b => b.User.Id),
        r.2.map (fun ms => (inboxActions ms).map (fun p => (p.1.Id, p.2)))))
      = some ([3, 4], [3, 4],
          [[(1, 0), (1, 0)], [(2, 0), (2, 0)], [(1, 2), (1, 2), (3, 0), (3, 0)],
            [(2, 2), (2, 2), (4, 0), (4, 0)], [(5, 1), (5, 1)]])) ∧
    (∃ (final : Store) (out : List (List BookingMessage)) (winners : List User),
      ServerLoop (mainStore 2)
          (mainJobs.map (fun j => (MakeBookings j.1 (mainStore 2) [0, 1] 10 15, j.2.1, j.2.2)))
        = some (final, out) ∧
      (winners.length : Int) = 2 ∧
      (∀ w ∈ winners, w.Priority = true ∧ w ∈ mainJobs.map (fun j => j.1)) ∧
      (∀ f ∈ [0, 1],
        (final f).Bookings
          = winners.map (fun w => compoundBooking (mainStore 2) [0, 1] 10 15 w f)) ∧
      out.length = mainJobs.length ∧
      (∀ (i : Nat) (job : User × (Nat → Int) × (List CheckResponse → List CheckResponse)),
        mainJobs[i]? = some job → ∃ ms, out[i]? = some ms ∧
          (job.1.Priority = true → job.1 ∉ winners →
            inboxActions ms = List.replicate [0, 1].length (job.1, 1)) ∧
          (job.1.Priority = false →
            inboxActions ms = List.replicate [0, 1].length (job.1, 1) ∨
            (inboxActions ms = List.replicate [0, 1].length (job.1, 0) ∧
              ∃ (j : Nat) (ms2 : List BookingMessage) (tail : List (User × Int)),
                i < j ∧ out[j]? = some ms2 ∧
                inboxActions ms2 = List.replicate [0, 1].length (job.1, 2) ++ tail)))) :=
  have hstart : ∀ f ∈ [0, 1],
      (mainStore 2 f).Capacity = 2 ∧ (mainStore 2 f).Bookings = [] := by
    intro f hf
    simp only [List.mem_cons, List.mem_singleton, List.not_mem_nil, or_false] at hf
    rcases hf with rfl | rfl <;> exact ⟨rfl, rfl⟩
  have hclock : ∀ j ∈ mainJobs, ∀ i, j.2.1 i ≤ 10 := by
    intro j hj i
    obtain ⟨u, _, rfl⟩ := List.mem_map.mp hj
    show (3 : Int) ≤ 10
    decide
  have horder : ∀ j ∈ mainJobs, ∀ l, (j.2.2 l).Perm l := by
    intro j hj l
    obtain ⟨u, _, rfl⟩ := List.mem_map.mp hj
    exact List.reverse_perm l
  ⟨⟨by decide, by decide, by decide, by decide, hstart, by decide, hclock, horder, by decide⟩,
    by decide,
    task3_vips_take_all_facilities (mainStore 2) [0, 1] 2 10 15 mainJobs (by decide)
      (by decide) (by decide) (by decide) hstart (by decide) hclock horder (by decide)⟩

end Task3

/-! ## Evaluation does not write -/

namespace Task3

/-- The state-passing form of `CheckBooking` hands back the heap it was given and sends
the response of `CheckBooking`. -/
theorem CheckBookingStateful_eq (s : Store) (request : Request) (now : Int) (facility : Nat) :
    CheckBookingStateful s request now facility = (s, CheckBooking s request now facility) := by
  unfold CheckBookingStateful CheckBooking
  split
  · rfl
  · split
    · rfl
    · split
      · rfl
      · split
        · rfl
        · split
          · split <;> rfl
          · rfl

/-- The response of `CheckBooking` depends on the heap only through the booking sequence
and the capacity of the facility it is called for. -/
theorem CheckBooking_congr (s s2 : Store) (request : Request) (now : Int) (facility : Nat)
    (hb : (s2 facility).Bookings = (s facility).Bookings)
    (hc : (s2 facility).Capacity = (s facility).Capacity) :
    CheckBooking s2 request now facility = CheckBooking s request now facility := by
  simp only [CheckBooking, hb, hc]

/-- C21: task 3 `CheckBooking`, in state-passing form, hands back the heap of facilities
unchanged, so the booking sequence and the capacity of every facility are as before, and
what it sends is the response of `CheckBooking`.  Evaluating the same candidate again on
the heap it left, with the same clock value, gives the same response, and so does an
evaluation on any heap `s2` in which the facility has the same booking sequence and the
same capacity: the same messages and the same pending actions. -/
theorem CheckBooking_read_only (s s2 : Store) (request : Request) (now : Int)
    (facility : Nat) (hb : (s2 facility).Bookings = (s facility).Bookings)
    (hc : (s2 facility).Capacity = (s facility).Capacity) :
    (CheckBookingStateful s request now facility).1 = s ∧
    (∀ f, ((CheckBookingStateful s request now facility).1 f).Bookings = (s f).Bookings ∧
      ((CheckBookingStateful s request now facility).1 f).Capacity = (s f).Capacity) ∧
    (CheckBookingStateful s request now facility).2 = CheckBooking s request now facility ∧
    CheckBookingStateful (CheckBookingStateful s request now facility).1 request now facility
      = CheckBookingStateful s request now facility ∧
    (CheckBookingStateful s2 request now facility).2
      = (CheckBookingStateful s request now facility).2 ∧
    (∀ r1 r2, (CheckBookingStateful s request now facility).2 = some r1 →
      (CheckBookingStateful s2 request now facility).2 = some r2 →
      r1.BookingMessages = r2.BookingMessages ∧ r1.Actions = r2.Actions) := by
  have h1 := CheckBookingStateful_eq s request now facility
  have h2 := CheckBookingStateful_eq s2 request now facility
  have h3 := CheckBooking_congr s s2 request now facility hb hc
  refine ⟨by rw [h1], fun f => by rw [h1]; exact ⟨rfl, rfl⟩, by rw [h1],
    by rw [h1]; exact h1, ?_, ?_⟩
  · rw [h1, h2]
    exact h3
  · intro r1 r2 hr1 hr2
    rw [h1] at hr1
    rw [h2] at hr2
    simp only at hr1 hr2
    rw [h3, hr1] at hr2
    cases hr2
    exact ⟨rfl, rfl⟩

/-- Witness of C21: VIP user 3's request for the room, evaluated at clock value 0 on
`pairStore` and on the heap that differs from it in the projector: the room is the same
in both, and so is the response, which evicts user 1's compound. -/
theorem CheckBooking_read_only_witness :
    ((pairStoreOtherProjector 0).Bookings = (pairStore 0).Bookings ∧
      (pairStoreOtherProjector 0).Capacity = (pairStore 0).Capacity) ∧
    ((pairStoreOtherProjector 1).Capacity, (pairStore 1).Capacity) = (5, 1) ∧
    (CheckBookingStateful pairStore vipRoomRequest 0 0).2 = some vipRoomResponse ∧
    (CheckBookingStateful pairStore vipRoomRequest 0 0).1 = pairStore ∧
    (CheckBookingStateful pairStoreOtherProjector vipRoomRequest 0 0).2
      = (CheckBookingStateful pairStore vipRoomRequest 0 0).2 :=
  have h := CheckBooking_read_only pairStore pairStoreOtherProjector vipRoomRequest 0 0
    rfl rfl
  ⟨⟨rfl, rfl⟩, by decide, rfl, h.1, h.2.2.2.2.1⟩

end Task3

/-! ## Order of the bookings across a commit -/

namespace Task3

/-- The loop of `RemoveBooking` leaves a sequence without an equal booking as it is. -/
theorem removeFirst_of_none (target : Booking) :
    ∀ (bs : List Booking), (∀ x ∈ bs, CheckBookingEquality x target = false) →
      removeFirst target bs = bs := by
  intro bs
  induction bs with
  | nil =>
    intro _
    rfl
  | cons b bs ih =>
    intro h
    have hb : CheckBookingEquality b target = false := h b (by simp)
    simp only [removeFirst, hb, Bool.false_eq_true, if_false]
    rw [ih (fun x hx => h x (List.mem_cons_of_mem _ hx))]

/-- The loop of `RemoveBooking` deletes elements only: what it leaves is a subsequence. -/
theorem removeFirst_sublist (target : Booking) :
    ∀ (bs : List Booking), (removeFirst target bs).Sublist bs := by
  intro bs
  induction bs with
  | nil => exact List.Sublist.refl _
  | cons b bs ih =>
    simp only [removeFirst]
    split
    · exact List.sublist_cons_self _ _
    · exact ih.cons₂ b

/-- The loop of `RemoveBooking` over two sequences laid end to end leaves a subsequence
of the first followed by a subsequence of the second. -/
theorem removeFirst_append_split (target : Booking) (l2 : List Booking) :
    ∀ (l1 : List Booking), ∃ k a, removeFirst target (l1 ++ l2) = k ++ a ∧
      k.Sublist l1 ∧ a.Sublist l2 := by
  intro l1
  induction l1 with
  | nil => exact ⟨[], removeFirst target l2, rfl, List.Sublist.refl _, removeFirst_sublist _ _⟩
  | cons b l1 ih =>
    simp only [List.cons_append, removeFirst]
    split
    · exact ⟨l1, l2, rfl, List.sublist_cons_self _ _, List.Sublist.refl _⟩
    · obtain ⟨k, a, h, hk, ha⟩ := ih
      refine ⟨b :: k, a, ?_, hk.cons₂ b, ha⟩
      show b :: removeFirst target (l1 ++ l2) = b :: k ++ a
      rw [h]
      rfl

/-- The commit loop at one facility: the bookings it leaves are a subsequence of the old
ones followed by a subsequence of the bookings of its add actions, in action order. -/
theorem foldl_effect_order :
    ∀ (acts : List Action) (fac : Facility) (kept added : List Booking),
      fac.Bookings = kept ++ added →
      ∃ kept2 added2, (acts.foldl effect fac).Bookings = kept2 ++ added2 ∧
        kept2.Sublist kept ∧
        added2.Sublist
          (added ++ (acts.filter (fun a => decide (a.Action = 0))).map (fun a => a.Booking)) := by
  intro acts
  induction acts with
  | nil =>
    intro fac kept added h
    exact ⟨kept, added, h, List.Sublist.refl _, by simp⟩
  | cons a acts ih =>
    intro fac kept added h
    rw [List.foldl_cons]
    by_cases h0 : a.Action = 0
    · obtain ⟨k2, a2, hfin, hk, ha⟩ := ih (effect fac a) kept (added ++ [a.Booking])
        (by simp [effect, h0, h])
      refine ⟨k2, a2, hfin, hk, ?_⟩
      simpa [List.filter_cons, h0] using ha
    · by_cases h1 : a.Action = 1
      · obtain ⟨k1, a1, hrem, hk1, ha1⟩ := removeFirst_append_split a.Booking added kept
        obtain ⟨k2, a2, hfin, hk, ha⟩ := ih (effect fac a) k1 a1
          (by simp [effect, h0, h1, h, hrem])
        refine ⟨k2, a2, hfin, hk.trans hk1, ?_⟩
        have : (a1 ++ (acts.filter (fun a => decide (a.Action = 0))).map
            (fun a => a.Booking)).Sublist
            (added ++ (acts.filter (fun a => decide (a.Action = 0))).map
              (fun a => a.Booking)) :=
          List.Sublist.append ha1 (List.Sublist.refl _)
        simpa [List.filter_cons, h0] using ha.trans this
      · obtain ⟨k2, a2, hfin, hk, ha⟩ := ih (effect fac a) kept added
          (by simp [effect, h0, h1, h])
        refine ⟨k2, a2, hfin, hk, ?_⟩
        simpa [List.filter_cons, h0] using ha

/-- C25: across one iteration of the server, committed or not, every facility ends with
a subsequence of the bookings it held before, in their old order, followed by bookings
of the collected add actions that point to it, in action order: what stays keeps its
relative order and what is inserted comes after it.  `AddBooking` appends at the end;
`RemoveBooking` deletes the first booking equal to its argument under
`CheckBookingEquality` and nothing else, and changes nothing when no booking is equal;
neither touches another facility. -/
theorem Server_keeps_order (s : Store) (arrived : List CheckResponse) (f : Nat) :
    (∃ kept added : List Booking,
      ((Server s arrived).1 f).Bookings = kept ++ added ∧
      kept.Sublist (s f).Bookings ∧
      added.Sublist (((aggregate arrived).2.filter
        (fun a => decide (a.Facility = f) && decide (a.Action = 0))).map
          (fun a => a.Booking)) ∧
      (compound_possible (aggregate arrived).1 = false → kept = (s f).Bookings ∧ added = [])) ∧
    (∀ b : Booking, ((AddBooking b f s) f).Bookings = (s f).Bookings ++ [b]) ∧
    (∀ b : Booking, (∀ x ∈ (s f).Bookings, CheckBookingEquality x b = false) →
      ((RemoveBooking b f s) f).Bookings = (s f).Bookings) ∧
    (∀ (b : Booking) (i : Nat) (x : Booking), (s f).Bookings[i]? = some x →
      CheckBookingEquality x b = true →
      (∀ j : Nat, j < i → ∀ w, (s f).Bookings[j]? = some w →
        CheckBookingEquality w b = false) →
      ((RemoveBooking b f s) f).Bookings = (s f).Bookings.eraseIdx i) ∧
    (∀ (b : Booking) (g : Nat), g ≠ f →
      (AddBooking b g s) f = s f ∧ (RemoveBooking b g s) f = s f) := by
  refine ⟨?_, ?_, ?_, ?_, ?_⟩
  · by_cases hp : compound_possible (aggregate arrived).1 = true
    · simp only [Server, hp, if_true, foldl_execute_at]
      obtain ⟨k, a, h, hk, ha⟩ := foldl_effect_order
        ((aggregate arrived).2.filter (fun a => decide (a.Facility = f))) (s f)
        (s f).Bookings [] (by simp)
      refine ⟨k, a, h, hk, ?_, ?_⟩
      · simpa [List.filter_filter, Bool.and_comm] using ha
      · intro hfalse
        exact absurd hfalse (by simp)
    · simp only [Server, hp, if_false]
      exact ⟨(s f).Bookings, [], by simp, List.Sublist.refl _, by simp,
        fun _ => ⟨rfl, rfl⟩⟩
  · intro b
    simp [AddBooking]
  · intro b h
    simp [RemoveBooking, removeFirst_of_none b _ h]
  · intro b i x hi hx hfirst
    simp [RemoveBooking, removeFirst_eq_eraseIdx b _ i x hi hx hfirst]
  · intro b g hg
    simp [AddBooking, RemoveBooking, Function.update_noteq (Ne.symm hg)]

end Task3

/-! ## Bookings that reach a facility have passed both interval checks -/

namespace Task3

/-- On a facility whose stored bookings all carry their compound group, `CheckBooking`
returns a response. -/
theorem CheckBooking_returns (s : Store) (request : Request) (now : Int) (facility : Nat)
    (hptr : ∀ b ∈ (s facility).Bookings, b.RequestsPtr.isSome = true) :
    ∃ resp, CheckBooking s request now facility = some resp := by
  unfold CheckBooking
  split
  · exact ⟨_, rfl⟩
  · split
    · exact ⟨_, rfl⟩
    · split
      · exact ⟨_, rfl⟩
      · split
        · exact ⟨_, rfl⟩
        · split
          · rename_i booking hv
            obtain ⟨i, hi, _, _⟩ := findVictim_some _ _ _ hv
            have := hptr booking (List.getElem?_mem hi)
            split
            · rename_i hg
              rw [hg] at this
              exact absurd this (by simp)
            · exact ⟨_, rfl⟩
          · exact ⟨_, rfl⟩

/-- Every add action of a response of `CheckBooking` is for the candidate, and the
candidate has passed both interval checks. -/
theorem CheckBooking_add_actions (s : Store) (request : Request) (now : Int) (facility : Nat)
    (resp : CheckResponse) (h : CheckBooking s request now facility = some resp) :
    ∀ a ∈ resp.Actions, a.Action = 0 →
      a.Booking = request.Booking ∧ now ≤ request.Booking.StartTime ∧
        request.Booking.StartTime < request.Booking.EndTime := by
  intro a ha ha0
  by_cases h1 : request.Booking.StartTime < now
  · simp only [CheckBooking, h1, if_true, Option.some.injEq] at h
    subst h
    simp at ha
  · by_cases h2 : request.Booking.StartTime ≥ request.Booking.EndTime
    · simp only [CheckBooking, h1, h2, if_true, if_false, Option.some.injEq] at h
      subst h
      simp at ha
    · cases hs : scan request.Booking (s facility).Capacity (s facility).Bookings 0 0 with
      | none =>
        simp only [CheckBooking, h1, h2, hs, if_false, Option.some.injEq] at h
        subst h
        simp at ha
      | some r =>
        obtain ⟨n, v⟩ := r
        by_cases hc : n < (s facility).Capacity
        · simp only [CheckBooking, h1, h2, hs, hc, if_true, if_false, Option.some.injEq] at h
          subst h
          simp only [List.mem_singleton] at ha
          subst ha
          exact ⟨rfl, by omega, by omega⟩
        · cases hv : findVictim request.Booking (s facility).Bookings with
          | none =>
            simp only [CheckBooking, h1, h2, hs, hc, hv, if_false, Option.some.injEq] at h
            subst h
            simp at ha
          | some victim =>
            cases hg : victim.RequestsPtr with
            | none =>
              simp [CheckBooking, h1, h2, hs, hc, hv, hg] at h
            | some group =>
              simp only [CheckBooking, h1, h2, hs, hc, hv, hg, if_false,
                Option.some.injEq] at h
              subst h
              simp only [List.mem_append, List.mem_map, List.mem_singleton] at ha
              rcases ha with ⟨r, _, rfl⟩ | rfl
              · simp at ha0
              · exact ⟨rfl, by omega, by omega⟩

/-- The receiving loop collects only actions of the responses. -/
theorem foldl_addAction_mem :
    ∀ (l acc : List Action) (a : Action), a ∈ l.foldl addAction acc → a ∈ acc ∨ a ∈ l := by
  intro l
  induction l with
  | nil =>
    intro acc a h
    exact Or.inl h
  | cons x l ih =>
    intro acc a h
    rw [List.foldl_cons] at h
    rcases ih _ a h with h2 | h2
    · simp only [addAction] at h2
      split at h2
      · exact Or.inl h2
      · rcases List.mem_append.mp h2 with h3 | h3
        · exact Or.inl h3
        · exact Or.inr (by simpa using Or.inl (List.mem_singleton.mp h3))
    · exact Or.inr (List.mem_cons_of_mem _ h2)

/-- Every collected action is an action of a response that has arrived. -/
theorem aggregate_actions_mem (arrived : List CheckResponse) :
    ∀ a ∈ (aggregate arrived).2, ∃ r ∈ arrived, a ∈ r.Actions := by
  intro a ha
  rw [aggregate, foldl_collect] at ha
  rcases foldl_addAction_mem _ _ a ha with h | h
  · simp at h
  · obtain ⟨r, hr, har⟩ := List.mem_flatMap.mp h
    exact ⟨r, hr, har⟩

/-- After the commit loop a facility holds bookings it held before and bookings of add
actions. -/
theorem foldl_execute_mem (acts : List Action) (s : Store) (f : Nat) :
    ∀ b ∈ ((acts.foldl execute s) f).Bookings,
      b ∈ (s f).Bookings ∨ ∃ a ∈ acts, a.Action = 0 ∧ a.Booking = b := by
  intro b hb
  rw [foldl_execute_at] at hb
  obtain ⟨k, a, h, hk, ha⟩ := foldl_effect_order
    (acts.filter (fun a => decide (a.Facility = f))) (s f) (s f).Bookings [] (by simp)
  rw [h] at hb
  rcases List.mem_append.mp hb with h1 | h1
  · exact Or.inl (hk.subset h1)
  · have := ha.subset h1
    simp only [List.nil_append, List.mem_map, List.mem_filter, decide_eq_true_eq] at this
    obtain ⟨act, ⟨⟨hact, _⟩, h0⟩, rfl⟩ := this
    exact Or.inr ⟨act, hact, h0, rfl⟩

/-- The responses that the server receives, when it receives them all, are the results
of the evaluations. -/
theorem returned_some :
    ∀ (l : List (Option CheckResponse)) (rs : List CheckResponse),
      returned l = some rs → rs.map some = l := by
  intro l
  induction l with
  | nil =>
    intro rs h
    simp only [returned, Option.some.injEq] at h
    subst h
    rfl
  | cons x l ih =>
    intro rs h
    cases x with
    | none => simp [returned] at h
    | some r =>
      simp only [returned, Option.map_eq_some'] at h
      obtain ⟨rs2, h2, rfl⟩ := h
      simp [ih rs2 h2]

/-- When every evaluation returns, the server receives all the responses. -/
theorem returned_of_all :
    ∀ (l : List (Option CheckResponse)), (∀ x ∈ l, ∃ r, x = some r) →
      ∃ rs, returned l = some rs := by
  intro l
  induction l with
  | nil =>
    intro _
    exact ⟨[], rfl⟩
  | cons x l ih =>
    intro h
    obtain ⟨r, rfl⟩ := h x (by simp)
    obtain ⟨rs, hrs⟩ := ih (fun y hy => h y (List.mem_cons_of_mem _ hy))
    exact ⟨r :: rs, by simp [returned, hrs]⟩

/-- An evaluation started for a compound is `CheckBooking` on the copy of one of its
requests. -/
theorem evaluations_mem (s : Store) (requests : Requests) (clock : Nat → Int)
    (x : Option CheckResponse) (hx : x ∈ evaluations s requests clock) :
    ∃ (i : Nat) (r : Request), requests[i]? = some r ∧
      x = CheckBooking s
        ⟨r.Facility, ⟨r.Booking.User, r.Booking.FacilityID, r.Booking.StartTime,
          r.Booking.EndTime, some requests⟩⟩ (clock i) r.Facility := by
  simp only [evaluations, List.mem_map] at hx
  obtain ⟨p, hp, rfl⟩ := hx
  obtain ⟨i, r⟩ := p
  exact ⟨i, r, List.mk_mem_enum_iff_getElem?.mp hp, rfl⟩

end Task3

namespace Task3

/-- One iteration of the server keeps the invariant that every stored booking has a
proper interval and is the copy of a request of one of the compounds, evaluated at a
clock value not after its start; and the iteration returns. -/
theorem ServerIteration_stored
    (all : List (Requests × (Nat → Int) × (List CheckResponse → List CheckResponse)))
    (s : Store) (job : Requests × (Nat → Int) × (List CheckResponse → List CheckResponse))
    (hjob : job ∈ all) (horder : ∀ l, (job.2.2 l).Perm l)
    (hinv : ∀ f, ∀ b ∈ (s f).Bookings, b.StartTime < b.EndTime ∧ EvaluatedIn all b) :
    ∃ r, ServerIteration s job.1 job.2.1 job.2.2 = some r ∧
      ∀ f, ∀ b ∈ (r.1 f).Bookings, b.StartTime < b.EndTime ∧ EvaluatedIn all b := by
  have hptr : ∀ f, ∀ b ∈ (s f).Bookings, b.RequestsPtr.isSome = true := by
    intro f b hb
    obtain ⟨_, _, _, _, _, _, hbeq, _⟩ := hinv f b hb
    rw [hbeq]
    rfl
  obtain ⟨rs, hrs⟩ := returned_of_all (evaluations s job.1 job.2.1) (by
    intro x hx
    obtain ⟨i, r, _, rfl⟩ := evaluations_mem s job.1 job.2.1 x hx
    exact CheckBooking_returns s _ _ _ (hptr r.Facility))
  refine ⟨Server s (job.2.2 rs), by simp [ServerIteration, hrs], ?_⟩
  intro f b hb
  by_cases hp : compound_possible (aggregate (job.2.2 rs)).1 = true
  · simp only [Server, hp, if_true] at hb
    rcases foldl_execute_mem _ s f b hb with h | ⟨a, ha, ha0, rfl⟩
    · exact hinv f b h
    · obtain ⟨resp, hresp, har⟩ := aggregate_actions_mem _ a ha
      have hresp2 : resp ∈ rs := (horder rs).subset hresp
      have hev : some resp ∈ evaluations s job.1 job.2.1 := by
        rw [← returned_some _ _ hrs]
        exact List.mem_map_of_mem some hresp2
      obtain ⟨i, r, hir, heq⟩ := evaluations_mem s job.1 job.2.1 _ hev
      obtain ⟨hab, hnow, hlt⟩ := CheckBooking_add_actions s _ _ _ resp heq.symm a har ha0
      rw [hab]
      exact ⟨hlt, job, hjob, i, r, hir, rfl, hnow⟩
  · simp only [Server, hp, if_false] at hb
    exact hinv f b hb

/-- The server loop keeps the invariant of `ServerIteration_stored`, and it returns. -/
theorem ServerLoop_stored
    (all : List (Requests × (Nat → Int) × (List CheckResponse → List CheckResponse))) :
    ∀ (rest : List (Requests × (Nat → Int) × (List CheckResponse → List CheckResponse)))
      (s : Store),
      (∀ j ∈ rest, j ∈ all) → (∀ j ∈ rest, ∀ l, (j.2.2 l).Perm l) →
      (∀ f, ∀ b ∈ (s f).Bookings, b.StartTime < b.EndTime ∧ EvaluatedIn all b) →
      ∃ final out, ServerLoop s rest = some (final, out) ∧
        ∀ f, ∀ b ∈ (final f).Bookings, b.StartTime < b.EndTime ∧ EvaluatedIn all b := by
  intro rest
  induction rest with
  | nil =>
    intro s _ _ hinv
    exact ⟨s, [], rfl, hinv⟩
  | cons job rest ih =>
    intro s hall horder hinv
    obtain ⟨r, hr, hinv2⟩ := ServerIteration_stored all s job (hall job (by simp))
      (horder job (by simp)) hinv
    obtain ⟨final, out, hloop, hfin⟩ := ih r.1
      (fun j hj => hall j (List.mem_cons_of_mem _ hj))
      (fun j hj => horder j (List.mem_cons_of_mem _ hj)) hinv2
    exact ⟨final, r.2 :: out, by simp [ServerLoop, hr, hloop], hfin⟩

/-- C22: started on facilities without bookings, the server loop returns for any finite
sequence of compounds, whatever clock values the evaluations read and in whatever order
the responses of each compound arrive, and at the end every booking `b` in the sequence
of any facility has `StartTime < EndTime` and is the copy of a request of one of the
compounds whose evaluation read a clock value not after `b.StartTime`. -/
theorem stored_bookings_passed_checks (s0 : Store)
    (jobs : List (Requests × (Nat → Int) × (List CheckResponse → List CheckResponse)))
    (hempty : ∀ f, (s0 f).Bookings = [])
    (horder : ∀ j ∈ jobs, ∀ l, (j.2.2 l).Perm l) :
    ∃ (final : Store) (out : List (List BookingMessage)),
      ServerLoop s0 jobs = some (final, out) ∧
      ∀ f, ∀ b ∈ (final f).Bookings, b.StartTime < b.EndTime ∧ EvaluatedIn jobs b := by
  refine ServerLoop_stored jobs jobs s0 (fun _ h => h) horder ?_
  intro f b hb
  rw [hempty f] at hb
  simp at hb

/-- Witness of C22: on the facilities of `main` with capacity 1 the four compounds of
`variedJobs` are handled: the first and the last are committed, the one with the
interval [20,15) and the one for [1,6), evaluated at clock values 3 and 4, are not.  At
the end the room and the projector hold bookings for [10,15) and [20,25) only. -/
theorem stored_bookings_passed_checks_witness :
    ((∀ f, (mainStore 1 f).Bookings = []) ∧
      (∀ j ∈ variedJobs, ∀ l, (j.2.2 l).Perm l)) ∧
    ((ServerLoop (mainStore 1) variedJobs).map (fun r =>
        ((r.1 0).Bookings.map (fun b => (b.User.Id, b.StartTime, b.EndTime)),
          (r.1 1).Bookings.map (fun b => (b.User.Id, b.StartTime, b.EndTime))))
      = some ([(2, 10, 15), (4, 20, 25)], [(1, 10, 15), (4, 20, 25)])) ∧
    (∃ (final : Store) (out : List (List BookingMessage)),
      ServerLoop (mainStore 1) variedJobs = some (final, out) ∧
      ∀ f, ∀ b ∈ (final f).Bookings,
        b.StartTime < b.EndTime ∧ EvaluatedIn variedJobs b) :=
  have hempty : ∀ f, (mainStore 1 f).Bookings = [] := by
    intro f
    unfold mainStore
    split <;> rfl
  have horder : ∀ j ∈ variedJobs, ∀ l, (j.2.2 l).Perm l := by
    intro j hj l
    simp only [variedJobs, List.mem_cons, List.mem_singleton, List.not_mem_nil,
      or_false] at hj
    rcases hj with rfl | rfl | rfl | rfl <;> exact List.reverse_perm l
  ⟨⟨hempty, horder⟩, by decide,
    stored_bookings_passed_checks (mainStore 1) variedJobs hempty horder⟩

end Task3

/-! ## Eviction of a compound group -/

namespace Task3

/-- C24: whenever task 3 `CheckBooking` preempts, the victim is a booking of the facility
that passes the test of the second loop, and for the group that its `RequestsPtr` points
to the response lists, in the order of the group, one remove action per sub-booking of
the group, each for the sibling's booking and targeting the sibling's facility, and then
the add action of the candidate to this facility; and it lists, in the same order, one
Cancelled message per sub-booking of the group and then the Accepted message of the
candidate. -/
theorem CheckBooking_evicts_group (s : Store) (request : Request) (now : Int)
    (facility : Nat) (resp : CheckResponse)
    (h : CheckBooking s request now facility = some resp)
    (hmsg : ∃ m ∈ resp.BookingMessages,
      m.Message = "Facilities were booked, you have overwritten a non-VIP booking.") :
    ∃ (victim : Booking) (group : Requests),
      victim ∈ (s facility).Bookings ∧ evictable request.Booking victim = true ∧
      victim.RequestsPtr = some group ∧
      resp.Actions.length = group.length + 1 ∧
      resp.BookingMessages.length = group.length + 1 ∧
      (∀ (i : Nat) (sibling : Request), group[i]? = some sibling →
        resp.Actions[i]? = some ⟨1, sibling.Booking, sibling.Facility⟩ ∧
        resp.BookingMessages[i]?
          = some ⟨sibling.Booking, 2, "A VIP-User has overwritten your booking."⟩) ∧
      resp.Actions[group.length]? = some ⟨0, request.Booking, facility⟩ ∧
      resp.BookingMessages[group.length]?
        = some ⟨request.Booking, 0,
            "Facilities were booked, you have overwritten a non-VIP booking."⟩ := by
  obtain ⟨victim, group, hv, hg, hresp, _, _⟩ :=
    CheckBooking_overwrite s request now facility resp h hmsg
  obtain ⟨i, hi, hev, _⟩ := findVictim_some _ _ _ hv
  refine ⟨victim, group, List.getElem?_mem hi, hev, hg, ?_⟩
  subst hresp
  refine ⟨by simp, by simp, ?_, by simp [List.getElem?_append_right],
    by simp [List.getElem?_append_right]⟩
  intro k sibling hk
  have hlt : k < group.length := (List.getElem?_eq_some_iff.mp hk).1
  constructor
  · rw [List.getElem?_append_left (by simpa using hlt), List.getElem?_map, hk]
    rfl
  · rw [List.getElem?_append_left (by simpa using hlt), List.getElem?_map, hk]
    rfl

/-- Witness of C24: on `unevenPairStore` the room (capacity 1) holds the booking of
standard user 1, whose compound group is the room and the projector.  The response to
VIP user 3's request for the room removes and cancels the room booking at the room and
the projector booking at the projector, then adds and accepts the candidate. -/
theorem CheckBooking_evicts_group_witness :
    (CheckBooking unevenPairStore vipRoomRequest 0 0 = some vipRoomResponse ∧
      vipRoomResponse.Actions.map (fun a => (a.Action, a.Booking.User.Id, a.Facility))
        = [(1, 1, 0), (1, 1, 1), (0, 3, 0)]) ∧
    ∃ (victim : Booking) (group : Requests),
      victim ∈ (unevenPairStore 0).Bookings ∧
      evictable vipRoomRequest.Booking victim = true ∧
      victim.RequestsPtr = some group ∧
      vipRoomResponse.Actions.length = group.length + 1 ∧
      vipRoomResponse.BookingMessages.length = group.length + 1 ∧
      (∀ (i : Nat) (sibling : Request), group[i]? = some sibling →
        vipRoomResponse.Actions[i]? = some ⟨1, sibling.Booking, sibling.Facility⟩ ∧
        vipRoomResponse.BookingMessages[i]?
          = some ⟨sibling.Booking, 2, "A VIP-User has overwritten your booking."⟩) ∧
      vipRoomResponse.Actions[group.length]? = some ⟨0, vipRoomRequest.Booking, 0⟩ ∧
      vipRoomResponse.BookingMessages[group.length]?
        = some ⟨vipRoomRequest.Booking, 0,
            "Facilities were booked, you have overwritten a non-VIP booking."⟩ :=
  ⟨⟨rfl, by decide⟩,
    CheckBooking_evicts_group unevenPairStore vipRoomRequest 0 0 vipRoomResponse rfl
      ⟨⟨vipRoomRequest.Booking, 0,
        "Facilities were booked, you have overwritten a non-VIP booking."⟩,
        by simp [vipRoomResponse], rfl⟩⟩

end Task3

/-! ## The overlap test against true overlap -/

/-- C26: for proper intervals `[a1,a2)` and `[b1,b2)`, whenever `CheckTimeslotOverlap`
answers true the two intervals share an instant; and it answers false although they
share an instant exactly when the first interval strictly contains the second on both
sides, `a1 < b1` and `b2 < a2`. -/
theorem CheckTimeslotOverlap_false_negatives (a1 a2 b1 b2 : Int) (ha : a1 < a2)
    (hb : b1 < b2) :
    (CheckTimeslotOverlap a1 a2 b1 b2 = true →
      ∃ t : Int, (a1 ≤ t ∧ t < a2) ∧ (b1 ≤ t ∧ t < b2)) ∧
    ((CheckTimeslotOverlap a1 a2 b1 b2 = false ∧
        ∃ t : Int, (a1 ≤ t ∧ t < a2) ∧ (b1 ≤ t ∧ t < b2)) ↔
      (a1 < b1 ∧ b2 < a2)) := by
  constructor
  · intro h
    simp only [CheckTimeslotOverlap, Bool.or_eq_true, Bool.and_eq_true,
      decide_eq_true_eq] at h
    rcases h with h | h
    · exact ⟨a1, ⟨le_refl _, ha⟩, by omega, by omega⟩
    · exact ⟨max a1 b1, ⟨by omega, by omega⟩, by omega, by omega⟩
  · constructor
    · rintro ⟨h, t, ⟨h1, h2⟩, h3, h4⟩
      have hnot : ¬ CheckTimeslotOverlap a1 a2 b1 b2 = true := by simp [h]
      simp only [CheckTimeslotOverlap, Bool.or_eq_true, Bool.and_eq_true,
        decide_eq_true_eq, not_or, not_and] at hnot
      omega
    · rintro ⟨h1, h2⟩
      refine ⟨?_, b1, ⟨by omega, by omega⟩, le_refl _, hb⟩
      have g1 : ¬ a1 ≥ b1 := by omega
      have g2 : ¬ a2 ≤ b2 := by omega
      simp [CheckTimeslotOverlap, g1, g2]

/-- Witness of C26: the candidate interval [10,20) against the booking [12,15), which it
contains strictly on both sides: the test answers false although both hold the
instant 12. -/
theorem CheckTimeslotOverlap_false_negatives_witness :
    ((10 : Int) < 20 ∧ (12 : Int) < 15) ∧
    CheckTimeslotOverlap 10 20 12 15 = false ∧
    (CheckTimeslotOverlap 10 20 12 15 = true →
      ∃ t : Int, ((10 : Int) ≤ t ∧ t < 20) ∧ ((12 : Int) ≤ t ∧ t < 15)) ∧
    ((CheckTimeslotOverlap 10 20 12 15 = false ∧
        ∃ t : Int, ((10 : Int) ≤ t ∧ t < 20) ∧ ((12 : Int) ≤ t ∧ t < 15)) ↔
      ((10 : Int) < 12 ∧ (15 : Int) < 20)) :=
  ⟨⟨by decide, by decide⟩, by decide,
    CheckTimeslotOverlap_false_negatives 10 20 12 15 (by decide) (by decide)⟩

/-! ## The last branch of `CheckBooking` -/

namespace Task3

/-- When the counting loop runs to its end and the second loop finds no victim, the two
counters have grown by the same amount, and over a sequence that is not empty
`num_reserved_vip` ends below the capacity. -/
theorem scan_without_victim (c : Booking) (cap : Int) :
    ∀ (bs : List Booking) (n v : Int) (r : Int × Int),
      scan c cap bs n v = some r → findVictim c bs = none →
        r.1 - r.2 = n - v ∧ (bs ≠ [] → r.2 < cap) := by
  intro bs
  induction bs with
  | nil =>
    intro n v r h _
    simp only [scan, Option.some.injEq] at h
    subst h
    exact ⟨rfl, fun h => absurd rfl h⟩
  | cons b bs ih =>
    intro n v r h hv
    rw [scan] at h
    obtain ⟨hC, hx⟩ := ite_none_eq_some h
    simp only [findVictim] at hv
    by_cases hb : evictable c b = true
    · rw [if_pos hb] at hv
      exact absurd hv (by simp)
    · rw [if_neg hb] at hv
      obtain ⟨hdiff, hlast⟩ := ih _ _ r hx hv
      simp only [Bool.or_eq_true, decide_eq_true_eq, not_or, not_le] at hC
      have hvlt := hC.2
      simp only [evictable, Bool.and_eq_true, Bool.not_eq_true', not_and,
        Bool.not_eq_false] at hb
      constructor
      · rw [hdiff]
        by_cases ho : CheckTimeslotOverlap c.StartTime c.EndTime b.StartTime b.EndTime = true
        · simp [ho, hb ho]
        · simp [ho]
      · intro _
        cases bs with
        | nil =>
          simp only [scan, Option.some.injEq] at hx
          subst hx
          simpa using hvlt
        | cons b2 bs2 => exact hlast (by simp)

/-- The last branch of task 3 `CheckBooking` is reached only at a facility without
bookings whose capacity is not positive. -/
theorem CheckBooking_last_branch (s : Store) (request : Request) (facility : Nat)
    (n v : Int)
    (hs : scan request.Booking (s facility).Capacity (s facility).Bookings 0 0 = some (n, v))
    (hc : ¬ n < (s facility).Capacity)
    (hv : findVictim request.Booking (s facility).Bookings = none) :
    (s facility).Capacity ≤ 0 ∧ (s facility).Bookings = [] := by
  obtain ⟨hdiff, hlast⟩ := scan_without_victim _ _ _ _ _ _ hs hv
  simp only at hdiff hlast
  cases hbs : (s facility).Bookings with
  | nil =>
    rw [hbs] at hs
    simp only [scan, Option.some.injEq, Prod.mk.injEq] at hs
    exact ⟨by omega, rfl⟩
  | cons b bs =>
    have := hlast (by rw [hbs]; simp)
    omega

end Task3

namespace Task2

/-- Task 2 form of the relation between the counting loop and a second loop that finds
no victim. -/
theorem task2_scan_without_victim (c : Booking) (cap : Int) :
    ∀ (bs : List Booking) (n v : Int) (i : Nat) (r : Int × Int),
      scan c cap bs n v = some r → findVictim c bs i = none →
        r.1 - r.2 = n - v ∧ (bs ≠ [] → r.2 < cap) := by
  intro bs
  induction bs with
  | nil =>
    intro n v i r h _
    simp only [scan, Option.some.injEq] at h
    subst h
    exact ⟨rfl, fun h => absurd rfl h⟩
  | cons b bs ih =>
    intro n v i r h hv
    rw [scan] at h
    obtain ⟨hC, hx⟩ := Task3.ite_none_eq_some h
    simp only [findVictim] at hv
    by_cases hb : evictable c b = true
    · rw [if_pos hb] at hv
      exact absurd hv (by simp)
    · rw [if_neg hb] at hv
      obtain ⟨hdiff, hlast⟩ := ih _ _ _ r hx hv
      simp only [Bool.or_eq_true, decide_eq_true_eq, not_or, not_le] at hC
      have hvlt := hC.2
      simp only [evictable, Bool.and_eq_true, Bool.not_eq_true', not_and,
        Bool.not_eq_false] at hb
      constructor
      · rw [hdiff]
        by_cases ho : CheckTimeslotOverlap c.StartTime c.EndTime b.StartTime b.EndTime = true
        · simp [ho, hb ho]
        · simp [ho]
      · intro _
        cases bs with
        | nil =>
          simp only [scan, Option.some.injEq] at hx
          subst hx
          simpa using hvlt
        | cons b2 bs2 => exact hlast (by simp)

/-- The last branch of task 2 `CheckBooking` is reached only at a facility without
bookings whose capacity is not positive. -/
theorem task2_CheckBooking_last_branch (request : Request) (facility : Facility)
    (n v : Int)
    (hs : scan request.Booking facility.Capacity facility.Bookings 0 0 = some (n, v))
    (hc : ¬ n < facility.Capacity)
    (hv : findVictim request.Booking facility.Bookings 0 = none) :
    facility.Capacity ≤ 0 ∧ facility.Bookings = [] := by
  obtain ⟨hdiff, hlast⟩ := task2_scan_without_victim _ _ _ _ _ _ _ hs hv
  simp only at hdiff hlast
  cases hbs : facility.Bookings with
  | nil =>
    rw [hbs] at hs
    simp only [scan, Option.some.injEq, Prod.mk.injEq] at hs
    exact ⟨by omega, rfl⟩
  | cons b bs =>
    have := hlast (by rw [hbs]; simp)
    omega

end Task2

namespace Task3

/-- A response of task 3 `CheckBooking` that carries the text "Facility not found." comes
from a facility without bookings whose capacity is not positive. -/
theorem CheckBooking_not_found (s : Store) (request : Request) (now : Int) (facility : Nat)
    (resp : CheckResponse) (h : CheckBooking s request now facility = some resp)
    (hmsg : ∃ m ∈ resp.BookingMessages, m.Message = "Facility not found.") :
    (s facility).Capacity ≤ 0 ∧ (s facility).Bookings = [] := by
  obtain ⟨m, hm, htext⟩ := hmsg
  by_cases h1 : request.Booking.StartTime < now
  · simp only [CheckBooking, h1, if_true, Option.some.injEq] at h
    subst h
    simp at hm
    rw [hm] at htext
    simp at htext
  · by_cases h2 : request.Booking.StartTime ≥ request.Booking.EndTime
    · simp only [CheckBooking, h1, h2, if_true, if_false, Option.some.injEq] at h
      subst h
      simp at hm
      rw [hm] at htext
      simp at htext
    · cases hs : scan request.Booking (s facility).Capacity (s facility).Bookings 0 0 with
      | none =>
        simp only [CheckBooking, h1, h2, hs, if_false, Option.some.injEq] at h
        subst h
        simp at hm
        rw [hm] at htext
        simp at htext
      | some r =>
        obtain ⟨n, v⟩ := r
        by_cases hc : n < (s facility).Capacity
        · simp only [CheckBooking, h1, h2, hs, hc, if_true, if_false, Option.some.injEq] at h
          subst h
          simp at hm
          rw [hm] at htext
          simp at htext
        · cases hv : findVictim request.Booking (s facility).Bookings with
          | none => exact CheckBooking_last_branch s request facility n v hs hc hv
          | some victim =>
            cases hg : victim.RequestsPtr with
            | none =>
              simp [CheckBooking, h1, h2, hs, hc, hv, hg] at h
            | some group =>
              simp only [CheckBooking, h1, h2, hs, hc, hv, hg, if_false,
                Option.some.injEq] at h
              subst h
              simp only [List.mem_append, List.mem_map, List.mem_singleton] at hm
              rcases hm with ⟨r, _, rfl⟩ | rfl
              · simp at htext
              · simp at htext

end Task3

namespace Task2

/-- Messages of task 2 `CheckBooking` that carry the text "Facility not found." come from
a facility without bookings whose capacity is not positive. -/
theorem task2_CheckBooking_not_found (request : Request) (now : Int) (facility : Facility)
    (hmsg : ∃ m ∈ (CheckBooking request now facility).1, m.Message = "Facility not found.") :
    facility.Capacity ≤ 0 ∧ facility.Bookings = [] := by
  obtain ⟨m, hm, htext⟩ := hmsg
  by_cases h1 : request.Booking.StartTime < now
  · simp only [CheckBooking, h1, if_true] at hm
    simp at hm
    rw [hm] at htext
    simp at htext
  · by_cases h2 : request.Booking.StartTime ≥ request.Booking.EndTime
    · simp only [CheckBooking, h1, h2, if_true, if_false] at hm
      simp at hm
      rw [hm] at htext
      simp at htext
    · cases hs : scan request.Booking facility.Capacity facility.Bookings 0 0 with
      | none =>
        simp only [CheckBooking, h1, h2, hs, if_false] at hm
        simp at hm
        rw [hm] at htext
        simp at htext
      | some r =>
        obtain ⟨n, v⟩ := r
        by_cases hc : n < facility.Capacity
        · simp only [CheckBooking, h1, h2, hs, hc, if_true, if_false] at hm
          simp at hm
          rw [hm] at htext
          simp at htext
        · cases hv : findVictim request.Booking facility.Bookings 0 with
          | none => exact task2_CheckBooking_last_branch request facility n v hs hc hv
          | some p =>
            obtain ⟨i, victim⟩ := p
            simp only [CheckBooking, h1, h2, hs, hc, hv, if_false] at hm
            simp only [List.mem_cons, List.mem_singleton, List.not_mem_nil, or_false] at hm
            rcases hm with rfl | rfl
            · simp at htext
            · simp at htext

end Task2

/-- C27: for candidates with `now ≤ StartTime < EndTime`, `CheckBooking` of task 3 and
of task 2 answers with the rejection "Facility not found." if and only if the facility's
`Capacity` is at most 0 and it holds no booking.  With `Capacity ≥ 1` no message of the
response carries that text, and a counting loop that ends with `num_reserved` at or above
the capacity is followed by a second loop that finds a booking of the facility that
overlaps the candidate, by `CheckTimeslotOverlap`, and is not VIP-owned. -/
theorem CheckBooking_facility_not_found (s : Task3.Store) (request : Task3.Request)
    (now : Int) (facility : Nat) (request2 : Task2.Request) (now2 : Int)
    (facility2 : Task2.Facility)
    (hnow : now ≤ request.Booking.StartTime)
    (hlt : request.Booking.StartTime < request.Booking.EndTime)
    (hnow2 : now2 ≤ request2.Booking.StartTime)
    (hlt2 : request2.Booking.StartTime < request2.Booking.EndTime) :
    ((Task3.CheckBooking s request now facility
          = some ⟨[], [⟨request.Booking, 1, "Facility not found."⟩]⟩ ↔
        (s facility).Capacity ≤ 0 ∧ (s facility).Bookings = []) ∧
      (1 ≤ (s facility).Capacity →
        (∀ resp, Task3.CheckBooking s request now facility = some resp →
          ∀ m ∈ resp.BookingMessages, m.Message ≠ "Facility not found.") ∧
        (∀ n v : Int,
          Task3.scan request.Booking (s facility).Capacity (s facility).Bookings 0 0
            = some (n, v) →
          (s facility).Capacity ≤ n →
          ∃ victim, Task3.findVictim request.Booking (s facility).Bookings = some victim ∧
            victim ∈ (s facility).Bookings ∧
            Task3.evictable request.Booking victim = true))) ∧
    (((Task2.CheckBooking request2 now2 facility2).1
          = [⟨request2.Booking, 1, "Facility not found."⟩] ↔
        facility2.Capacity ≤ 0 ∧ facility2.Bookings = []) ∧
      (1 ≤ facility2.Capacity →
        (∀ m ∈ (Task2.CheckBooking request2 now2 facility2).1,
          m.Message ≠ "Facility not found.") ∧
        (∀ n v : Int,
          Task2.scan request2.Booking facility2.Capacity facility2.Bookings 0 0
            = some (n, v) →
          facility2.Capacity ≤ n →
          ∃ (i : Nat) (victim : Task2.Booking),
            Task2.findVictim request2.Booking facility2.Bookings 0 = some (i, victim) ∧
            facility2.Bookings[i]? = some victim ∧
            Task2.evictable request2.Booking victim = true))) := by
  have h1 : ¬ request.Booking.StartTime < now := by omega
  have h2 : ¬ request.Booking.StartTime ≥ request.Booking.EndTime := by omega
  have g1 : ¬ request2.Booking.StartTime < now2 := by omega
  have g2 : ¬ request2.Booking.StartTime ≥ request2.Booking.EndTime := by omega
  refine ⟨⟨⟨?_, ?_⟩, ?_⟩, ⟨⟨?_, ?_⟩, ?_⟩⟩
  · intro h
    exact Task3.CheckBooking_not_found s request now facility _ h
      ⟨⟨request.Booking, 1, "Facility not found."⟩, by simp, rfl⟩
  · rintro ⟨hcap, hbs⟩
    have hc : ¬ (0 : Int) < (s facility).Capacity := by omega
    simp [Task3.CheckBooking, h1, h2, hbs, Task3.scan, Task3.findVictim, hc]
  · intro hcap
    constructor
    · intro resp hresp m hm htext
      have := (Task3.CheckBooking_not_found s request now facility resp hresp
        ⟨m, hm, htext⟩).1
      omega
    · intro n v hs hn
      cases hv : Task3.findVictim request.Booking (s facility).Bookings with
      | none =>
        have := (Task3.CheckBooking_last_branch s request facility n v hs (by omega) hv).1
        omega
      | some victim =>
        obtain ⟨i, hi, hev, _⟩ := Task3.findVictim_some _ _ _ hv
        exact ⟨victim, rfl, List.getElem?_mem hi, hev⟩
  · intro h
    exact Task2.task2_CheckBooking_not_found request2 now2 facility2
      ⟨⟨request2.Booking, 1, "Facility not found."⟩, by rw [h]; simp, rfl⟩
  · rintro ⟨hcap, hbs⟩
    have hc : ¬ (0 : Int) < facility2.Capacity := by omega
    simp [Task2.CheckBooking, g1, g2, hbs, Task2.scan, Task2.findVictim, hc]
  · intro hcap
    constructor
    · intro m hm htext
      have := (Task2.task2_CheckBooking_not_found request2 now2 facility2 ⟨m, hm, htext⟩).1
      omega
    · intro n v hs hn
      cases hv : Task2.findVictim request2.Booking facility2.Bookings 0 with
      | none =>
        have := (Task2.task2_CheckBooking_last_branch request2 facility2 n v hs
          (by omega) hv).1
        omega
      | some p =>
        obtain ⟨i, victim⟩ := p
        obtain ⟨d, hd, hi, hev, _⟩ := Task2.findVictimIdx_some _ _ _ _ _ hv
        have hid : i = d := by omega
        subst hid
        exact ⟨i, victim, rfl, hi, hev⟩

/-- Witness of C27: at clock value 0 standard user 2 asks for the room of `main` for
[10,15), in task 3 on the facilities with capacity 0 and in task 2 on a room with
capacity 0, both without bookings: the answer is "Facility not found." in both. -/
theorem CheckBooking_facility_not_found_witness :
    (((0 : Int) ≤ Task3.standardRoomRequest.Booking.StartTime ∧
        Task3.standardRoomRequest.Booking.StartTime
          < Task3.standardRoomRequest.Booking.EndTime) ∧
      ((0 : Int) ≤ (10 : Int) ∧ (10 : Int) < 15)) ∧
    (Task3.CheckBooking Task3.closedStore Task3.standardRoomRequest 0 0
        = some ⟨[], [⟨Task3.standardRoomRequest.Booking, 1, "Facility not found."⟩]⟩ ∧
      (Task2.CheckBooking ⟨"room", ⟨⟨2, false⟩, "room", 10, 15⟩⟩ 0 Task2.closedRoom).1
        = [⟨⟨⟨2, false⟩, "room", 10, 15⟩, 1, "Facility not found."⟩]) :=
  have h := CheckBooking_facility_not_found Task3.closedStore Task3.standardRoomRequest 0 0
    ⟨"room", ⟨⟨2, false⟩, "room", 10, 15⟩⟩ 0 Task2.closedRoom (by decide) (by decide)
    (by decide) (by decide)
  ⟨⟨⟨by decide, by decide⟩, by decide, by decide⟩,
    h.1.1.mpr ⟨by decide, rfl⟩, h.2.1.mpr ⟨by decide, rfl⟩⟩

/-! ## Arrival order of the responses -/

namespace Task3

/-- C28 (failing input): on `mixedStore` (room of capacity 1 held by standard user 2,
projector of capacity 1 held by VIP user 1, both bookings of one compound) the server
handles `laterCompound`, whose two requests are for the two different facilities, with
every evaluation reading the clock value 0.  The two responses are the same in both
runs.  When the room's response arrives first the compound is committed, the room ends
with user 3's booking and the projector with none, and three messages are sent; when the
projector's response arrives first the compound is discarded, both facilities stay as
they were, and two messages are sent. -/
theorem Server_depends_on_arrival_order :
    ((arrivedInRequestOrder mixedStore laterCompound (fun _ => 0)).map some
        = evaluations mixedStore laterCompound (fun _ => 0) ∧
      (arrivedInRequestOrder mixedStore laterCompound (fun _ => 0)).reverse.Perm
        (arrivedInRequestOrder mixedStore laterCompound (fun _ => 0)) ∧
      laterCompound.map (fun r => r.Facility) = [0, 1]) ∧
    (compound_possible
        (aggregate (arrivedInRequestOrder mixedStore laterCompound (fun _ => 0))).1,
      compound_possible
        (aggregate (arrivedInRequestOrder mixedStore laterCompound (fun _ => 0)).reverse).1)
      = (true, false) ∧
    ((((Server mixedStore (arrivedInRequestOrder mixedStore laterCompound (fun _ => 0))).1
          0).Bookings.map (fun b => b.User.Id),
        ((Server mixedStore (arrivedInRequestOrder mixedStore laterCompound (fun _ => 0))).1
          1).Bookings.map (fun b => b.User.Id)),
      (((Server mixedStore
            (arrivedInRequestOrder mixedStore laterCompound (fun _ => 0)).reverse).1
          0).Bookings.map (fun b => b.User.Id),
        ((Server mixedStore
            (arrivedInRequestOrder mixedStore laterCompound (fun _ => 0)).reverse).1
          1).Bookings.map (fun b => b.User.Id)))
      = (([3], []), ([2], [1])) ∧
    ((Server mixedStore (arrivedInRequestOrder mixedStore laterCompound (fun _ => 0))).2.map
        (fun m => (m.Booking.User.Id, m.Booking.FacilityID, m.Action)),
      (Server mixedStore
          (arrivedInRequestOrder mixedStore laterCompound (fun _ => 0)).reverse).2.map
        (fun m => (m.Booking.User.Id, m.Booking.FacilityID, m.Action)))
      = ([(2, "room", 2), (1, "projector", 2), (3, "room", 0)],
          [(1, "projector", 1), (3, "room", 1)]) :=
  ⟨⟨rfl, List.reverse_perm _, rfl⟩, by decide, by decide, by decide⟩

end Task3

/-! ## The server handles one compound at a time -/

namespace Task3

/-- A list is its element at an index followed by the rest, up to order. -/
theorem perm_cons_eraseIdx {α : Type} :
    ∀ (l : List α) (k : Nat) (x : α), l[k]? = some x → (x :: l.eraseIdx k).Perm l := by
  intro l
  induction l with
  | nil =>
    intro k x h
    simp at h
  | cons a l ih =>
    intro k x h
    cases k with
    | zero =>
      simp at h
      subst h
      simp
    | succ n =>
      simp only [List.eraseIdx_cons_succ]
      exact (List.Perm.swap a x _).trans (List.Perm.cons a (ih n x (by simpa using h)))

/-- Replacing an element by one with the same image does not change the image of the
list. -/
theorem map_set_same {α β : Type} (g : α → β) :
    ∀ (l : List α) (k : Nat) (x y : α), l[k]? = some x → g y = g x →
      (l.set k y).map g = l.map g := by
  intro l
  induction l with
  | nil =>
    intro k x y h
    simp at h
  | cons a l ih =>
    intro k x y h hg
    cases k with
    | zero =>
      simp at h
      subst h
      simp [hg]
    | succ n =>
      simp only [List.set_cons_succ, List.map_cons]
      rw [ih n x y (by simpa using h) hg]

/-- The messages of a discarded compound, piece by piece. -/
theorem failureMessages_append (a b : List BookingMessage) :
    failureMessages (a ++ b) = failureMessages a ++ failureMessages b := by
  simp [failureMessages]

/-- One more compound handled at the end of a serial history. -/
theorem Serial_snoc :
    ∀ (history : List (Requests × (Nat → Int) × List CheckResponse)) (s st : Store)
      (sent : List BookingMessage) (job : Requests × (Nat → Int) × List CheckResponse),
      Serial s history st sent →
      (job.2.2.map some).Perm (evaluations st job.1 job.2.1) →
      Serial s (history ++ [job]) (Server st job.2.2).1 (sent ++ (Server st job.2.2).2) := by
  intro history
  induction history with
  | nil =>
    intro s st sent job h hperm
    simp only [Serial] at h
    obtain ⟨rfl, rfl⟩ := h
    exact ⟨hperm, [], ⟨rfl, rfl⟩, by simp⟩
  | cons j history ih =>
    intro s st sent job h hperm
    simp only [Serial] at h
    obtain ⟨hj, sent2, hrest, rfl⟩ := h
    exact ⟨hj, sent2 ++ (Server st job.2.2).2, ih _ st sent2 job hrest hperm,
      by simp [List.append_assoc]⟩

/-- The interval checks, in every outcome, leave the goroutine where an evaluation of
its request can be. -/
theorem Tracks_afterClock (st : Store) (request : Request) (now : Int) :
    (afterClock request now).request = request ∧ Tracks st (afterClock request now) := by
  unfold afterClock
  by_cases h1 : request.Booking.StartTime < now
  · rw [if_pos h1]
    exact ⟨rfl, now, by simp [CheckBooking, h1]⟩
  · by_cases h2 : request.Booking.StartTime ≥ request.Booking.EndTime
    · rw [if_neg h1, if_pos h2]
      exact ⟨rfl, now, by simp [CheckBooking, h1, h2]⟩
    · rw [if_neg h1, if_neg h2]
      exact ⟨rfl, now, h1, h2⟩

/-- The first loop on the store `st`, in every outcome, leaves the goroutine where an
evaluation of its request on `st` can be. -/
theorem Tracks_afterCount (st : Store) (request : Request)
    (h : Tracks st ⟨request, .firstLoop⟩) :
    (afterCount st request).request = request ∧ Tracks st (afterCount st request) := by
  obtain ⟨now, h1, h2⟩ := h
  simp only at h1 h2
  unfold afterCount
  cases hs : scan request.Booking (st request.Facility).Capacity
      (st request.Facility).Bookings 0 0 with
  | none => exact ⟨rfl, now, by simp [CheckBooking, h1, h2, hs]⟩
  | some r =>
    obtain ⟨n, v⟩ := r
    by_cases hc : n < (st request.Facility).Capacity
    · simp only []
      rw [if_pos hc]
      exact ⟨rfl, now, by simp [CheckBooking, h1, h2, hs, hc]⟩
    · simp only []
      rw [if_neg hc]
      exact ⟨rfl, now, h1, h2, n, v, hs, hc⟩

/-- The second loop on the store `st`, in every outcome, leaves the goroutine where an
evaluation of its request on `st` can be. -/
theorem Tracks_afterChoice (st : Store) (request : Request)
    (h : Tracks st ⟨request, .secondLoop⟩) :
    (afterChoice st request).request = request ∧ Tracks st (afterChoice st request) := by
  obtain ⟨now, h1, h2, n, v, hs, hc⟩ := h
  simp only at h1 h2 hs hc
  unfold afterChoice
  cases hv : findVictim request.Booking (st request.Facility).Bookings with
  | none => exact ⟨rfl, now, by simp [CheckBooking, h1, h2, hs, hc, hv]⟩
  | some victim =>
    simp only []
    cases hg : victim.RequestsPtr with
    | none => exact ⟨rfl, trivial⟩
    | some group => exact ⟨rfl, now, by simp [CheckBooking, h1, h2, hs, hc, hv, hg]⟩

end Task3

namespace Task3

/-- A step of a running goroutine that keeps its request and leaves it where an
evaluation can be keeps the evaluations of the compound in order. -/
theorem Evaluating_set (st : Store) (requests remaining : Requests)
    (evaluators : List Evaluator) (got : List (Request × CheckResponse)) (k : Nat)
    (e e2 : Evaluator) (h : Evaluating st requests remaining evaluators got)
    (hk : evaluators[k]? = some e) (hreq : e2.request = e.request)
    (htr : Tracks st e → Tracks st e2) :
    Evaluating st requests remaining (evaluators.set k e2) got := by
  obtain ⟨hperm, htracks, hgot⟩ := h
  refine ⟨?_, ?_, hgot⟩
  · rw [map_set_same (fun e => e.request) evaluators k e e2 hk hreq]
    exact hperm
  · intro x hx
    rcases List.mem_or_eq_of_mem_set hx with h1 | rfl
    · exact htracks x h1
    · exact htr (htracks e (List.getElem?_mem hk))

/-- Starting the goroutine of the next request keeps the evaluations in order. -/
theorem Evaluating_launch (st : Store) (requests remaining : Requests) (request : Request)
    (evaluators : List Evaluator)
    (h : Evaluating st requests (request :: remaining) evaluators []) :
    Evaluating st requests remaining (evaluators ++ [⟨prepare requests request, .entry⟩]) [] := by
  obtain ⟨hperm, htracks, hgot⟩ := h
  refine ⟨?_, ?_, hgot⟩
  · simpa [List.append_assoc] using hperm
  · intro x hx
    rcases List.mem_append.mp hx with h1 | h1
    · exact htracks x h1
    · rw [List.mem_singleton.mp h1]
      trivial

/-- A goroutine at its send hands its response to the server and returns. -/
theorem Evaluating_hand (st : Store) (requests : Requests) (evaluators : List Evaluator)
    (got : List (Request × CheckResponse)) (k : Nat) (q : Request) (response : CheckResponse)
    (h : Evaluating st requests [] evaluators got)
    (hk : evaluators[k]? = some ⟨q, .sending response⟩) :
    Evaluating st requests [] (evaluators.eraseIdx k) (got ++ [(q, response)]) := by
  obtain ⟨hperm, htracks, hgot⟩ := h
  refine ⟨?_, ?_, ?_⟩
  · have hq : (evaluators.map (fun e => e.request))[k]? = some q := by
      rw [List.getElem?_map, hk]
      rfl
    have h1 := perm_cons_eraseIdx _ k q hq
    rw [← eraseIdx_map_comm] at h1
    refine List.Perm.trans ?_ hperm
    simp only [List.map_append, List.map_cons, List.map_nil, List.append_nil,
      List.append_assoc, List.singleton_append]
    exact List.Perm.append_left _ h1
  · intro x hx
    exact htracks x (List.mem_of_mem_eraseIdx hx)
  · intro p hp
    rcases List.mem_append.mp hp with h1 | h1
    · exact hgot p h1
    · rw [List.mem_singleton.mp h1]
      exact htracks _ (List.getElem?_mem hk)

/-- When the server has received as many responses as the compound has requests, no
goroutine is running and the responses received are those of all the requests. -/
theorem Evaluating_done (st : Store) (requests : Requests) (evaluators : List Evaluator)
    (got : List (Request × CheckResponse))
    (h : Evaluating st requests [] evaluators got)
    (hlen : ¬ got.length < requests.length) :
    evaluators = [] ∧ (got.map (fun p => p.1)).Perm (requests.map (prepare requests)) := by
  obtain ⟨hperm, _, _⟩ := h
  have hl := hperm.length_eq
  simp only [List.map_nil, List.append_nil, List.length_append, List.length_map] at hl
  have he : evaluators = [] := List.eq_nil_of_length_eq_zero (by omega)
  subst he
  exact ⟨rfl, by simpa using hperm⟩

/-- The number of responses still to come is the number of goroutines running. -/
theorem Evaluating_length (st : Store) (requests : Requests) (evaluators : List Evaluator)
    (got : List (Request × CheckResponse))
    (h : Evaluating st requests [] evaluators got) :
    got.length + evaluators.length = requests.length := by
  obtain ⟨hperm, _, _⟩ := h
  have hl := hperm.length_eq
  simp only [List.map_nil, List.append_nil, List.length_append, List.length_map] at hl
  exact hl

/-- Responses of `CheckBooking` for a list of requests, each at some clock value, are
the responses at the clock values of one list. -/
theorem exists_clock_values (st : Store) :
    ∀ (σ : List (Request × CheckResponse)),
      (∀ p ∈ σ, ∃ now : Int, CheckBooking st p.1 now p.1.Facility = some p.2) →
      ∃ nows : List Int, nows.length = σ.length ∧
        ∀ (i : Nat) (p : Request × CheckResponse), σ[i]? = some p →
          CheckBooking st p.1 (nows.getD i 0) p.1.Facility = some p.2 := by
  intro σ
  induction σ with
  | nil =>
    intro _
    exact ⟨[], rfl, fun i p h => by simp at h⟩
  | cons a σ ih =>
    intro h
    obtain ⟨now, hnow⟩ := h a (by simp)
    obtain ⟨nows, hlen, hall⟩ := ih (fun p hp => h p (List.mem_cons_of_mem _ hp))
    refine ⟨now :: nows, by simp [hlen], ?_⟩
    intro i p hp
    cases i with
    | zero =>
      simp at hp
      subst hp
      simpa using hnow
    | succ n =>
      simpa using hall n p (by simpa using hp)

/-- When the server has received the responses of all the requests of a compound, each
the response of `CheckBooking` on `st` at some clock value, the responses in arrival
order are a permutation of the evaluations of the compound on `st` for some clock. -/
theorem exists_clock (st : Store) (requests : Requests)
    (got : List (Request × CheckResponse))
    (hperm : (got.map (fun p => p.1)).Perm (requests.map (prepare requests)))
    (hgot : ∀ p ∈ got, ∃ now : Int, CheckBooking st p.1 now p.1.Facility = some p.2) :
    ∃ clock : Nat → Int,
      ((got.map (fun p => p.2)).map some).Perm (evaluations st requests clock) := by
  obtain ⟨σ, hσ, hmap⟩ := perm_map_inv (fun p : Request × CheckResponse => p.1) got
    (requests.map (prepare requests)) hperm.symm
  obtain ⟨nows, hlen, hall⟩ := exists_clock_values st σ
    (fun p hp => hgot p (hσ.subset hp))
  refine ⟨fun i => nows.getD i 0, ?_⟩
  have hev : evaluations st requests (fun i => nows.getD i 0)
      = (σ.map (fun p => p.2)).map some := by
    apply List.ext_getElem?
    intro i
    simp only [evaluations, List.getElem?_map, List.getElem?_enum]
    have hi : (requests.map (prepare requests))[i]? = (σ.map (fun p => p.1))[i]? := by
      rw [hmap]
    simp only [List.getElem?_map] at hi
    cases hr : requests[i]? with
    | none =>
      rw [hr] at hi
      cases hs : σ[i]? with
      | none => simp
      | some p =>
        rw [hs] at hi
        simp at hi
    | some r =>
      rw [hr] at hi
      cases hs : σ[i]? with
      | none =>
        rw [hs] at hi
        simp at hi
      | some p =>
        rw [hs] at hi
        simp only [Option.map_some', Option.some.injEq] at hi
        have := hall i p hs
        rw [← hi] at this
        simpa [prepare] using this
  rw [hev]
  exact ((hσ.map (fun p => p.2)).map some).symm

end Task3

namespace Task3

/-- Receiving a compound from `input` keeps the invariant. -/
theorem stepTake_consistent (s0 : Store) (compounds : List Requests) (m m2 : Machine)
    (k : Nat) (hinv : Consistent s0 compounds m) (h : stepTake m k = some m2) :
    Consistent s0 compounds m2 := by
  cases hinv with
  | receiving history st sent input hserial hall =>
    cases hk : input[k]? with
    | none => simp [stepTake, hk] at h
    | some requests =>
      simp only [stepTake, hk, Option.some.injEq] at h
      subst h
      refine Consistent.dispatching history st sent (input.eraseIdx k) requests requests []
        hserial ?_ ⟨by simp, by simp, by simp⟩
      exact (List.Perm.append_left _ (perm_cons_eraseIdx input k requests hk)).trans hall
  | dispatching => simp [stepTake] at h
  | collecting => simp [stepTake] at h
  | committing => simp [stepTake] at h
  | delivering => simp [stepTake] at h
  | refusing => simp [stepTake] at h

/-- A turn of the loop that starts the evaluations keeps the invariant. -/
theorem stepLaunch_consistent (s0 : Store) (compounds : List Requests) (m m2 : Machine)
    (hinv : Consistent s0 compounds m) (h : stepLaunch m = some m2) :
    Consistent s0 compounds m2 := by
  cases hinv with
  | receiving => simp [stepLaunch] at h
  | dispatching history st sent input requests remaining evaluators hserial hall heval =>
    cases remaining with
    | nil =>
      simp only [stepLaunch, Option.some.injEq] at h
      subst h
      exact Consistent.collecting history st sent input requests evaluators [] hserial hall
        heval
    | cons request remaining =>
      simp only [stepLaunch, Option.some.injEq] at h
      subst h
      exact Consistent.dispatching history st sent input requests remaining _ hserial hall
        (Evaluating_launch st requests remaining request evaluators heval)
  | collecting => simp [stepLaunch] at h
  | committing => simp [stepLaunch] at h
  | delivering => simp [stepLaunch] at h
  | refusing => simp [stepLaunch] at h

/-- A step of a running goroutine that keeps its request and leaves it where an
evaluation on the present store can be keeps the invariant. -/
theorem evaluator_consistent (s0 : Store) (compounds : List Requests) (m : Machine)
    (k : Nat) (e e2 : Evaluator) (hinv : Consistent s0 compounds m)
    (hk : m.evaluators[k]? = some e) (hreq : e2.request = e.request)
    (htr : Tracks m.store e → Tracks m.store e2) :
    Consistent s0 compounds { m with evaluators := m.evaluators.set k e2 } := by
  cases hinv with
  | receiving => simp at hk
  | dispatching history st sent input requests remaining evaluators hserial hall heval =>
    exact Consistent.dispatching history st sent input requests remaining _ hserial hall
      (Evaluating_set st requests remaining evaluators [] k e e2 heval hk hreq htr)
  | collecting history st sent input requests evaluators got hserial hall heval =>
    exact Consistent.collecting history st sent input requests _ got hserial hall
      (Evaluating_set st requests [] evaluators got k e e2 heval hk hreq htr)
  | committing => simp at hk
  | delivering => simp at hk
  | refusing => simp at hk

/-- The call of `GetCurrentTime` and the two interval checks keep the invariant. -/
theorem stepReadClock_consistent (s0 : Store) (compounds : List Requests) (m m2 : Machine)
    (k : Nat) (now : Int) (hinv : Consistent s0 compounds m)
    (h : stepReadClock m k now = some m2) : Consistent s0 compounds m2 := by
  unfold stepReadClock at h
  split at h
  · rename_i request hk
    simp only [Option.some.injEq] at h
    subst h
    exact evaluator_consistent s0 compounds m k _ _ hinv hk
      (Tracks_afterClock m.store request now).1
      (fun _ => (Tracks_afterClock m.store request now).2)
  · simp at h

/-- The first loop of an evaluation keeps the invariant. -/
theorem stepCount_consistent (s0 : Store) (compounds : List Requests) (m m2 : Machine)
    (k : Nat) (hinv : Consistent s0 compounds m)
    (h : stepCount m k = some m2) : Consistent s0 compounds m2 := by
  unfold stepCount at h
  split at h
  · rename_i request hk
    simp only [Option.some.injEq] at h
    subst h
    exact evaluator_consistent s0 compounds m k _ _ hinv hk
      (Tracks_afterCount m.store request (by
        cases hinv with
        | receiving => simp at hk
        | dispatching _ _ _ _ _ _ _ _ _ heval => exact heval.2.1 _ (List.getElem?_mem hk)
        | collecting _ _ _ _ _ _ _ _ _ heval => exact heval.2.1 _ (List.getElem?_mem hk)
        | committing => simp at hk
        | delivering => simp at hk
        | refusing => simp at hk)).1
      (fun ht => (Tracks_afterCount m.store request ht).2)
  · simp at h

/-- The second loop of an evaluation keeps the invariant. -/
theorem stepChoose_consistent (s0 : Store) (compounds : List Requests) (m m2 : Machine)
    (k : Nat) (hinv : Consistent s0 compounds m)
    (h : stepChoose m k = some m2) : Consistent s0 compounds m2 := by
  unfold stepChoose at h
  split at h
  · rename_i request hk
    simp only [Option.some.injEq] at h
    subst h
    exact evaluator_consistent s0 compounds m k _ _ hinv hk
      (Tracks_afterChoice m.store request (by
        cases hinv with
        | receiving => simp at hk
        | dispatching _ _ _ _ _ _ _ _ _ heval => exact heval.2.1 _ (List.getElem?_mem hk)
        | collecting _ _ _ _ _ _ _ _ _ heval => exact heval.2.1 _ (List.getElem?_mem hk)
        | committing => simp at hk
        | delivering => simp at hk
        | refusing => simp at hk)).1
      (fun ht => (Tracks_afterChoice m.store request ht).2)
  · simp at h

end Task3

namespace Task3

/-- The receiving loop over one more response. -/
theorem aggregate_snoc (arrived : List CheckResponse) (response : CheckResponse) :
    aggregate (arrived ++ [response]) = collect (aggregate arrived) response := by
  simp [aggregate, List.foldl_append]

/-- A response handed to the server keeps the invariant. -/
theorem stepHand_consistent (s0 : Store) (compounds : List Requests) (m m2 : Machine)
    (k : Nat) (hinv : Consistent s0 compounds m) (h : stepHand m k = some m2) :
    Consistent s0 compounds m2 := by
  cases hinv with
  | receiving => simp [stepHand] at h
  | dispatching => simp [stepHand] at h
  | collecting history st sent input requests evaluators got hserial hall heval =>
    cases hk : evaluators[k]? with
    | none => simp [stepHand, hk] at h
    | some e =>
      obtain ⟨q, pc⟩ := e
      cases pc with
      | sending response =>
        by_cases hi : got.length < requests.length
        · simp only [stepHand, hk, hi, if_true, Option.some.injEq] at h
          subst h
          have := Consistent.collecting history st sent input requests
            (evaluators.eraseIdx k) (got ++ [(q, response)]) hserial hall
            (Evaluating_hand st requests evaluators got k q response heval hk)
          simpa [aggregate_snoc] using this
        · simp [stepHand, hk, hi] at h
      | entry => simp [stepHand, hk] at h
      | firstLoop => simp [stepHand, hk] at h
      | secondLoop => simp [stepHand, hk] at h
      | crashed => simp [stepHand, hk] at h
  | committing => simp [stepHand] at h
  | delivering => simp [stepHand] at h
  | refusing => simp [stepHand] at h

/-- Leaving the receiving loop keeps the invariant: all responses have arrived and no
evaluation is running. -/
theorem stepConclude_consistent (s0 : Store) (compounds : List Requests) (m m2 : Machine)
    (hinv : Consistent s0 compounds m) (h : stepConclude m = some m2) :
    Consistent s0 compounds m2 := by
  cases hinv with
  | receiving => simp [stepConclude] at h
  | dispatching => simp [stepConclude] at h
  | collecting history st sent input requests evaluators got hserial hall heval =>
    by_cases hi : got.length < requests.length
    · simp [stepConclude, hi] at h
    · obtain ⟨he, hperm⟩ := Evaluating_done st requests evaluators got heval hi
      subst he
      obtain ⟨clock, harrived⟩ := exists_clock st requests got hperm heval.2.2
      by_cases hp : compound_possible (aggregate (got.map (fun p : Request × CheckResponse => p.2))).1 = true
      · simp only [stepConclude, hi, hp, if_true, if_false, Option.some.injEq] at h
        subst h
        exact Consistent.committing history st sent input requests clock
          (got.map (fun p : Request × CheckResponse => p.2)) [] (aggregate (got.map (fun p : Request × CheckResponse => p.2))).2 hserial hall
          harrived hp (List.nil_append _).symm
      · have hp2 : compound_possible (aggregate (got.map (fun p : Request × CheckResponse => p.2))).1 = false := by
          simpa using hp
        simp only [stepConclude, hi, hp2, if_false, Bool.false_eq_true,
          Option.some.injEq] at h
        subst h
        have := Consistent.refusing history st sent input requests clock
          (got.map (fun p : Request × CheckResponse => p.2)) [] (aggregate (got.map (fun p : Request × CheckResponse => p.2))).1 hserial hall
          harrived hp2 (List.nil_append _).symm
        simpa [failureMessages] using this
  | committing => simp [stepConclude] at h
  | delivering => simp [stepConclude] at h
  | refusing => simp [stepConclude] at h

/-- A turn of the commit loop keeps the invariant. -/
theorem stepCommit_consistent (s0 : Store) (compounds : List Requests) (m m2 : Machine)
    (hinv : Consistent s0 compounds m) (h : stepCommit m = some m2) :
    Consistent s0 compounds m2 := by
  cases hinv with
  | receiving => simp [stepCommit] at h
  | dispatching => simp [stepCommit] at h
  | collecting => simp [stepCommit] at h
  | committing history st sent input requests clock arrived done actions hserial hall
      harrived hpossible hactions =>
    cases actions with
    | nil =>
      simp only [stepCommit, Option.some.injEq] at h
      subst h
      have := Consistent.delivering history st sent input requests clock arrived []
        (aggregate arrived).1 hserial hall harrived hpossible (by simp)
      simp only [List.append_nil] at hactions
      simpa [Server, hpossible, hactions] using this
    | cons action actions =>
      simp only [stepCommit, Option.some.injEq] at h
      subst h
      have := Consistent.committing history st sent input requests clock arrived
        (done ++ [action]) actions hserial hall harrived hpossible (by simp [hactions])
      simpa [List.foldl_append] using this
  | delivering => simp [stepCommit] at h
  | refusing => simp [stepCommit] at h

/-- A turn of a sending loop keeps the invariant; at its end the compound has been
handled and joins the history. -/
theorem stepNotify_consistent (s0 : Store) (compounds : List Requests) (m m2 : Machine)
    (hinv : Consistent s0 compounds m) (h : stepNotify m = some m2) :
    Consistent s0 compounds m2 := by
  cases hinv with
  | receiving => simp [stepNotify] at h
  | dispatching => simp [stepNotify] at h
  | collecting => simp [stepNotify] at h
  | committing => simp [stepNotify] at h
  | delivering history st sent input requests clock arrived done messages hserial hall
      harrived hpossible hmessages =>
    cases messages with
    | nil =>
      simp only [stepNotify, Option.some.injEq] at h
      subst h
      have hs := Serial_snoc history s0 st sent (requests, clock, arrived) hserial harrived
      simp only [List.append_nil] at hmessages
      subst hmessages
      have hsent : (Server st arrived).2 = (aggregate arrived).1 := by
        simp [Server, hpossible]
      rw [hsent] at hs
      exact Consistent.receiving _ _ _ input hs (by simpa using hall)
    | cons message messages =>
      simp only [stepNotify, Option.some.injEq] at h
      subst h
      have := Consistent.delivering history st sent input requests clock arrived
        (done ++ [message]) messages hserial hall harrived hpossible (by simp [hmessages])
      simpa using this
  | refusing history st sent input requests clock arrived done messages hserial hall
      harrived hpossible hmessages =>
    cases messages with
    | nil =>
      simp only [stepNotify, Option.some.injEq] at h
      subst h
      have hs := Serial_snoc history s0 st sent (requests, clock, arrived) hserial harrived
      simp only [List.append_nil] at hmessages
      subst hmessages
      have hsent : (Server st arrived).2 = failureMessages (aggregate arrived).1 := by
        simp [Server, hpossible]
      have hstore : (Server st arrived).1 = st := by
        simp [Server, hpossible]
      rw [hsent, hstore] at hs
      exact Consistent.receiving _ _ _ input hs (by simpa using hall)
    | cons message messages =>
      simp only [stepNotify, Option.some.injEq] at h
      subst h
      have := Consistent.refusing history st sent input requests clock arrived
        (done ++ [message]) messages hserial hall harrived hpossible (by simp [hmessages])
      simpa [failureMessages_append] using this

/-- Every step of the program keeps the invariant. -/
theorem step_consistent (s0 : Store) (compounds : List Requests) (m m2 : Machine)
    (move : Move) (hinv : Consistent s0 compounds m) (h : step m move = some m2) :
    Consistent s0 compounds m2 := by
  unfold step at h
  split at h
  · simp at h
  · cases move with
    | take k => exact stepTake_consistent s0 compounds m m2 k hinv h
    | launch => exact stepLaunch_consistent s0 compounds m m2 hinv h
    | readClock k now => exact stepReadClock_consistent s0 compounds m m2 k now hinv h
    | count k => exact stepCount_consistent s0 compounds m m2 k hinv h
    | choose k => exact stepChoose_consistent s0 compounds m m2 k hinv h
    | hand k => exact stepHand_consistent s0 compounds m m2 k hinv h
    | conclude => exact stepConclude_consistent s0 compounds m m2 hinv h
    | commit => exact stepCommit_consistent s0 compounds m m2 hinv h
    | notify => exact stepNotify_consistent s0 compounds m m2 hinv h

/-- Every state that the program reaches from its start satisfies the invariant. -/
theorem run_consistent (s0 : Store) (compounds : List Requests) :
    ∀ (moves : List Move) (m m2 : Machine), Consistent s0 compounds m →
      run m moves = some m2 → Consistent s0 compounds m2 := by
  intro moves
  induction moves with
  | nil =>
    intro m m2 hinv h
    simp only [run, Option.some.injEq] at h
    subst h
    exact hinv
  | cons move moves ih =>
    intro m m2 hinv h
    simp only [run] at h
    cases hs : step m move with
    | none => simp [hs] at h
    | some m3 =>
      rw [hs] at h
      exact ih m3 m2 (step_consistent s0 compounds m m3 move hinv hs) h

/-- The program at its start satisfies the invariant. -/
theorem initial_consistent (s0 : Store) (compounds : List Requests) :
    Consistent s0 compounds (initial s0 compounds) :=
  Consistent.receiving [] s0 [] compounds ⟨rfl, rfl⟩ (by simp)

end Task3

namespace Task3

/-- A serial history is a run of the server loop in which each compound's responses
arrive in the order of the history. -/
theorem Serial_ServerLoop :
    ∀ (history : List (Requests × (Nat → Int) × List CheckResponse)) (s final : Store)
      (sent : List BookingMessage), Serial s history final sent →
      ∃ out : List (List BookingMessage),
        ServerLoop s (history.map (fun h => (h.1, h.2.1, fun _ => h.2.2))) = some (final, out) ∧
        out.flatten = sent := by
  intro history
  induction history with
  | nil =>
    intro s final sent h
    simp only [Serial] at h
    obtain ⟨rfl, rfl⟩ := h
    exact ⟨[], rfl, rfl⟩
  | cons job history ih =>
    intro s final sent h
    simp only [Serial] at h
    obtain ⟨hperm, sent2, hrest, rfl⟩ := h
    obtain ⟨out, hloop, hjoin⟩ := ih _ final sent2 hrest
    obtain ⟨rs, hrs⟩ := returned_of_all (evaluations s job.1 job.2.1) (by
      intro x hx
      have := hperm.symm.subset hx
      obtain ⟨r, _, hr⟩ := List.mem_map.mp this
      exact ⟨r, hr.symm⟩)
    refine ⟨(Server s job.2.2).2 :: out, ?_, by simp [hjoin]⟩
    simp [ServerLoop, ServerIteration, hrs, hloop]

/-- C23: in every state `m` that the program reaches from its start, whatever the
scheduler lets happen, the compounds `history` have been handled one at a time, each
evaluated on the store left by those before it with one response per request and then
committed or discarded as a whole, leaving the store `st` and the messages `sent`; this
is a run of `ServerLoop`.  The server can receive from `input` only when it stands at
that receive, and then no evaluation is running, the store is `st`, the messages sent
are `sent`, and the compounds handled and those still waiting are the compounds
submitted.  As long as an evaluation is running the server is starting or collecting the
evaluations of one compound, the responses still to come are as many as the goroutines
running, the store is still `st`, and every goroutine at its send holds the response of
`CheckBooking` on `st`. -/
theorem Server_one_compound_at_a_time (s0 : Store) (compounds : List Requests)
    (moves : List Move) (m : Machine) (hrun : run (initial s0 compounds) moves = some m) :
    ∃ (history : List (Requests × (Nat → Int) × List CheckResponse)) (st : Store)
      (sent : List BookingMessage),
      Serial s0 history st sent ∧
      (∃ out : List (List BookingMessage),
        ServerLoop s0 (history.map (fun h => (h.1, h.2.1, fun _ => h.2.2))) = some (st, out) ∧
        out.flatten = sent) ∧
      (∀ (k : Nat) (m2 : Machine), step m (.take k) = some m2 → m.server = .receiving) ∧
      (m.server = .receiving →
        m.evaluators = [] ∧ m.store = st ∧ m.inboxes = sent ∧
        (history.map (fun h => h.1) ++ m.input).Perm compounds) ∧
      (m.evaluators ≠ [] →
        m.store = st ∧ m.inboxes = sent ∧
        ((∃ requests remaining, m.server = .dispatching requests remaining) ∨
          (∃ requests i messages actions,
            m.server = .collecting requests i messages actions ∧
            i + m.evaluators.length = requests.length)) ∧
        ∀ e ∈ m.evaluators, ∀ response, e.pc = .sending response →
          ∃ now : Int, CheckBooking st e.request now e.request.Facility = some response) := by
  have hinv := run_consistent s0 compounds moves _ m (initial_consistent s0 compounds) hrun
  have htracks : ∀ (st : Store) (evaluators : List Evaluator),
      (∀ e ∈ evaluators, Tracks st e) →
      ∀ e ∈ evaluators, ∀ response, e.pc = .sending response →
        ∃ now : Int, CheckBooking st e.request now e.request.Facility = some response := by
    intro st evaluators h e he response hpc
    have := h e he
    obtain ⟨q, pc⟩ := e
    simp only at hpc
    subst hpc
    exact this
  cases hinv with
  | receiving history st sent input hserial hall =>
    exact ⟨history, st, sent, hserial, Serial_ServerLoop history s0 st sent hserial,
      fun _ _ _ => rfl, fun _ => ⟨rfl, rfl, rfl, hall⟩, fun h => absurd rfl h⟩
  | dispatching history st sent input requests remaining evaluators hserial hall heval =>
    refine ⟨history, st, sent, hserial, Serial_ServerLoop history s0 st sent hserial,
      ?_, fun h => by simp at h, fun _ => ⟨rfl, rfl, Or.inl ⟨requests, remaining, rfl⟩,
        htracks st evaluators heval.2.1⟩⟩
    intro k m2 h
    unfold step at h
    split at h
    · simp at h
    · simp [stepTake] at h
  | collecting history st sent input requests evaluators got hserial hall heval =>
    refine ⟨history, st, sent, hserial, Serial_ServerLoop history s0 st sent hserial,
      ?_, fun h => by simp at h, fun _ => ⟨rfl, rfl, Or.inr ⟨requests, got.length, _, _, rfl,
        Evaluating_length st requests evaluators got heval⟩,
        htracks st evaluators heval.2.1⟩⟩
    intro k m2 h
    unfold step at h
    split at h
    · simp at h
    · simp [stepTake] at h
  | committing history st sent input requests clock arrived done actions hserial hall
      harrived hpossible hactions =>
    refine ⟨history, st, sent, hserial, Serial_ServerLoop history s0 st sent hserial,
      ?_, fun h => by simp at h, fun h => absurd rfl h⟩
    intro k m2 h
    unfold step at h
    split at h
    · simp at h
    · simp [stepTake] at h
  | delivering history st sent input requests clock arrived done messages hserial hall
      harrived hpossible hmessages =>
    refine ⟨history, st, sent, hserial, Serial_ServerLoop history s0 st sent hserial,
      ?_, fun h => by simp at h, fun h => absurd rfl h⟩
    intro k m2 h
    unfold step at h
    split at h
    · simp at h
    · simp [stepTake] at h
  | refusing history st sent input requests clock arrived done messages hserial hall
      harrived hpossible hmessages =>
    refine ⟨history, st, sent, hserial, Serial_ServerLoop history s0 st sent hserial,
      ?_, fun h => by simp at h, fun h => absurd rfl h⟩
    intro k m2 h
    unfold step at h
    split at h
    · simp at h
    · simp [stepTake] at h

/-- Witness of C23: the schedule `mainMoves` on the facilities of `main` with capacity 1.
The compound of user 1 has been committed and its messages sent; the server is
collecting the responses of the compound of user 3, none received, two goroutines
running, one of them at its send; the store is the one that user 1's compound left. -/
theorem Server_one_compound_at_a_time_witness :
    run (initial (mainStore 1) mainInput) mainMoves = some mainMachine ∧
    ((mainMachine.store 0).Bookings.map (fun b => b.User.Id),
      (mainMachine.store 1).Bookings.map (fun b => b.User.Id),
      mainMachine.evaluators.length,
      mainMachine.inboxes.map (fun x => (x.Booking.User.Id, x.Booking.FacilityID, x.Action)))
      = ([1], [1], 2, [(1, "projector", 0), (1, "room", 0)]) ∧
    ∃ (history : List (Requests × (Nat → Int) × List CheckResponse)) (st : Store)
      (sent : List BookingMessage),
      Serial (mainStore 1) history st sent ∧
      (∃ out : List (List BookingMessage),
        ServerLoop (mainStore 1) (history.map (fun h => (h.1, h.2.1, fun _ => h.2.2)))
          = some (st, out) ∧
        out.flatten = sent) ∧
      (∀ (k : Nat) (m2 : Machine), step mainMachine (.take k) = some m2 →
        mainMachine.server = .receiving) ∧
      (mainMachine.server = .receiving →
        mainMachine.evaluators = [] ∧ mainMachine.store = st ∧ mainMachine.inboxes = sent ∧
        (history.map (fun h => h.1) ++ mainMachine.input).Perm mainInput) ∧
      (mainMachine.evaluators ≠ [] →
        mainMachine.store = st ∧ mainMachine.inboxes = sent ∧
        ((∃ requests remaining, mainMachine.server = .dispatching requests remaining) ∨
          (∃ requests i messages actions,
            mainMachine.server = .collecting requests i messages actions ∧
            i + mainMachine.evaluators.length = requests.length)) ∧
        ∀ e ∈ mainMachine.evaluators, ∀ response, e.pc = .sending response →
          ∃ now : Int,
            CheckBooking st e.request now e.request.Facility = some response) :=
  ⟨rfl, by decide,
    Server_one_compound_at_a_time (mainStore 1) mainInput mainMoves mainMachine rfl⟩

end Task3

/-! ## The capacity checks and the victim against true overlap -/

/-- C6 (failing input): in task 3 the room of capacity 1 holds, in this order, the
booking of standard user 1 for [12,15) and the booking of standard user 2 for [10,20),
both admitted by the server.  VIP user 3 asks for [10,20).  Both stored bookings are
owned by standard users and hold the instant 12, which the candidate holds too, so the
first overlapping booking that is not VIP-owned is the one at index 0.  `CheckBooking`
preempts and its victim is the booking at index 1, user 2's: the remove action and the
Cancelled message are for user 2, and after the commit the room holds the bookings of
users 1 and 3.  Task 2 `CheckBooking` on the same room does the same. -/
theorem victim_is_not_first_overlapping :
    ((Task3.nestedRoomStore 0).Capacity = 1 ∧
      (Task3.nestedRoomStore 0).Bookings.map
          (fun b => (b.User.Id, b.User.Priority, b.StartTime, b.EndTime))
        = [(1, false, 12, 15), (2, false, 10, 20)] ∧
      Task3.occupancy (Task3.nestedRoomStore 0).Bookings 12 = 2 ∧
      (Task3.nestedVipRequest.Booking.StartTime ≤ 12 ∧
        (12 : Int) < Task3.nestedVipRequest.Booking.EndTime) ∧
      (Task3.nestedRoomStore 0).Bookings.map (fun b =>
          decide (Task3.nestedVipRequest.Booking.StartTime < b.EndTime) &&
            decide (b.StartTime < Task3.nestedVipRequest.Booking.EndTime))
        = [true, true] ∧
      (Task3.nestedRoomStore 0).Bookings.map (fun b =>
          CheckTimeslotOverlap Task3.nestedVipRequest.Booking.StartTime
            Task3.nestedVipRequest.Booking.EndTime b.StartTime b.EndTime)
        = [false, true]) ∧
    ((Task3.CheckBooking Task3.nestedRoomStore Task3.nestedVipRequest 0 0).map (fun r =>
        (r.Actions.map (fun a => (a.Action, a.Booking.User.Id, a.Booking.StartTime,
            a.Booking.EndTime)),
          r.BookingMessages.map (fun m => (m.Action, m.Booking.User.Id, m.Message))))
      = some ([(1, 2, 10, 20), (0, 3, 10, 20)],
          [(2, 2, "A VIP-User has overwritten your booking."),
            (0, 3, "Facilities were booked, you have overwritten a non-VIP booking.")]) ∧
      ((Task3.Server Task3.nestedRoomStore
          (Task3.arrivedInRequestOrder Task3.nestedRoomStore
            (Task3.MakeBookings ⟨3, true⟩ (Task3.mainStore 1) [0] 10 20) (fun _ => 0))).1
        0).Bookings.map (fun b => (b.User.Id, b.StartTime, b.EndTime))
        = [(1, 12, 15), (3, 10, 20)]) ∧
    (Task2.nestedRoom = ⟨"room", [⟨⟨1, false⟩, "room", 12, 15⟩, ⟨⟨2, false⟩, "room", 10, 20⟩], 1⟩ ∧
      Task2.CheckBooking ⟨"room", ⟨⟨3, true⟩, "room", 10, 20⟩⟩ 0 Task2.nestedRoom
        = ([⟨⟨⟨2, false⟩, "room", 10, 20⟩, 2, "A VIP-User has overwritten your booking."⟩,
            ⟨⟨⟨3, true⟩, "room", 10, 20⟩, 0,
              "Facilities were booked, you have overwritten a non-VIP booking."⟩],
          ⟨"room", [⟨⟨1, false⟩, "room", 12, 15⟩, ⟨⟨3, true⟩, "room", 10, 20⟩], 1⟩)) :=
  ⟨⟨by decide, by decide, by decide, by decide, by decide, by decide⟩,
    ⟨by decide, by decide⟩, ⟨by decide, by decide⟩⟩

namespace Task3

/-- C11 (failing input): the room of capacity 1 holds the booking of standard user 1 for
[2,5), admitted by the server.  Standard user 2 asks for [0,10) at clock value 0, so
`now ≤ StartTime < EndTime`.  The stored booking overlaps the candidate (`0 < 5` and
`2 < 10`; both hold the instant 3), so the number of overlapping bookings, 1, is at least
the capacity; yet `CheckBooking` does not reject: it answers outright, with the add
action and the Accepted message, because `CheckTimeslotOverlap` does not report the
stored booking. -/
theorem standard_admitted_over_enclosed_booking :
    ((enclosingRequest ⟨2, false⟩).Booking.User.Priority = false ∧
      1 ≤ (heldStore ⟨1, false⟩ 0).Capacity ∧
      (0 : Int) ≤ (enclosingRequest ⟨2, false⟩).Booking.StartTime ∧
      (enclosingRequest ⟨2, false⟩).Booking.StartTime
        < (enclosingRequest ⟨2, false⟩).Booking.EndTime) ∧
    ((heldStore ⟨1, false⟩ 0).Capacity = 1 ∧
      (heldStore ⟨1, false⟩ 0).Bookings.map
          (fun b => (b.User.Id, b.User.Priority, b.StartTime, b.EndTime))
        = [(1, false, 2, 5)] ∧
      (heldStore ⟨1, false⟩ 0).Bookings.countP (fun b =>
          decide ((enclosingRequest ⟨2, false⟩).Booking.StartTime < b.EndTime) &&
            decide (b.StartTime < (enclosingRequest ⟨2, false⟩).Booking.EndTime)) = 1 ∧
      occupancy (heldStore ⟨1, false⟩ 0).Bookings 3 = 1 ∧
      overlapCount (enclosingRequest ⟨2, false⟩).Booking (heldStore ⟨1, false⟩ 0).Bookings
        = 0) ∧
    CheckBooking (heldStore ⟨1, false⟩) (enclosingRequest ⟨2, false⟩) 0 0
      = some (outright (enclosingRequest ⟨2, false⟩) 0) ∧
    (CheckBooking (heldStore ⟨1, false⟩) (enclosingRequest ⟨2, false⟩) 0 0).map
        (fun r => r.BookingMessages.map (fun m => (m.Action, m.Message)))
      = some [(0, "Facilities were booked.")] :=
  ⟨⟨rfl, by decide, by decide, by decide⟩,
    ⟨by decide, by decide, by decide, by decide, by decide⟩, rfl, by decide⟩

/-- C12 (failing input): the room of capacity 1 holds the booking of VIP user 3 for
[2,5), admitted by the server.  VIP user 4 asks for [0,10) at clock value 0, so
`now ≤ StartTime < EndTime`.  The stored booking is VIP-owned and overlaps the candidate
(`0 < 5` and `2 < 10`; both hold the instant 3), so the number of VIP-owned overlapping
bookings, 1, is at least the capacity; yet `CheckBooking` does not reject: it answers
outright, because `CheckTimeslotOverlap` does not report the stored booking. -/
theorem vip_admitted_over_enclosed_vip_booking :
    ((enclosingRequest ⟨4, true⟩).Booking.User.Priority = true ∧
      1 ≤ (heldStore ⟨3, true⟩ 0).Capacity ∧
      (0 : Int) ≤ (enclosingRequest ⟨4, true⟩).Booking.StartTime ∧
      (enclosingRequest ⟨4, true⟩).Booking.StartTime
        < (enclosingRequest ⟨4, true⟩).Booking.EndTime) ∧
    ((heldStore ⟨3, true⟩ 0).Capacity = 1 ∧
      (heldStore ⟨3, true⟩ 0).Bookings.map
          (fun b => (b.User.Id, b.User.Priority, b.StartTime, b.EndTime))
        = [(3, true, 2, 5)] ∧
      (heldStore ⟨3, true⟩ 0).Bookings.countP (fun b =>
          b.User.Priority &&
            decide ((enclosingRequest ⟨4, true⟩).Booking.StartTime < b.EndTime) &&
            decide (b.StartTime < (enclosingRequest ⟨4, true⟩).Booking.EndTime)) = 1 ∧
      occupancyVIP (heldStore ⟨3, true⟩ 0).Bookings 3 = 1 ∧
      vipOverlapCount (enclosingRequest ⟨4, true⟩).Booking (heldStore ⟨3, true⟩ 0).Bookings
        = 0) ∧
    CheckBooking (heldStore ⟨3, true⟩) (enclosingRequest ⟨4, true⟩) 0 0
      = some (outright (enclosingRequest ⟨4, true⟩) 0) ∧
    (CheckBooking (heldStore ⟨3, true⟩) (enclosingRequest ⟨4, true⟩) 0 0).map
        (fun r => r.BookingMessages.map (fun m => (m.Action, m.Message)))
      = some [(0, "Facilities were booked.")] :=
  ⟨⟨rfl, by decide, by decide, by decide⟩,
    ⟨by decide, by decide, by decide, by decide, by decide⟩, rfl, by decide⟩

end Task3
